import Mathlib

/-!
# Infix expression parser, evaluator and printer

A shallow embedding of `src/lib/infixParser.cpp`: the token cursor
(`infixParser`, `nextToken`), the recursive-descent parser
(`infixparseExpression`, `infixparseTerm`, `infixparseFactor`,
`infixparsePrimary`), the tree-walking evaluator (`evaluate`) and the two
printers (`toInfix`, `printInfix`).

Conventions of the embedding:

* `double` and the library routines applied to it (`+ - * /`, `== 0`,
  `std::stod`, `operator<<`) are a parameter, `DoubleOps F`; every general
  theorem holds for all of them. `exact` is the instance used by the worked
  examples.
* a thrown C++ exception is an `Except.error`; since the parser object and the
  symbol table are mutated in place, the state reached when the exception is
  thrown is returned next to it.
* `size_t` arithmetic is arithmetic on `Nat` modulo `2 ^ 64`.
* the mutual recursion of the parser is run on a fuel counter; `infixparse`
  supplies `4 * tokens.size() + 4`, which is never exhausted on a non-empty
  vector (`rest_fuel_enough`, `infixparse_error`).
* `std::stod` returns a value or throws `std::invalid_argument` or
  `std::out_of_range` (`StodError`); the parser catches neither, so the
  exception leaves `infixparse` as `ParseError.stod`.
-/

namespace ScriptLang

/-! # Definitions -/

/-! ## Tokens -/

/-- Modelled from the spec: the `TokenType` enumeration, declared in a header
that is not under `src/`; section 2 of the spec lists the kinds. -/
inductive TokenType where
  | NUMBER
  | IDENTIFIER
  | OPERATOR
  | ASSIGNMENT
  | LEFT_PAREN
  | RIGHT_PAREN
  deriving DecidableEq, Repr

/-- Modelled from the spec: the `Token` record, declared in a header that is not
under `src/`; the field order is that of the constructor call
`Token(0, 0, "END", TokenType::OPERATOR)` in `nextToken`. -/
structure Token where
  line : Nat
  column : Nat
  text : String
  type : TokenType
  deriving DecidableEq, Repr

/-- The sentinel `Token(0, 0, "END", TokenType::OPERATOR)` that `nextToken`
installs once the last token has been passed. -/
def END : Token := ⟨0, 0, "END", TokenType.OPERATOR⟩

/-! ## Syntax trees -/

/-- The four `ASTNode` subclasses. `F` is the type of `double` values. -/
inductive ASTNode (F : Type) where
  | Number (value : F)
  | Variable (variableName : String)
  | BinaryOperation (op : Char) (left right : ASTNode F)
  | Assignment (variableName : String) (expression : ASTNode F)
  deriving DecidableEq, Repr

/-- The exceptions that `std::stod` throws: `std::invalid_argument` when no
conversion can be performed, `std::out_of_range` when the converted value is
outside the range of `double`. -/
inductive StodError where
  | invalid_argument
  | out_of_range
  deriving DecidableEq, Repr

/-- The operations on `double` that the program uses, taken as a parameter. -/
structure DoubleOps (F : Type) where
  /-- The operator `leftValue + rightValue`. -/
  add : F → F → F
  /-- The operator `leftValue - rightValue`. -/
  sub : F → F → F
  /-- The operator `leftValue * rightValue`. -/
  mul : F → F → F
  /-- The operator `leftValue / rightValue`. -/
  div : F → F → F
  /-- The comparison `rightValue == 0`. -/
  eqZero : F → Bool
  /-- The conversion `std::stod(text)`: the value returned, or the exception
  thrown. -/
  stod : String → Except StodError F
  /-- The text that `oss << value` writes. -/
  toStr : F → String

/-! ## Evaluation -/

/-- The symbol table `std::map<std::string, double>`. -/
abbrev SymbolTable (F : Type) := String → Option F

/-- The statement `symbolTable[variableName] = result`. -/
def SymbolTable.set {F : Type} (symbolTable : SymbolTable F) (variableName : String)
    (result : F) : SymbolTable F :=
  fun k => if k = variableName then some result else symbolTable k

/-- The table with no entry. -/
def SymbolTable.empty {F : Type} : SymbolTable F := fun _ => none

/-- The exceptions thrown by `evaluate`. -/
inductive EvalError where
  | UnknownIdentifier (variableName : String)
  | DivisionByZero
  | InvalidOperator
  deriving DecidableEq, Repr

/-- The virtual method `evaluate`, one case per subclass:
`Assignment::evaluate`, `Variable::evaluate` and `BinaryOperation::evaluate`
from `infixParser.cpp`. Modelled from the spec: `Number::evaluate`, which is
not under `src/` ("returns its literal value; no side effect").
The result pairs the returned value, or the exception thrown, with the symbol
table as the call leaves it. -/
def evaluate {F : Type} (ops : DoubleOps F) :
    ASTNode F → SymbolTable F → Except EvalError F × SymbolTable F
  | .Number value, symbolTable => (.ok value, symbolTable)
  | .Variable variableName, symbolTable =>
    match symbolTable variableName with
    | some v => (.ok v, symbolTable)
    | none => (.error (.UnknownIdentifier variableName), symbolTable)
  | .BinaryOperation op left right, symbolTable =>
    match evaluate ops left symbolTable with
    | (.error e, st1) => (.error e, st1)
    | (.ok leftValue, st1) =>
      match evaluate ops right st1 with
      | (.error e, st2) => (.error e, st2)
      | (.ok rightValue, st2) =>
        if op = '+' then (.ok (ops.add leftValue rightValue), st2)
        else if op = '-' then (.ok (ops.sub leftValue rightValue), st2)
        else if op = '*' then (.ok (ops.mul leftValue rightValue), st2)
        else if op = '/' then
          if ops.eqZero rightValue = true then (.error .DivisionByZero, st2)
          else (.ok (ops.div leftValue rightValue), st2)
        else (.error .InvalidOperator, st2)
  | .Assignment variableName expression, symbolTable =>
    match evaluate ops expression symbolTable with
    | (.error e, st1) => (.error e, st1)
    | (.ok result, st1) => (.ok result, st1.set variableName result)

/-! ## Printing -/

/-- The virtual method `toInfix`: `Assignment::toInfix`,
`BinaryOperation::toInfix` and `Number::toInfix` from `infixParser.cpp`.
Modelled from the spec: `Variable::toInfix`, which is not under `src/`
("Variable: the bare name"). -/
def ASTNode.toInfix {F : Type} (ops : DoubleOps F) : ASTNode F → String
  | .Number value => ops.toStr value
  | .Variable variableName => variableName
  | .BinaryOperation op left right =>
    "(" ++ left.toInfix ops ++ " " ++ String.singleton op ++ " " ++ right.toInfix ops ++ ")"
  | .Assignment variableName expression =>
    "(" ++ variableName ++ " = " ++ expression.toInfix ops ++ ")"

/-- The method `infixParser::printInfix`, which tries the `dynamic_cast`s in the
order BinaryOperation, Number, Assignment, Variable. -/
def printInfix {F : Type} (ops : DoubleOps F) : ASTNode F → String
  | .BinaryOperation op left right =>
    "(" ++ printInfix ops left ++ " " ++ String.singleton op ++ " " ++ printInfix ops right ++ ")"
  | .Number value => ops.toStr value
  | .Assignment variableName expression =>
    "(" ++ variableName ++ " = " ++ printInfix ops expression ++ ")"
  | .Variable variableName => variableName

/-! ## The token cursor -/

/-- The data members of `class infixParser` that the parser reads and writes. -/
structure infixParser where
  tokens : List Token
  index : Nat
  currentToken : Token
  deriving DecidableEq, Repr

/-- The exceptions and abnormal outcomes of parsing. -/
inductive ParseError where
  /-- The exception `UnexpectedTokenException(text, line, column)`. -/
  | UnexpectedToken (text : String) (line column : Nat)
  /-- The exception thrown by `std::stod`, which no method catches. -/
  | stod (e : StodError)
  /-- The read `tokens[index]` fell outside the vector (undefined behaviour). -/
  | outOfBounds
  /-- The fuel of the embedding ran out; no C++ counterpart. -/
  | fuelExhausted
  deriving DecidableEq, Repr

/-- The constructor `infixParser::infixParser`. `unset` stands for the
default-constructed `Token` that `currentToken` keeps when the vector is empty
(the default constructor is declared in a header that is not under `src/`). -/
def infixParser.new (tokens : List Token) (unset : Token) : infixParser :=
  { tokens := tokens
    index := 0
    currentToken := match tokens with
      | [] => unset
      | t :: _ => t }

/-- The value of `tokens.size() - 1` in `size_t` arithmetic: subtracting one
is adding `2 ^ 64 - 1` modulo `2 ^ 64`. -/
def sizeMinusOne (tokens : List Token) : Nat :=
  (2 ^ 64 - 1 + tokens.length) % 2 ^ 64

/-- The method `infixParser::nextToken`. -/
def nextToken (p : infixParser) : Except ParseError infixParser :=
  if p.index < sizeMinusOne p.tokens then
    match p.tokens[p.index + 1]? with
    | some t => .ok { p with index := p.index + 1, currentToken := t }
    | none => .error .outOfBounds
  else
    .ok { p with currentToken := END }

/-! ## The parser -/

/-- The outcome of a parsing method: the node returned or the exception thrown,
and the parser object as the call leaves it. -/
abbrev ParseResult (F : Type) := Except ParseError (ASTNode F) × infixParser

mutual

/-- The method `infixParser::infixparseExpression`. -/
def infixparseExpression {F : Type} (ops : DoubleOps F) : Nat → infixParser → ParseResult F
  | 0, p => (.error .fuelExhausted, p)
  | fuel + 1, p =>
    match infixparseTerm ops fuel p with
    | (.error e, p1) => (.error e, p1)
    | (.ok left, p1) => infixparseExpressionLoop ops fuel left p1

/-- The `while` loop of `infixparseExpression`, entered with `left` built. -/
def infixparseExpressionLoop {F : Type} (ops : DoubleOps F) :
    Nat → ASTNode F → infixParser → ParseResult F
  | 0, _, p => (.error .fuelExhausted, p)
  | fuel + 1, left, p =>
    if p.currentToken.type = TokenType.OPERATOR ∧
        (p.currentToken.text = "+" ∨ p.currentToken.text = "-") then
      let op := p.currentToken.text.get 0
      match nextToken p with
      | .error e => (.error e, p)
      | .ok p1 =>
        match infixparseTerm ops fuel p1 with
        | (.error e, p2) => (.error e, p2)
        | (.ok right, p2) =>
          infixparseExpressionLoop ops fuel (.BinaryOperation op left right) p2
    else (.ok left, p)

/-- The method `infixParser::infixparseTerm`. -/
def infixparseTerm {F : Type} (ops : DoubleOps F) : Nat → infixParser → ParseResult F
  | 0, p => (.error .fuelExhausted, p)
  | fuel + 1, p =>
    match infixparseFactor ops fuel p with
    | (.error e, p1) => (.error e, p1)
    | (.ok left, p1) => infixparseTermLoop ops fuel left p1

/-- The `while` loop of `infixparseTerm`, entered with `left` built. -/
def infixparseTermLoop {F : Type} (ops : DoubleOps F) :
    Nat → ASTNode F → infixParser → ParseResult F
  | 0, _, p => (.error .fuelExhausted, p)
  | fuel + 1, left, p =>
    if p.currentToken.type = TokenType.OPERATOR ∧
        (p.currentToken.text = "*" ∨ p.currentToken.text = "/") then
      let op := p.currentToken.text.get 0
      match nextToken p with
      | .error e => (.error e, p)
      | .ok p1 =>
        match infixparseFactor ops fuel p1 with
        | (.error e, p2) => (.error e, p2)
        | (.ok right, p2) =>
          infixparseTermLoop ops fuel (.BinaryOperation op left right) p2
    else (.ok left, p)

/-- The method `infixParser::infixparseFactor`. -/
def infixparseFactor {F : Type} (ops : DoubleOps F) : Nat → infixParser → ParseResult F
  | 0, p => (.error .fuelExhausted, p)
  | fuel + 1, p => infixparsePrimary ops fuel p

/-- The method `infixParser::infixparsePrimary`. -/
def infixparsePrimary {F : Type} (ops : DoubleOps F) : Nat → infixParser → ParseResult F
  | 0, p => (.error .fuelExhausted, p)
  | fuel + 1, p =>
    if p.currentToken.type = TokenType.NUMBER then
      match ops.stod p.currentToken.text with
      | .error e => (.error (.stod e), p)
      | .ok value =>
        match nextToken p with
        | .error e => (.error e, p)
        | .ok p1 => (.ok (.Number value), p1)
    else if p.currentToken.type = TokenType.IDENTIFIER then
      let varName := p.currentToken.text
      match nextToken p with
      | .error e => (.error e, p)
      | .ok p1 =>
        if p1.currentToken.type = TokenType.ASSIGNMENT then
          match nextToken p1 with
          | .error e => (.error e, p1)
          | .ok p2 =>
            match infixparseExpression ops fuel p2 with
            | (.error e, p3) => (.error e, p3)
            | (.ok expr, p3) => (.ok (.Assignment varName expr), p3)
        else (.ok (.Variable varName), p1)
    else if p.currentToken.type = TokenType.LEFT_PAREN then
      match nextToken p with
      | .error e => (.error e, p)
      | .ok p1 =>
        match infixparseExpression ops fuel p1 with
        | (.error e, p2) => (.error e, p2)
        | (.ok result, p2) =>
          if p2.currentToken.type = TokenType.RIGHT_PAREN then
            match nextToken p2 with
            | .error e => (.error e, p2)
            | .ok p3 => (.ok result, p3)
          else
            (.error (.UnexpectedToken p2.currentToken.text p2.currentToken.line
              p2.currentToken.column), p2)
    else if p.currentToken.type = TokenType.RIGHT_PAREN then
      (.error (.UnexpectedToken p.currentToken.text p.currentToken.line
        p.currentToken.column), p)
    else
      (.error (.UnexpectedToken p.currentToken.text p.currentToken.line
        p.currentToken.column), p)

end

/-- The method `infixParser::infixparse`. -/
def infixparse {F : Type} (ops : DoubleOps F) (p : infixParser) : ParseResult F :=
  infixparseExpression ops (4 * p.tokens.length + 4) p

/-! ## The parser as a function of the tokens still to be read

The definitions of this section are a device of the proofs, not a translation
of the source: they run the same methods on the list of tokens not yet
consumed, whose head stands for `currentToken` and whose tail for the state
after `nextToken`. `view_parse` shows that they return and throw what the
methods of the previous section do. -/

/-- The outcome of a parsing method seen from the input: the node returned or
the exception thrown, and the tokens not yet consumed. -/
abbrev RestResult (F : Type) := Except ParseError (ASTNode F) × List Token

/-- The current token when `rest` is still to be read: its head, or the `END`
sentinel once nothing is left. -/
def restCurrent (rest : List Token) : Token := rest.headD END

mutual

/-- The method `infixparseExpression` on the tokens still to be read. -/
def restExpression {F : Type} (ops : DoubleOps F) : Nat → List Token → RestResult F
  | 0, r => (.error .fuelExhausted, r)
  | fuel + 1, r =>
    match restTerm ops fuel r with
    | (.error e, r1) => (.error e, r1)
    | (.ok left, r1) => restExpressionLoop ops fuel left r1

/-- The loop of `infixparseExpression` on the tokens still to be read. -/
def restExpressionLoop {F : Type} (ops : DoubleOps F) :
    Nat → ASTNode F → List Token → RestResult F
  | 0, _, r => (.error .fuelExhausted, r)
  | fuel + 1, left, r =>
    if (restCurrent r).type = TokenType.OPERATOR ∧
        ((restCurrent r).text = "+" ∨ (restCurrent r).text = "-") then
      match restTerm ops fuel r.tail with
      | (.error e, r2) => (.error e, r2)
      | (.ok right, r2) =>
        restExpressionLoop ops fuel
          (.BinaryOperation ((restCurrent r).text.get 0) left right) r2
    else (.ok left, r)

/-- The method `infixparseTerm` on the tokens still to be read. -/
def restTerm {F : Type} (ops : DoubleOps F) : Nat → List Token → RestResult F
  | 0, r => (.error .fuelExhausted, r)
  | fuel + 1, r =>
    match restFactor ops fuel r with
    | (.error e, r1) => (.error e, r1)
    | (.ok left, r1) => restTermLoop ops fuel left r1

/-- The loop of `infixparseTerm` on the tokens still to be read. -/
def restTermLoop {F : Type} (ops : DoubleOps F) :
    Nat → ASTNode F → List Token → RestResult F
  | 0, _, r => (.error .fuelExhausted, r)
  | fuel + 1, left, r =>
    if (restCurrent r).type = TokenType.OPERATOR ∧
        ((restCurrent r).text = "*" ∨ (restCurrent r).text = "/") then
      match restFactor ops fuel r.tail with
      | (.error e, r2) => (.error e, r2)
      | (.ok right, r2) =>
        restTermLoop ops fuel
          (.BinaryOperation ((restCurrent r).text.get 0) left right) r2
    else (.ok left, r)

/-- The method `infixparseFactor` on the tokens still to be read. -/
def restFactor {F : Type} (ops : DoubleOps F) : Nat → List Token → RestResult F
  | 0, r => (.error .fuelExhausted, r)
  | fuel + 1, r => restPrimary ops fuel r

/-- The method `infixparsePrimary` on the tokens still to be read. -/
def restPrimary {F : Type} (ops : DoubleOps F) : Nat → List Token → RestResult F
  | 0, r => (.error .fuelExhausted, r)
  | fuel + 1, r =>
    if (restCurrent r).type = TokenType.NUMBER then
      match ops.stod (restCurrent r).text with
      | .error e => (.error (.stod e), r)
      | .ok value => (.ok (.Number value), r.tail)
    else if (restCurrent r).type = TokenType.IDENTIFIER then
      if (restCurrent r.tail).type = TokenType.ASSIGNMENT then
        match restExpression ops fuel r.tail.tail with
        | (.error e, r3) => (.error e, r3)
        | (.ok expr, r3) => (.ok (.Assignment (restCurrent r).text expr), r3)
      else (.ok (.Variable (restCurrent r).text), r.tail)
    else if (restCurrent r).type = TokenType.LEFT_PAREN then
      match restExpression ops fuel r.tail with
      | (.error e, r2) => (.error e, r2)
      | (.ok result, r2) =>
        if (restCurrent r2).type = TokenType.RIGHT_PAREN then (.ok result, r2.tail)
        else
          (.error (.UnexpectedToken (restCurrent r2).text (restCurrent r2).line
            (restCurrent r2).column), r2)
    else
      (.error (.UnexpectedToken (restCurrent r).text (restCurrent r).line
        (restCurrent r).column), r)

end

/-- The parser object `p` stands before the tokens `rest` of the vector `toks`:
either `currentToken` is `tokens[index]` and `rest` starts there, or the
sentinel has been installed at the last index and nothing is left. -/
def View (toks : List Token) (p : infixParser) (rest : List Token) : Prop :=
  p.tokens = toks ∧ toks.length < 2 ^ 64 ∧ p.currentToken = restCurrent rest ∧
    ((p.index < toks.length ∧ rest = toks.drop p.index) ∨
      (p.index + 1 = toks.length ∧ rest = []))

/-- Two outcomes agree: same node or exception, and related cursors. -/
def ViewResult {F : Type} (toks : List Token) (a : ParseResult F) (b : RestResult F) : Prop :=
  a.1 = b.1 ∧ View toks a.2 b.2

/-! ### Fuel -/

/-- The outcome is not the embedding's own "out of fuel". -/
def Fuelled {F : Type} (r : RestResult F) : Prop := r.1 ≠ .error .fuelExhausted

/-! ### The parsing methods with the fuel they need -/

/-- The method `infixparseExpression` on the tokens still to be read. -/
def runExpression {F : Type} (ops : DoubleOps F) (r : List Token) : RestResult F :=
  restExpression ops (4 * r.length + 4) r

/-- The loop of `infixparseExpression` on the tokens still to be read. -/
def runExpressionLoop {F : Type} (ops : DoubleOps F) (left : ASTNode F) (r : List Token) :
    RestResult F :=
  restExpressionLoop ops (4 * r.length + 1) left r

/-- The method `infixparseTerm` on the tokens still to be read. -/
def runTerm {F : Type} (ops : DoubleOps F) (r : List Token) : RestResult F :=
  restTerm ops (4 * r.length + 3) r

/-- The loop of `infixparseTerm` on the tokens still to be read. -/
def runTermLoop {F : Type} (ops : DoubleOps F) (left : ASTNode F) (r : List Token) :
    RestResult F :=
  restTermLoop ops (4 * r.length + 1) left r

/-- The method `infixparseFactor` on the tokens still to be read. -/
def runFactor {F : Type} (ops : DoubleOps F) (r : List Token) : RestResult F :=
  restFactor ops (4 * r.length + 2) r

/-- The method `infixparsePrimary` on the tokens still to be read. -/
def runPrimary {F : Type} (ops : DoubleOps F) (r : List Token) : RestResult F :=
  restPrimary ops (4 * r.length + 1) r

/-- Equality of outcomes is decidable when equality of values and of exceptions is. -/
instance instDecidableEqExcept {ε α : Type} [DecidableEq ε] [DecidableEq α] :
    DecidableEq (Except ε α)
  | .ok a, .ok b =>
    if h : a = b then isTrue (by rw [h]) else isFalse (fun h1 => h (by injection h1))
  | .error a, .error b =>
    if h : a = b then isTrue (by rw [h]) else isFalse (fun h1 => h (by injection h1))
  | .ok _, .error _ => isFalse (fun h => by cases h)
  | .error _, .ok _ => isFalse (fun h => by cases h)

/-! ## A concrete arithmetic for the worked examples -/

/-- The number written by a string of decimal digits. -/
def digitsValue (s : String) : Nat :=
  s.toList.foldl (fun acc c => 10 * acc + (c.toNat - 48)) 0

/-- The least `k` in `1 .. fuel` with `den ≤ num * 10 ^ k`: the number of places
the decimal point moves right to bring `num / den < 1` into `[1, 10)`. -/
def shiftBelowOne (num den : Nat) : Nat → Nat → Nat
  | 0, k => k
  | fuel + 1, k => if den ≤ num * 10 ^ k then k else shiftBelowOne num den fuel (k + 1)

/-- The decimal exponent `e` of the positive rational `num / den`:
`10 ^ e ≤ num / den < 10 ^ (e + 1)`. -/
def decimalExponent (num den : Nat) : Int :=
  if den ≤ num then ((Nat.toDigits 10 (num / den)).length - 1 : Nat)
  else - (shiftBelowOne num den den 1 : Int)

/-- The quotient `sn / sd` rounded to the nearest integer, ties to even. -/
def roundHalfEven (sn sd : Nat) : Nat :=
  let q := sn / sd
  let r := sn % sd
  if sd < 2 * r ∨ (2 * r = sd ∧ q % 2 = 1) then q + 1 else q

/-- The digits `cs` without their trailing zeros. -/
def stripZeros (cs : List Char) : List Char :=
  (cs.reverse.dropWhile (fun c => c = '0')).reverse

/-- A fractional part: nothing when no digit is left, else a point and the digits. -/
def pointed (cs : List Char) : List Char :=
  if cs = [] then [] else '.' :: cs

/-- The `printf` conversion `%g` with precision 6, which is what `oss << value`
performs with the stream's default flags, on the positive rational
`num / den`: six significant digits, scientific notation when the decimal
exponent is below `-4` or at least `6`, trailing zeros removed. -/
def formatPositive (num den : Nat) : String :=
  let e := decimalExponent num den
  let m0 :=
    if e ≤ 5 then roundHalfEven (num * 10 ^ (5 - e).toNat) den
    else roundHalfEven num (den * 10 ^ (e - 5).toNat)
  let m := if m0 = 10 ^ 6 then 10 ^ 5 else m0
  let x := if m0 = 10 ^ 6 then e + 1 else e
  let ds := Nat.toDigits 10 m
  if x < -4 ∨ 6 ≤ x then
    let ex := Nat.toDigits 10 x.natAbs
    String.mk (ds.take 1 ++ pointed (stripZeros (ds.drop 1)) ++ ['e'] ++
      (if x < 0 then ['-'] else ['+']) ++ (if ex.length < 2 then '0' :: ex else ex))
  else if 0 ≤ x then
    String.mk (ds.take (x.toNat + 1) ++ pointed (stripZeros (ds.drop (x.toNat + 1))))
  else
    String.mk (['0', '.'] ++ List.replicate ((-x).toNat - 1) '0' ++ stripZeros ds)

/-- The text `oss << value` writes for the rational `v`. -/
def formatDefault (v : ℚ) : String :=
  if v = 0 then "0"
  else if v < 0 then "-" ++ formatPositive v.num.natAbs v.den
  else formatPositive v.num.natAbs v.den

/-- The least natural number that does not round to a finite `double`: half
an ulp above the largest one, `2 ^ 1024 - 2 ^ 970`. -/
def doubleOverflow : Nat := 2 ^ 1024 - 2 ^ 970

/-- The conversion `std::stod` on a lexeme made of decimal digits: the number
written (which `std::stod` rounds to the nearest `double` and the exact
arithmetic keeps), or `std::out_of_range` when it is too large for a `double`.
A lexeme that is empty or holds another character is reported as
`std::invalid_argument`; the worked examples use lexemes of digits only. -/
def stodDigits (s : String) : Except StodError ℚ :=
  if s.toList ≠ [] ∧ s.toList.all Char.isDigit = true then
    if digitsValue s < doubleOverflow then .ok (digitsValue s : ℚ)
    else .error .out_of_range
  else .error .invalid_argument

/-- Exact arithmetic on the rationals. It agrees with IEEE double arithmetic
whenever the operands and the result are representable, as all the integers of
the worked examples are. -/
def exact : DoubleOps ℚ where
  add := fun a b => a + b
  sub := fun a b => a - b
  mul := fun a b => a * b
  div := fun a b => a / b
  eqZero := fun a => decide (a = 0)
  stod := stodDigits
  toStr := formatDefault

/-! ### Operators of the two levels -/

/-- The token is one of the operators `*` and `/`. -/
def IsMulOp (t : Token) : Prop :=
  t.type = TokenType.OPERATOR ∧ (t.text = "*" ∨ t.text = "/")

/-- The token is one of the operators `+` and `-`. -/
def IsAddOp (t : Token) : Prop :=
  t.type = TokenType.OPERATOR ∧ (t.text = "+" ∨ t.text = "-")

instance (t : Token) : Decidable (IsMulOp t) := by unfold IsMulOp; exact inferInstance

instance (t : Token) : Decidable (IsAddOp t) := by unfold IsAddOp; exact inferInstance

/-! ### Chains of one precedence level -/

/-- The tokens `op1 n2 op2 n3 ...` of the pairs `(op1, n2), (op2, n3), ...`. -/
def interleave : List (Token × Token) → List Token
  | [] => []
  | (o, n) :: more => o :: n :: interleave more

/-- The left-nested tree over `left` and the pairs `(op1, n2), (op2, n3), ...`,
where `num` gives the value of each number token: each pair wraps what has been
built so far as the left operand. -/
def leftNested {F : Type} (num : Token → F) (left : ASTNode F) :
    List (Token × Token) → ASTNode F
  | [] => left
  | (o, n) :: more =>
    leftNested num (.BinaryOperation (o.text.get 0) left (.Number (num n))) more

/-- The token is a NUMBER whose lexeme `std::stod` converts to `num t`. -/
def Converts {F : Type} (ops : DoubleOps F) (num : Token → F) (t : Token) : Prop :=
  t.type = TokenType.NUMBER ∧ ops.stod t.text = .ok (num t)

/-! ### Exceptions of the parser -/

/-- The two places where `infixparsePrimary` throws `UnexpectedTokenException`,
seen from the parser object `p` at the throw: either a primary was expected and the current token is not
a NUMBER, an IDENTIFIER or a LEFT_PAREN, or an expression has just been parsed
behind a LEFT_PAREN and the current token is not a RIGHT_PAREN. -/
def FailurePoint {F : Type} (ops : DoubleOps F) (p : infixParser) : Prop :=
  (p.currentToken.type ≠ TokenType.NUMBER ∧ p.currentToken.type ≠ TokenType.IDENTIFIER ∧
      p.currentToken.type ≠ TokenType.LEFT_PAREN) ∨
    (p.currentToken.type ≠ TokenType.RIGHT_PAREN ∧
      ∃ (n : Nat) (p0 p1 : infixParser) (result : ASTNode F),
        p0.currentToken.type = TokenType.LEFT_PAREN ∧ nextToken p0 = .ok p1 ∧
          infixparseExpression ops n p1 = (.ok result, p))

/-- The exception is `UnexpectedToken` with the text, line and column of the
current token of `p`. -/
def UnexpectedAt (e : ParseError) (p : infixParser) : Prop :=
  e = .UnexpectedToken p.currentToken.text p.currentToken.line p.currentToken.column

/-- The exception is the one `std::stod` throws on the lexeme of the current
token of `p`, a NUMBER. -/
def StodFailure {F : Type} (ops : DoubleOps F) (e : ParseError) (p : infixParser) : Prop :=
  p.currentToken.type = TokenType.NUMBER ∧
    ∃ se : StodError, ops.stod p.currentToken.text = .error se ∧ e = .stod se

/-- Every NUMBER token of the vector has a lexeme that `std::stod` converts. -/
def AllConvert {F : Type} (ops : DoubleOps F) (toks : List Token) : Prop :=
  ∀ t ∈ toks, t.type = TokenType.NUMBER → ∃ v : F, ops.stod t.text = .ok v

/-! ### Trees -/

/-- Every `BinaryOperation` of the tree carries one of the four operator
characters that `BinaryOperation::evaluate` knows. -/
def ASTNode.OperatorsSupported {F : Type} : ASTNode F → Prop
  | .Number _ => True
  | .Variable _ => True
  | .BinaryOperation op left right =>
    (op = '+' ∨ op = '-' ∨ op = '*' ∨ op = '/') ∧ left.OperatorsSupported ∧
      right.OperatorsSupported
  | .Assignment _ expression => expression.OperatorsSupported

/-! ### Printing and parsing again -/

/-- The kind and the lexeme of a token, without its position. -/
def Token.key (t : Token) : TokenType × String := (t.type, t.text)

/-- Modelled from the spec: the tokenizer is an external collaborator that is
not under `src/`; the spec says only that it "turns raw text into a token
stream" of the kinds NUMBER, IDENTIFIER, OPERATOR, ASSIGNMENT, LEFT_PAREN and
RIGHT_PAREN. These are the kinds and lexemes of the tokens it has to find in
the text that `printInfix` writes for a tree: one token for each parenthesis,
name, `=`, operator character and printed number, in the order written. -/
def lexemes {F : Type} (ops : DoubleOps F) : ASTNode F → List (TokenType × String)
  | .Number value => [(.NUMBER, ops.toStr value)]
  | .Variable variableName => [(.IDENTIFIER, variableName)]
  | .BinaryOperation op left right =>
    (.LEFT_PAREN, "(") :: (lexemes ops left ++
      ((.OPERATOR, String.singleton op) :: (lexemes ops right ++ [(.RIGHT_PAREN, ")")])))
  | .Assignment variableName expression =>
    (.LEFT_PAREN, "(") :: (.IDENTIFIER, variableName) :: (.ASSIGNMENT, "=") ::
      (lexemes ops expression ++ [(.RIGHT_PAREN, ")")])

/-- The values of the `Number` nodes of a tree. -/
def ASTNode.numbers {F : Type} : ASTNode F → List F
  | .Number value => [value]
  | .Variable _ => []
  | .BinaryOperation _ left right => left.numbers ++ right.numbers
  | .Assignment _ expression => expression.numbers

/-! ### The cursor in bounds -/

/-- The method `nextToken` called `k` times in a row. -/
def nextTokens : Nat → infixParser → Except ParseError infixParser
  | 0, p => .ok p
  | k + 1, p =>
    match nextToken p with
    | .error e => .error e
    | .ok q => nextTokens k q

/-- The cursor of `p` is inside the vector `toks`: the index is below
`tokens.size()` and the current token is the token at the index, or it is the
`END` sentinel installed at the last index. -/
def InBounds (toks : List Token) (p : infixParser) : Prop :=
  p.tokens = toks ∧ toks.length < 2 ^ 64 ∧ p.index < toks.length ∧
    (toks[p.index]? = some p.currentToken ∨
      (p.currentToken = END ∧ p.index + 1 = toks.length))

/-! ### Trees without assignment -/

/-- The tree has no `Assignment` node. -/
def ASTNode.AssignmentFree {F : Type} : ASTNode F → Prop
  | .Number _ => True
  | .Variable _ => True
  | .BinaryOperation _ left right => left.AssignmentFree ∧ right.AssignmentFree
  | .Assignment _ _ => False

/-! ### Tokens of the worked examples -/

/-- A token on line 1 at the given column. -/
def tokenAt (column : Nat) (text : String) (type : TokenType) : Token :=
  ⟨1, column, text, type⟩

/-- The tokens of `1 - 2 - 3`. -/
def tokensOneMinusTwoMinusThree : List Token :=
  [tokenAt 1 "1" .NUMBER, tokenAt 3 "-" .OPERATOR, tokenAt 5 "2" .NUMBER,
    tokenAt 7 "-" .OPERATOR, tokenAt 9 "3" .NUMBER]

/-- The tokens of `2 + 3 * 4`. -/
def tokensTwoPlusThreeTimesFour : List Token :=
  [tokenAt 1 "2" .NUMBER, tokenAt 3 "+" .OPERATOR, tokenAt 5 "3" .NUMBER,
    tokenAt 7 "*" .OPERATOR, tokenAt 9 "4" .NUMBER]

/-- The tokens of `(2 + 3) * 4`. -/
def tokensParenTwoPlusThreeTimesFour : List Token :=
  [tokenAt 1 "(" .LEFT_PAREN, tokenAt 2 "2" .NUMBER, tokenAt 4 "+" .OPERATOR,
    tokenAt 6 "3" .NUMBER, tokenAt 7 ")" .RIGHT_PAREN, tokenAt 9 "*" .OPERATOR,
    tokenAt 11 "4" .NUMBER]

/-- The lexeme of 310 decimal digits `1000...0`, which writes `10 ^ 309`, a
number above the largest `double` (about `1.8 * 10 ^ 308`). -/
def lexemeTenPow309 : String := String.mk ('1' :: List.replicate 309 '0')

/-- The value the exact arithmetic gives a token: the number its lexeme writes. -/
def digitsNum (t : Token) : ℚ := (digitsValue t.text : ℚ)

/-- Modelled from the spec: the repository's tokenizer is not under `src/`.
This stand-in, used for the worked example, recognises the token kinds of
section 2 of the spec in one line of text: blanks separate tokens, `(` `)` `=`
and the four operator characters are tokens of their own, a digit starts a
NUMBER made of digits and points, any other character starts an IDENTIFIER made
of letters, digits and underscores. -/
def scan : Nat → Nat → List Char → List Token
  | 0, _, _ => []
  | _ + 1, _, [] => []
  | fuel + 1, column, c :: cs =>
    if c = ' ' then scan fuel (column + 1) cs
    else if c = '(' then ⟨1, column, "(", .LEFT_PAREN⟩ :: scan fuel (column + 1) cs
    else if c = ')' then ⟨1, column, ")", .RIGHT_PAREN⟩ :: scan fuel (column + 1) cs
    else if c = '=' then ⟨1, column, "=", .ASSIGNMENT⟩ :: scan fuel (column + 1) cs
    else if c = '+' ∨ c = '-' ∨ c = '*' ∨ c = '/' then
      ⟨1, column, String.singleton c, .OPERATOR⟩ :: scan fuel (column + 1) cs
    else if c.isDigit then
      ⟨1, column, String.mk (c :: cs.takeWhile (fun d => d.isDigit || d == '.')), .NUMBER⟩ ::
        scan fuel (column + 1 + (cs.takeWhile (fun d => d.isDigit || d == '.')).length)
          (cs.dropWhile (fun d => d.isDigit || d == '.'))
    else
      ⟨1, column, String.mk (c :: cs.takeWhile (fun d => d.isAlphanum || d == '_')),
          .IDENTIFIER⟩ ::
        scan fuel (column + 1 + (cs.takeWhile (fun d => d.isAlphanum || d == '_')).length)
          (cs.dropWhile (fun d => d.isAlphanum || d == '_'))

/-- The stand-in tokenizer on a string. -/
def sampleTokenize (s : String) : List Token :=
  scan (s.length + 1) 1 s.toList

/-- The tokens of `1 +`, where the input ends before a primary. -/
def tokensOnePlus : List Token :=
  [tokenAt 1 "1" .NUMBER, tokenAt 3 "+" .OPERATOR]

/-- The tokens of `1 + )`, where a RIGHT_PAREN stands for a primary. -/
def tokensOnePlusParen : List Token :=
  [tokenAt 1 "1" .NUMBER, tokenAt 3 "+" .OPERATOR, tokenAt 5 ")" .RIGHT_PAREN]

/-- The tokens of `2 *`, where the input ends before the right operand. -/
def tokensTwoTimes : List Token :=
  [tokenAt 1 "2" .NUMBER, tokenAt 3 "*" .OPERATOR]

/-- The tokens of `2 * )`, where a RIGHT_PAREN stands for the right operand. -/
def tokensTwoTimesParen : List Token :=
  [tokenAt 1 "2" .NUMBER, tokenAt 3 "*" .OPERATOR, tokenAt 5 ")" .RIGHT_PAREN]

/-- The tokens of `(1 + 2`. -/
def tokensUnbalanced : List Token :=
  [tokenAt 1 "(" .LEFT_PAREN, tokenAt 2 "1" .NUMBER, tokenAt 4 "+" .OPERATOR,
    tokenAt 6 "2" .NUMBER]

/-- The tokens of `1 + 2`. -/
def tokensOnePlusTwo : List Token :=
  [tokenAt 2 "1" .NUMBER, tokenAt 4 "+" .OPERATOR, tokenAt 6 "2" .NUMBER]

/-- The tokens of `y + 1`. -/
def tokensYPlusOne : List Token :=
  [tokenAt 1 "y" .IDENTIFIER, tokenAt 3 "+" .OPERATOR, tokenAt 5 "1" .NUMBER]

/-- The tokens of `4 / 0`. -/
def tokensFourOverZero : List Token :=
  [tokenAt 1 "4" .NUMBER, tokenAt 3 "/" .OPERATOR, tokenAt 5 "0" .NUMBER]

/-- The tokens of `x = 5`. -/
def tokensXGetsFive : List Token :=
  [tokenAt 1 "x" .IDENTIFIER, tokenAt 3 "=" .ASSIGNMENT, tokenAt 5 "5" .NUMBER]

/-- The tokens of `x + 1`. -/
def tokensXPlusOne : List Token :=
  [tokenAt 1 "x" .IDENTIFIER, tokenAt 3 "+" .OPERATOR, tokenAt 5 "1" .NUMBER]

/-- The tokens of `(a = 1) + (a = 2)`. -/
def tokensTwoAssignments : List Token :=
  [tokenAt 1 "(" .LEFT_PAREN, tokenAt 2 "a" .IDENTIFIER, tokenAt 4 "=" .ASSIGNMENT,
    tokenAt 6 "1" .NUMBER, tokenAt 7 ")" .RIGHT_PAREN, tokenAt 9 "+" .OPERATOR,
    tokenAt 11 "(" .LEFT_PAREN, tokenAt 12 "a" .IDENTIFIER, tokenAt 14 "=" .ASSIGNMENT,
    tokenAt 16 "2" .NUMBER, tokenAt 17 ")" .RIGHT_PAREN]

/-- The tokens of `a = b = 3`. -/
def tokensChainedAssignment : List Token :=
  [tokenAt 1 "a" .IDENTIFIER, tokenAt 3 "=" .ASSIGNMENT, tokenAt 5 "b" .IDENTIFIER,
    tokenAt 7 "=" .ASSIGNMENT, tokenAt 9 "3" .NUMBER]

/-- The tokens of `2 * a = 1 + 3`. -/
def tokensTwoTimesAssignment : List Token :=
  [tokenAt 1 "2" .NUMBER, tokenAt 3 "*" .OPERATOR, tokenAt 5 "a" .IDENTIFIER,
    tokenAt 7 "=" .ASSIGNMENT, tokenAt 9 "1" .NUMBER, tokenAt 11 "+" .OPERATOR,
    tokenAt 13 "3" .NUMBER]

/-- The tokens of `1 2`, a number behind a complete expression. -/
def tokensOneTwo : List Token :=
  [tokenAt 1 "1" .NUMBER, tokenAt 3 "2" .NUMBER]

/-- The tokens of `1 + 2 )`, an unmatched RIGHT_PAREN behind a complete
expression. -/
def tokensOnePlusTwoParen : List Token :=
  [tokenAt 1 "1" .NUMBER, tokenAt 3 "+" .OPERATOR, tokenAt 5 "2" .NUMBER,
    tokenAt 7 ")" .RIGHT_PAREN]

/-- The tokens of `(a = 1) / 0`. -/
def tokensAssignmentOverZero : List Token :=
  [tokenAt 1 "(" .LEFT_PAREN, tokenAt 2 "a" .IDENTIFIER, tokenAt 4 "=" .ASSIGNMENT,
    tokenAt 6 "1" .NUMBER, tokenAt 7 ")" .RIGHT_PAREN, tokenAt 9 "/" .OPERATOR,
    tokenAt 11 "0" .NUMBER]

/-! # Theorems -/

/-! ## The cursor and the tokens still to be read -/

theorem sizeMinusOne_eq (toks : List Token) (h0 : 0 < toks.length) (h : toks.length < 2 ^ 64) :
    sizeMinusOne toks = toks.length - 1 := by
  unfold sizeMinusOne
  have : 2 ^ 64 - 1 + toks.length = (toks.length - 1) + 2 ^ 64 := by omega
  rw [this, Nat.add_mod_right, Nat.mod_eq_of_lt (by omega)]

theorem view_new (toks : List Token) (unset : Token) (h0 : toks ≠ [])
    (h : toks.length < 2 ^ 64) : View toks (infixParser.new toks unset) toks := by
  cases toks with
  | nil => exact absurd rfl h0
  | cons t ts =>
    refine ⟨rfl, h, rfl, Or.inl ⟨?_, ?_⟩⟩
    · simp [infixParser.new]
    · simp [infixParser.new]

theorem view_nextToken {toks : List Token} {p : infixParser} {rest : List Token}
    (hv : View toks p rest) : ∃ p1, nextToken p = .ok p1 ∧ View toks p1 rest.tail := by
  obtain ⟨ht, hlen, hcur, hpos⟩ := hv
  subst ht
  have hne : 0 < p.tokens.length := by
    rcases hpos with ⟨h, _⟩ | ⟨h, _⟩ <;> omega
  have hs := sizeMinusOne_eq p.tokens hne hlen
  unfold nextToken
  rw [hs]
  by_cases hlt : p.index < p.tokens.length - 1
  · have hidx : p.index + 1 < p.tokens.length := by omega
    rw [if_pos hlt, List.getElem?_eq_getElem hidx]
    refine ⟨_, rfl, rfl, hlen, ?_, Or.inl ⟨hidx, ?_⟩⟩
    · rcases hpos with ⟨_, hr⟩ | ⟨h, _⟩
      · subst hr
        simp [restCurrent, List.tail_drop, List.head?_drop, List.getElem?_eq_getElem hidx]
      · omega
    · rcases hpos with ⟨_, hr⟩ | ⟨h, _⟩
      · subst hr
        simp [List.tail_drop]
      · omega
  · rw [if_neg hlt]
    have hidx : p.index + 1 = p.tokens.length := by
      rcases hpos with ⟨h, _⟩ | ⟨h, _⟩ <;> omega
    have htail : rest.tail = [] := by
      rcases hpos with ⟨_, hr⟩ | ⟨_, hr⟩
      · subst hr
        rw [List.tail_drop]
        exact List.drop_eq_nil_of_le (by omega)
      · subst hr; rfl
    refine ⟨_, rfl, rfl, hlen, ?_, Or.inr ⟨hidx, htail⟩⟩
    rw [htail]; rfl

theorem viewResult_cases {F : Type} {toks : List Token} {a : ParseResult F} {b : RestResult F}
    (h : ViewResult toks a b) :
    (∃ e p1 r1, a = (.error e, p1) ∧ b = (.error e, r1) ∧ View toks p1 r1) ∨
    (∃ t p1 r1, a = (.ok t, p1) ∧ b = (.ok t, r1) ∧ View toks p1 r1) := by
  obtain ⟨a1, a2⟩ := a
  obtain ⟨b1, b2⟩ := b
  obtain ⟨h1, h2⟩ := h
  simp only at h1 h2
  subst h1
  cases a1 with
  | error e => exact Or.inl ⟨e, a2, b2, rfl, rfl, h2⟩
  | ok t => exact Or.inr ⟨t, a2, b2, rfl, rfl, h2⟩

/-- Every parsing method, run on a parser object that stands before `rest`,
has the outcome of its counterpart on `rest`. -/
theorem view_parse {F : Type} (ops : DoubleOps F) (toks : List Token) : ∀ n : Nat,
    (∀ p rest, View toks p rest →
      ViewResult toks (infixparseExpression ops n p) (restExpression ops n rest)) ∧
    (∀ left p rest, View toks p rest →
      ViewResult toks (infixparseExpressionLoop ops n left p)
        (restExpressionLoop ops n left rest)) ∧
    (∀ p rest, View toks p rest →
      ViewResult toks (infixparseTerm ops n p) (restTerm ops n rest)) ∧
    (∀ left p rest, View toks p rest →
      ViewResult toks (infixparseTermLoop ops n left p) (restTermLoop ops n left rest)) ∧
    (∀ p rest, View toks p rest →
      ViewResult toks (infixparseFactor ops n p) (restFactor ops n rest)) ∧
    (∀ p rest, View toks p rest →
      ViewResult toks (infixparsePrimary ops n p) (restPrimary ops n rest)) := by
  intro n
  induction n with
  | zero =>
    refine ⟨?_, ?_, ?_, ?_, ?_, ?_⟩ <;> intros <;>
      simp only [infixparseExpression, restExpression, infixparseExpressionLoop,
        restExpressionLoop, infixparseTerm, restTerm, infixparseTermLoop, restTermLoop,
        infixparseFactor, restFactor, infixparsePrimary, restPrimary] <;>
      exact ⟨rfl, by assumption⟩
  | succ n ih =>
    obtain ⟨ihE, ihEL, ihT, ihTL, ihF, ihP⟩ := ih
    refine ⟨?_, ?_, ?_, ?_, ?_, ?_⟩
    · intro p rest hv
      simp only [infixparseExpression, restExpression]
      rcases viewResult_cases (ihT p rest hv) with
        ⟨e, p1, r1, ha, hb, hv1⟩ | ⟨t, p1, r1, ha, hb, hv1⟩
      · rw [ha, hb]; exact ⟨rfl, hv1⟩
      · rw [ha, hb]; exact ihEL t p1 r1 hv1
    · intro left p rest hv
      simp only [infixparseExpressionLoop, restExpressionLoop]
      have hc : p.currentToken = restCurrent rest := hv.2.2.1
      rw [hc]
      split
      · obtain ⟨q, hq, hvq⟩ := view_nextToken hv
        rw [hq]
        rcases viewResult_cases (ihT q rest.tail hvq) with
          ⟨e, p1, r1, ha, hb, hv1⟩ | ⟨t, p1, r1, ha, hb, hv1⟩
        · simp only [ha, hb]; exact ⟨rfl, hv1⟩
        · simp only [ha, hb]; exact ihEL _ p1 r1 hv1
      · exact ⟨rfl, hv⟩
    · intro p rest hv
      simp only [infixparseTerm, restTerm]
      rcases viewResult_cases (ihF p rest hv) with
        ⟨e, p1, r1, ha, hb, hv1⟩ | ⟨t, p1, r1, ha, hb, hv1⟩
      · rw [ha, hb]; exact ⟨rfl, hv1⟩
      · rw [ha, hb]; exact ihTL t p1 r1 hv1
    · intro left p rest hv
      simp only [infixparseTermLoop, restTermLoop]
      have hc : p.currentToken = restCurrent rest := hv.2.2.1
      rw [hc]
      split
      · obtain ⟨q, hq, hvq⟩ := view_nextToken hv
        rw [hq]
        rcases viewResult_cases (ihF q rest.tail hvq) with
          ⟨e, p1, r1, ha, hb, hv1⟩ | ⟨t, p1, r1, ha, hb, hv1⟩
        · simp only [ha, hb]; exact ⟨rfl, hv1⟩
        · simp only [ha, hb]; exact ihTL _ p1 r1 hv1
      · exact ⟨rfl, hv⟩
    · intro p rest hv
      simp only [infixparseFactor, restFactor]
      exact ihP p rest hv
    · intro p rest hv
      simp only [infixparsePrimary, restPrimary]
      have hc : p.currentToken = restCurrent rest := hv.2.2.1
      obtain ⟨q, hq, hvq⟩ := view_nextToken hv
      have hcq : q.currentToken = restCurrent rest.tail := hvq.2.2.1
      obtain ⟨q2, hq2, hvq2⟩ := view_nextToken hvq
      rw [hc, hq]
      by_cases h1 : (restCurrent rest).type = TokenType.NUMBER
      · simp only [h1, if_true]
        rcases hs : ops.stod (restCurrent rest).text with e | v
        · exact ⟨rfl, hv⟩
        · exact ⟨rfl, hvq⟩
      · simp only [h1, if_false]
        by_cases h2 : (restCurrent rest).type = TokenType.IDENTIFIER
        · simp only [h2, if_true, hcq]
          by_cases h3 : (restCurrent rest.tail).type = TokenType.ASSIGNMENT
          · simp only [h3, if_true, hq2]
            rcases viewResult_cases (ihE q2 rest.tail.tail hvq2) with
              ⟨e, p1, r1, ha, hb, hv1⟩ | ⟨t, p1, r1, ha, hb, hv1⟩
            · simp only [ha, hb]; exact ⟨rfl, hv1⟩
            · simp only [ha, hb]; exact ⟨rfl, hv1⟩
          · simp only [h3, if_false]; exact ⟨rfl, hvq⟩
        · simp only [h2, if_false]
          by_cases h3 : (restCurrent rest).type = TokenType.LEFT_PAREN
          · simp only [h3, if_true]
            rcases viewResult_cases (ihE q rest.tail hvq) with
              ⟨e, p1, r1, ha, hb, hv1⟩ | ⟨t, p1, r1, ha, hb, hv1⟩
            · simp only [ha, hb]; exact ⟨rfl, hv1⟩
            · simp only [ha, hb]
              have hc1 : p1.currentToken = restCurrent r1 := hv1.2.2.1
              obtain ⟨q3, hq3, hvq3⟩ := view_nextToken hv1
              rw [hc1]
              split
              · rw [hq3]; exact ⟨rfl, hvq3⟩
              · exact ⟨rfl, hv1⟩
          · simp only [h3, if_false]
            split <;> exact ⟨rfl, hv⟩

/-! ## Fuel -/

theorem fuelled_error {F : Type} {e : ParseError} {r : List Token}
    (h : Fuelled ((.error e, r) : RestResult F)) : e ≠ .fuelExhausted := by
  intro he; exact h (by rw [he])

theorem fuelled_of_eq_error {F : Type} {a : RestResult F} {e : ParseError} {r : List Token}
    (h : a = (.error e, r)) (he : e ≠ .fuelExhausted) : Fuelled a := by
  rw [h]; intro hc; exact he (by injection hc)

theorem fuelled_of_eq_ok {F : Type} {a : RestResult F} {t : ASTNode F} {r : List Token}
    (h : a = (.ok t, r)) : Fuelled a := by
  rw [h]; intro hc; cases hc

/-- One more unit of fuel does not change an outcome that had enough. -/
theorem rest_fuel_succ {F : Type} (ops : DoubleOps F) : ∀ n : Nat,
    (∀ r, Fuelled (restExpression ops n r) →
      restExpression ops (n + 1) r = restExpression ops n r) ∧
    (∀ left r, Fuelled (restExpressionLoop ops n left r) →
      restExpressionLoop ops (n + 1) left r = restExpressionLoop ops n left r) ∧
    (∀ r, Fuelled (restTerm ops n r) → restTerm ops (n + 1) r = restTerm ops n r) ∧
    (∀ left r, Fuelled (restTermLoop ops n left r) →
      restTermLoop ops (n + 1) left r = restTermLoop ops n left r) ∧
    (∀ r, Fuelled (restFactor ops n r) → restFactor ops (n + 1) r = restFactor ops n r) ∧
    (∀ r, Fuelled (restPrimary ops n r) →
      restPrimary ops (n + 1) r = restPrimary ops n r) := by
  intro n
  induction n with
  | zero =>
    refine ⟨?_, ?_, ?_, ?_, ?_, ?_⟩ <;> intros <;> rename_i h <;> exfalso <;> apply h <;>
      simp only [restExpression, restExpressionLoop, restTerm, restTermLoop, restFactor,
        restPrimary]
  | succ n ih =>
    obtain ⟨ihE, ihEL, ihT, ihTL, ihF, ihP⟩ := ih
    refine ⟨?_, ?_, ?_, ?_, ?_, ?_⟩
    · intro r h
      rw [restExpression] at h ⊢
      rw [restExpression]
      rcases hT : restTerm ops n r with ⟨_ | t, r1⟩
      · rw [hT] at h
        rw [ihT r (fuelled_of_eq_error hT (fuelled_error h)), hT]
      · rw [hT] at h
        rw [ihT r (fuelled_of_eq_ok hT), hT]
        exact ihEL t r1 h
    · intro left r h
      rw [restExpressionLoop] at h ⊢
      rw [restExpressionLoop]
      split
      · rename_i hc
        rw [if_pos hc] at h
        rcases hT : restTerm ops n r.tail with ⟨_ | t, r1⟩
        · rw [hT] at h
          rw [ihT _ (fuelled_of_eq_error hT (fuelled_error h)), hT]
        · rw [hT] at h
          rw [ihT _ (fuelled_of_eq_ok hT), hT]
          exact ihEL _ r1 h
      · rfl
    · intro r h
      rw [restTerm] at h ⊢
      rw [restTerm]
      rcases hT : restFactor ops n r with ⟨_ | t, r1⟩
      · rw [hT] at h
        rw [ihF r (fuelled_of_eq_error hT (fuelled_error h)), hT]
      · rw [hT] at h
        rw [ihF r (fuelled_of_eq_ok hT), hT]
        exact ihTL t r1 h
    · intro left r h
      rw [restTermLoop] at h ⊢
      rw [restTermLoop]
      split
      · rename_i hc
        rw [if_pos hc] at h
        rcases hT : restFactor ops n r.tail with ⟨_ | t, r1⟩
        · rw [hT] at h
          rw [ihF _ (fuelled_of_eq_error hT (fuelled_error h)), hT]
        · rw [hT] at h
          rw [ihF _ (fuelled_of_eq_ok hT), hT]
          exact ihTL _ r1 h
      · rfl
    · intro r h
      rw [restFactor] at h ⊢
      rw [restFactor]
      exact ihP r h
    · intro r h
      rw [restPrimary] at h ⊢
      rw [restPrimary]
      by_cases h1 : (restCurrent r).type = TokenType.NUMBER
      · simp only [h1, if_true]
      · simp only [h1, if_false] at h ⊢
        by_cases h2 : (restCurrent r).type = TokenType.IDENTIFIER
        · simp only [h2, if_true] at h ⊢
          by_cases h3 : (restCurrent r.tail).type = TokenType.ASSIGNMENT
          · simp only [h3, if_true] at h ⊢
            rcases hT : restExpression ops n r.tail.tail with ⟨_ | t, r1⟩
            · rw [hT] at h
              rw [ihE _ (fuelled_of_eq_error hT (fuelled_error h)), hT]
            · rw [ihE _ (fuelled_of_eq_ok hT), hT]
          · simp only [h3, if_false]
        · simp only [h2, if_false] at h ⊢
          by_cases h3 : (restCurrent r).type = TokenType.LEFT_PAREN
          · simp only [h3, if_true] at h ⊢
            rcases hT : restExpression ops n r.tail with ⟨_ | t, r1⟩
            · rw [hT] at h
              rw [ihE _ (fuelled_of_eq_error hT (fuelled_error h)), hT]
            · rw [ihE _ (fuelled_of_eq_ok hT), hT]
          · simp only [h3, if_false]

theorem rest_fuel_le {F : Type} (ops : DoubleOps F) (n m : Nat) (hnm : n ≤ m) (r : List Token)
    (h : Fuelled (restExpression ops n r)) :
    restExpression ops m r = restExpression ops n r := by
  induction m with
  | zero =>
    have : n = 0 := by omega
    rw [this]
  | succ m ih =>
    by_cases hm : n ≤ m
    · have h1 := ih hm
      rw [← h1] at h
      rw [(rest_fuel_succ ops m).1 r h, h1]
    · have : n = m + 1 := by omega
      rw [this]

theorem restCurrent_nil : restCurrent [] = END := rfl

theorem restCurrent_cons (t : Token) (ts : List Token) : restCurrent (t :: ts) = t := rfl

theorem ne_nil_of_type {r : List Token} {k : TokenType} (h : (restCurrent r).type = k)
    (hk : k ≠ TokenType.OPERATOR) : r ≠ [] := by
  intro hr
  rw [hr] at h
  exact hk h.symm

theorem ne_nil_of_text {r : List Token} {s : String} (h : (restCurrent r).text = s)
    (hs : s ≠ "END") : r ≠ [] := by
  intro hr
  rw [hr] at h
  exact hs h.symm

theorem length_tail_lt {r : List Token} (h : r ≠ []) : r.tail.length + 1 = r.length := by
  cases r with
  | nil => exact absurd rfl h
  | cons t ts => simp

/-- A method that returns a node has consumed at least one token; a loop never
gives tokens back. -/
theorem rest_consumes {F : Type} (ops : DoubleOps F) : ∀ n : Nat,
    (∀ r t r1, restExpression ops n r = (.ok t, r1) → r1.length + 1 ≤ r.length) ∧
    (∀ left r t r1, restExpressionLoop ops n left r = (.ok t, r1) → r1.length ≤ r.length) ∧
    (∀ r t r1, restTerm ops n r = (.ok t, r1) → r1.length + 1 ≤ r.length) ∧
    (∀ left r t r1, restTermLoop ops n left r = (.ok t, r1) → r1.length ≤ r.length) ∧
    (∀ r t r1, restFactor ops n r = (.ok t, r1) → r1.length + 1 ≤ r.length) ∧
    (∀ r t r1, restPrimary ops n r = (.ok t, r1) → r1.length + 1 ≤ r.length) := by
  intro n
  induction n with
  | zero =>
    refine ⟨?_, ?_, ?_, ?_, ?_, ?_⟩ <;> intros <;> rename_i h <;>
      simp [restExpression, restExpressionLoop, restTerm, restTermLoop, restFactor,
        restPrimary] at h
  | succ n ih =>
    obtain ⟨ihE, ihEL, ihT, ihTL, ihF, ihP⟩ := ih
    refine ⟨?_, ?_, ?_, ?_, ?_, ?_⟩
    · intro r t r1 h
      rw [restExpression] at h
      rcases hT : restTerm ops n r with ⟨_ | t1, r2⟩
      · rw [hT] at h; cases h
      · rw [hT] at h
        have := ihT _ _ _ hT
        have := ihEL _ _ _ _ h
        omega
    · intro left r t r1 h
      rw [restExpressionLoop] at h
      split at h
      · rename_i hc
        have hne : r ≠ [] := by
          rcases hc.2 with h1 | h1
          · exact ne_nil_of_text h1 (by decide)
          · exact ne_nil_of_text h1 (by decide)
        have hl := length_tail_lt hne
        rcases hT : restTerm ops n r.tail with ⟨_ | t1, r2⟩
        · rw [hT] at h; cases h
        · rw [hT] at h
          have := ihT _ _ _ hT
          have := ihEL _ _ _ _ h
          omega
      · cases h; exact Nat.le_refl _
    · intro r t r1 h
      rw [restTerm] at h
      rcases hT : restFactor ops n r with ⟨_ | t1, r2⟩
      · rw [hT] at h; cases h
      · rw [hT] at h
        have := ihF _ _ _ hT
        have := ihTL _ _ _ _ h
        omega
    · intro left r t r1 h
      rw [restTermLoop] at h
      split at h
      · rename_i hc
        have hne : r ≠ [] := by
          rcases hc.2 with h1 | h1
          · exact ne_nil_of_text h1 (by decide)
          · exact ne_nil_of_text h1 (by decide)
        have hl := length_tail_lt hne
        rcases hT : restFactor ops n r.tail with ⟨_ | t1, r2⟩
        · rw [hT] at h; cases h
        · rw [hT] at h
          have := ihF _ _ _ hT
          have := ihTL _ _ _ _ h
          omega
      · cases h; exact Nat.le_refl _
    · intro r t r1 h
      rw [restFactor] at h
      exact ihP _ _ _ h
    · intro r t r1 h
      rw [restPrimary] at h
      by_cases h1 : (restCurrent r).type = TokenType.NUMBER
      · simp only [h1, if_true] at h
        rcases hs : ops.stod (restCurrent r).text with e | v
        · simp only [hs] at h; cases h
        · simp only [hs] at h
          cases h
          have := length_tail_lt (ne_nil_of_type h1 (by decide))
          omega
      · simp only [h1, if_false] at h
        by_cases h2 : (restCurrent r).type = TokenType.IDENTIFIER
        · have hl := length_tail_lt (ne_nil_of_type h2 (by decide))
          simp only [h2, if_true] at h
          by_cases h3 : (restCurrent r.tail).type = TokenType.ASSIGNMENT
          · have hl2 := length_tail_lt (ne_nil_of_type h3 (by decide))
            simp only [h3, if_true] at h
            rcases hT : restExpression ops n r.tail.tail with ⟨_ | t1, r2⟩
            · rw [hT] at h; cases h
            · rw [hT] at h
              cases h
              have := ihE _ _ _ hT
              omega
          · simp only [h3, if_false] at h
            cases h
            omega
        · simp only [h2, if_false] at h
          by_cases h3 : (restCurrent r).type = TokenType.LEFT_PAREN
          · have hl := length_tail_lt (ne_nil_of_type h3 (by decide))
            simp only [h3, if_true] at h
            rcases hT : restExpression ops n r.tail with ⟨_ | t1, r2⟩
            · rw [hT] at h; cases h
            · rw [hT] at h
              have := ihE _ _ _ hT
              by_cases h4 : (restCurrent r2).type = TokenType.RIGHT_PAREN
              · simp only [h4, if_true] at h
                cases h
                have : r2.tail.length ≤ r2.length := by simp
                omega
              · simp only [h4, if_false] at h
                cases h
          · simp only [h3, if_false] at h
            cases h

theorem fuelled_ok {F : Type} (t : ASTNode F) (r : List Token) :
    Fuelled ((.ok t, r) : RestResult F) := by
  intro h; cases h

theorem fuelled_unexpected {F : Type} (a : String) (b c : Nat) (r : List Token) :
    Fuelled ((.error (.UnexpectedToken a b c), r) : RestResult F) := by
  intro h; cases h

theorem fuelled_stod {F : Type} (e : StodError) (r : List Token) :
    Fuelled ((.error (.stod e), r) : RestResult F) := by
  intro h; cases h

/-- Four units of fuel per token still to be read, and a few more, suffice. -/
theorem rest_fuel_enough {F : Type} (ops : DoubleOps F) : ∀ n : Nat,
    (∀ r, 4 * r.length + 4 ≤ n → Fuelled (restExpression ops n r)) ∧
    (∀ left r, 4 * r.length + 1 ≤ n → Fuelled (restExpressionLoop ops n left r)) ∧
    (∀ r, 4 * r.length + 3 ≤ n → Fuelled (restTerm ops n r)) ∧
    (∀ left r, 4 * r.length + 1 ≤ n → Fuelled (restTermLoop ops n left r)) ∧
    (∀ r, 4 * r.length + 2 ≤ n → Fuelled (restFactor ops n r)) ∧
    (∀ r, 4 * r.length + 1 ≤ n → Fuelled (restPrimary ops n r)) := by
  intro n
  induction n with
  | zero =>
    refine ⟨?_, ?_, ?_, ?_, ?_, ?_⟩ <;> intros <;> omega
  | succ n ih =>
    obtain ⟨ihE, ihEL, ihT, ihTL, ihF, ihP⟩ := ih
    refine ⟨?_, ?_, ?_, ?_, ?_, ?_⟩
    · intro r hn
      rw [restExpression]
      have hT := ihT r (by omega)
      rcases hr : restTerm ops n r with ⟨e | t1, r2⟩
      · rw [hr] at hT; exact hT
      · have := (rest_consumes ops n).2.2.1 _ _ _ hr
        exact ihEL _ _ (by omega)
    · intro left r hn
      rw [restExpressionLoop]
      split
      · rename_i hc
        have hne : r ≠ [] := by
          rcases hc.2 with h1 | h1
          · exact ne_nil_of_text h1 (by decide)
          · exact ne_nil_of_text h1 (by decide)
        have hl := length_tail_lt hne
        have hT := ihT r.tail (by omega)
        rcases hr : restTerm ops n r.tail with ⟨e | t1, r2⟩
        · rw [hr] at hT; exact hT
        · have := (rest_consumes ops n).2.2.1 _ _ _ hr
          exact ihEL _ _ (by omega)
      · exact fuelled_ok _ _
    · intro r hn
      rw [restTerm]
      have hT := ihF r (by omega)
      rcases hr : restFactor ops n r with ⟨e | t1, r2⟩
      · rw [hr] at hT; exact hT
      · have := (rest_consumes ops n).2.2.2.2.1 _ _ _ hr
        exact ihTL _ _ (by omega)
    · intro left r hn
      rw [restTermLoop]
      split
      · rename_i hc
        have hne : r ≠ [] := by
          rcases hc.2 with h1 | h1
          · exact ne_nil_of_text h1 (by decide)
          · exact ne_nil_of_text h1 (by decide)
        have hl := length_tail_lt hne
        have hT := ihF r.tail (by omega)
        rcases hr : restFactor ops n r.tail with ⟨e | t1, r2⟩
        · rw [hr] at hT; exact hT
        · have := (rest_consumes ops n).2.2.2.2.1 _ _ _ hr
          exact ihTL _ _ (by omega)
      · exact fuelled_ok _ _
    · intro r hn
      rw [restFactor]
      exact ihP r (by omega)
    · intro r hn
      rw [restPrimary]
      by_cases h1 : (restCurrent r).type = TokenType.NUMBER
      · simp only [h1, if_true]
        rcases hs : ops.stod (restCurrent r).text with e | v
        · exact fuelled_stod _ _
        · exact fuelled_ok _ _
      · simp only [h1, if_false]
        by_cases h2 : (restCurrent r).type = TokenType.IDENTIFIER
        · have hl := length_tail_lt (ne_nil_of_type h2 (by decide))
          simp only [h2, if_true]
          by_cases h3 : (restCurrent r.tail).type = TokenType.ASSIGNMENT
          · have hl2 := length_tail_lt (ne_nil_of_type h3 (by decide))
            simp only [h3, if_true]
            have hT := ihE r.tail.tail (by omega)
            rcases hr : restExpression ops n r.tail.tail with ⟨e | t1, r2⟩
            · rw [hr] at hT; exact hT
            · exact fuelled_ok _ _
          · simp only [h3, if_false]; exact fuelled_ok _ _
        · simp only [h2, if_false]
          by_cases h3 : (restCurrent r).type = TokenType.LEFT_PAREN
          · have hl := length_tail_lt (ne_nil_of_type h3 (by decide))
            simp only [h3, if_true]
            have hT := ihE r.tail (by omega)
            rcases hr : restExpression ops n r.tail with ⟨e | t1, r2⟩
            · rw [hr] at hT; exact hT
            · by_cases h4 : (restCurrent r2).type = TokenType.RIGHT_PAREN
              · simp only [h4, if_true]; exact fuelled_ok _ _
              · simp only [h4, if_false]; exact fuelled_unexpected _ _ _ _
          · simp only [h3, if_false]; exact fuelled_unexpected _ _ _ _

/-- Any two amounts of fuel that both suffice give the same outcome. -/
theorem rest_fuel_agree {F : Type} (ops : DoubleOps F) (n m : Nat) (r : List Token)
    (hn : Fuelled (restExpression ops n r)) (hm : Fuelled (restExpression ops m r)) :
    restExpression ops n r = restExpression ops m r := by
  rcases Nat.le_total n m with h | h
  · exact (rest_fuel_le ops n m h r hn).symm
  · exact rest_fuel_le ops m n h r hm

/-- The method `infixparse`, called on a freshly constructed parser over a
non-empty vector, has the outcome of `restExpression` on the whole input, for
any amount of fuel that suffices there. -/
theorem infixparse_view {F : Type} (ops : DoubleOps F) (toks : List Token) (unset : Token)
    (h0 : toks ≠ []) (hsize : toks.length < 2 ^ 64) (n : Nat)
    (hn : Fuelled (restExpression ops n toks)) :
    ViewResult toks (infixparse ops (infixParser.new toks unset)) (restExpression ops n toks) := by
  have hN := (rest_fuel_enough ops (4 * toks.length + 4)).1 toks (Nat.le_refl _)
  rw [rest_fuel_agree ops n _ toks hn hN]
  exact (view_parse ops toks _).1 _ _ (view_new toks unset h0 hsize)

/-- More fuel does not change an outcome that had enough. -/
theorem rest_fuel_add {F : Type} (ops : DoubleOps F) (n : Nat) : ∀ k : Nat,
    (∀ r, Fuelled (restExpression ops n r) →
      restExpression ops (n + k) r = restExpression ops n r) ∧
    (∀ left r, Fuelled (restExpressionLoop ops n left r) →
      restExpressionLoop ops (n + k) left r = restExpressionLoop ops n left r) ∧
    (∀ r, Fuelled (restTerm ops n r) → restTerm ops (n + k) r = restTerm ops n r) ∧
    (∀ left r, Fuelled (restTermLoop ops n left r) →
      restTermLoop ops (n + k) left r = restTermLoop ops n left r) ∧
    (∀ r, Fuelled (restFactor ops n r) → restFactor ops (n + k) r = restFactor ops n r) ∧
    (∀ r, Fuelled (restPrimary ops n r) →
      restPrimary ops (n + k) r = restPrimary ops n r) := by
  intro k
  induction k with
  | zero => refine ⟨?_, ?_, ?_, ?_, ?_, ?_⟩ <;> intros <;> rfl
  | succ k ih =>
    obtain ⟨ihE, ihEL, ihT, ihTL, ihF, ihP⟩ := ih
    obtain ⟨sE, sEL, sT, sTL, sF, sP⟩ := rest_fuel_succ ops (n + k)
    refine ⟨?_, ?_, ?_, ?_, ?_, ?_⟩
    · intro r h
      have h1 := ihE r h
      rw [← Nat.add_assoc, sE r (by rw [h1]; exact h), h1]
    · intro left r h
      have h1 := ihEL left r h
      rw [← Nat.add_assoc, sEL left r (by rw [h1]; exact h), h1]
    · intro r h
      have h1 := ihT r h
      rw [← Nat.add_assoc, sT r (by rw [h1]; exact h), h1]
    · intro left r h
      have h1 := ihTL left r h
      rw [← Nat.add_assoc, sTL left r (by rw [h1]; exact h), h1]
    · intro r h
      have h1 := ihF r h
      rw [← Nat.add_assoc, sF r (by rw [h1]; exact h), h1]
    · intro r h
      have h1 := ihP r h
      rw [← Nat.add_assoc, sP r (by rw [h1]; exact h), h1]

theorem restExpression_eq_run {F : Type} (ops : DoubleOps F) (n : Nat) (r : List Token)
    (h : 4 * r.length + 4 ≤ n) : restExpression ops n r = runExpression ops r := by
  obtain ⟨k, rfl⟩ := Nat.exists_eq_add_of_le h
  exact (rest_fuel_add ops _ k).1 r ((rest_fuel_enough ops _).1 r (Nat.le_refl _))

theorem restExpressionLoop_eq_run {F : Type} (ops : DoubleOps F) (n : Nat) (left : ASTNode F)
    (r : List Token) (h : 4 * r.length + 1 ≤ n) :
    restExpressionLoop ops n left r = runExpressionLoop ops left r := by
  obtain ⟨k, rfl⟩ := Nat.exists_eq_add_of_le h
  exact (rest_fuel_add ops _ k).2.1 left r ((rest_fuel_enough ops _).2.1 left r (Nat.le_refl _))

theorem restTerm_eq_run {F : Type} (ops : DoubleOps F) (n : Nat) (r : List Token)
    (h : 4 * r.length + 3 ≤ n) : restTerm ops n r = runTerm ops r := by
  obtain ⟨k, rfl⟩ := Nat.exists_eq_add_of_le h
  exact (rest_fuel_add ops _ k).2.2.1 r ((rest_fuel_enough ops _).2.2.1 r (Nat.le_refl _))

theorem restTermLoop_eq_run {F : Type} (ops : DoubleOps F) (n : Nat) (left : ASTNode F)
    (r : List Token) (h : 4 * r.length + 1 ≤ n) :
    restTermLoop ops n left r = runTermLoop ops left r := by
  obtain ⟨k, rfl⟩ := Nat.exists_eq_add_of_le h
  exact (rest_fuel_add ops _ k).2.2.2.1 left r
    ((rest_fuel_enough ops _).2.2.2.1 left r (Nat.le_refl _))

theorem restFactor_eq_run {F : Type} (ops : DoubleOps F) (n : Nat) (r : List Token)
    (h : 4 * r.length + 2 ≤ n) : restFactor ops n r = runFactor ops r := by
  obtain ⟨k, rfl⟩ := Nat.exists_eq_add_of_le h
  exact (rest_fuel_add ops _ k).2.2.2.2.1 r
    ((rest_fuel_enough ops _).2.2.2.2.1 r (Nat.le_refl _))

theorem restPrimary_eq_run {F : Type} (ops : DoubleOps F) (n : Nat) (r : List Token)
    (h : 4 * r.length + 1 ≤ n) : restPrimary ops n r = runPrimary ops r := by
  obtain ⟨k, rfl⟩ := Nat.exists_eq_add_of_le h
  exact (rest_fuel_add ops _ k).2.2.2.2.2 r
    ((rest_fuel_enough ops _).2.2.2.2.2 r (Nat.le_refl _))

/-! ### The methods unfolded once, free of fuel -/

theorem runFactor_eq {F : Type} (ops : DoubleOps F) (r : List Token) :
    runFactor ops r = runPrimary ops r := by
  unfold runFactor
  rw [restFactor, restPrimary_eq_run ops _ r (Nat.le_refl _)]

theorem runTerm_eq {F : Type} (ops : DoubleOps F) (r : List Token) :
    runTerm ops r =
      match runFactor ops r with
      | (.error e, r1) => (.error e, r1)
      | (.ok left, r1) => runTermLoop ops left r1 := by
  unfold runTerm
  rw [restTerm, restFactor_eq_run ops _ r (Nat.le_refl _)]
  rcases h : runFactor ops r with ⟨e | t, r1⟩
  · rfl
  · have hc := (rest_consumes ops _).2.2.2.2.1 r t r1 h
    exact restTermLoop_eq_run ops _ t r1 (by omega)

theorem runExpression_eq {F : Type} (ops : DoubleOps F) (r : List Token) :
    runExpression ops r =
      match runTerm ops r with
      | (.error e, r1) => (.error e, r1)
      | (.ok left, r1) => runExpressionLoop ops left r1 := by
  unfold runExpression
  rw [restExpression, restTerm_eq_run ops _ r (Nat.le_refl _)]
  rcases h : runTerm ops r with ⟨e | t, r1⟩
  · rfl
  · have hc := (rest_consumes ops _).2.2.1 r t r1 h
    exact restExpressionLoop_eq_run ops _ t r1 (by omega)

theorem runTermLoop_eq {F : Type} (ops : DoubleOps F) (left : ASTNode F) (r : List Token) :
    runTermLoop ops left r =
      if (restCurrent r).type = TokenType.OPERATOR ∧
          ((restCurrent r).text = "*" ∨ (restCurrent r).text = "/") then
        match runFactor ops r.tail with
        | (.error e, r2) => (.error e, r2)
        | (.ok right, r2) =>
          runTermLoop ops (.BinaryOperation ((restCurrent r).text.get 0) left right) r2
      else (.ok left, r) := by
  unfold runTermLoop
  rw [restTermLoop]
  split
  · rename_i hc
    have hne : r ≠ [] := by
      rcases hc.2 with h1 | h1
      · exact ne_nil_of_text h1 (by decide)
      · exact ne_nil_of_text h1 (by decide)
    have hl := length_tail_lt hne
    rw [restFactor_eq_run ops _ r.tail (by omega)]
    rcases h : runFactor ops r.tail with ⟨e | t, r1⟩
    · rfl
    · have hc := (rest_consumes ops _).2.2.2.2.1 r.tail t r1 h
      exact restTermLoop_eq_run ops _ _ r1 (by omega)
  · rfl

theorem runExpressionLoop_eq {F : Type} (ops : DoubleOps F) (left : ASTNode F)
    (r : List Token) :
    runExpressionLoop ops left r =
      if (restCurrent r).type = TokenType.OPERATOR ∧
          ((restCurrent r).text = "+" ∨ (restCurrent r).text = "-") then
        match runTerm ops r.tail with
        | (.error e, r2) => (.error e, r2)
        | (.ok right, r2) =>
          runExpressionLoop ops (.BinaryOperation ((restCurrent r).text.get 0) left right) r2
      else (.ok left, r) := by
  unfold runExpressionLoop
  rw [restExpressionLoop]
  split
  · rename_i hc
    have hne : r ≠ [] := by
      rcases hc.2 with h1 | h1
      · exact ne_nil_of_text h1 (by decide)
      · exact ne_nil_of_text h1 (by decide)
    have hl := length_tail_lt hne
    rw [restTerm_eq_run ops _ r.tail (by omega)]
    rcases h : runTerm ops r.tail with ⟨e | t, r1⟩
    · rfl
    · have hc := (rest_consumes ops _).2.2.1 r.tail t r1 h
      exact restExpressionLoop_eq_run ops _ _ r1 (by omega)
  · rfl

theorem runPrimary_eq {F : Type} (ops : DoubleOps F) (r : List Token) :
    runPrimary ops r =
      if (restCurrent r).type = TokenType.NUMBER then
        match ops.stod (restCurrent r).text with
        | .error e => (.error (.stod e), r)
        | .ok value => (.ok (.Number value), r.tail)
      else if (restCurrent r).type = TokenType.IDENTIFIER then
        if (restCurrent r.tail).type = TokenType.ASSIGNMENT then
          match runExpression ops r.tail.tail with
          | (.error e, r3) => (.error e, r3)
          | (.ok expr, r3) => (.ok (.Assignment (restCurrent r).text expr), r3)
        else (.ok (.Variable (restCurrent r).text), r.tail)
      else if (restCurrent r).type = TokenType.LEFT_PAREN then
        match runExpression ops r.tail with
        | (.error e, r2) => (.error e, r2)
        | (.ok result, r2) =>
          if (restCurrent r2).type = TokenType.RIGHT_PAREN then (.ok result, r2.tail)
          else
            (.error (.UnexpectedToken (restCurrent r2).text (restCurrent r2).line
              (restCurrent r2).column), r2)
      else
        (.error (.UnexpectedToken (restCurrent r).text (restCurrent r).line
          (restCurrent r).column), r) := by
  unfold runPrimary
  rw [restPrimary]
  by_cases h1 : (restCurrent r).type = TokenType.NUMBER
  · simp only [h1, if_true]
  · simp only [h1, if_false]
    by_cases h2 : (restCurrent r).type = TokenType.IDENTIFIER
    · have hl := length_tail_lt (ne_nil_of_type h2 (by decide))
      simp only [h2, if_true]
      by_cases h3 : (restCurrent r.tail).type = TokenType.ASSIGNMENT
      · have hl2 := length_tail_lt (ne_nil_of_type h3 (by decide))
        simp only [h3, if_true]
        rw [restExpression_eq_run ops _ r.tail.tail (by omega)]
      · simp only [h3, if_false]
    · simp only [h2, if_false]
      by_cases h3 : (restCurrent r).type = TokenType.LEFT_PAREN
      · have hl := length_tail_lt (ne_nil_of_type h3 (by decide))
        simp only [h3, if_true]
        rw [restExpression_eq_run ops _ r.tail (by omega)]
      · simp only [h3, if_false]

/-- The method `infixparse`, called on a freshly constructed parser over a
non-empty vector, has the outcome of `runExpression` on the whole input. -/
theorem infixparse_run {F : Type} (ops : DoubleOps F) (toks : List Token) (unset : Token)
    (h0 : toks ≠ []) (hsize : toks.length < 2 ^ 64) :
    ViewResult toks (infixparse ops (infixParser.new toks unset)) (runExpression ops toks) :=
  (view_parse ops toks _).1 _ _ (view_new toks unset h0 hsize)

/-! ### The methods on an input whose first tokens are known -/

theorem new_cons (t : Token) (ts : List Token) (unset : Token) :
    infixParser.new (t :: ts) unset = ⟨t :: ts, 0, t⟩ := rfl

theorem runPrimary_number {F : Type} (ops : DoubleOps F) (t : Token) (r : List Token) (v : F)
    (h : t.type = TokenType.NUMBER) (hs : ops.stod t.text = .ok v) :
    runPrimary ops (t :: r) = (.ok (.Number v), r) := by
  rw [runPrimary_eq]
  simp [restCurrent_cons, h, hs]

theorem runPrimary_stod {F : Type} (ops : DoubleOps F) (t : Token) (r : List Token)
    (e : StodError) (h : t.type = TokenType.NUMBER) (hs : ops.stod t.text = .error e) :
    runPrimary ops (t :: r) = (.error (.stod e), t :: r) := by
  rw [runPrimary_eq]
  simp [restCurrent_cons, h, hs]

theorem runPrimary_variable {F : Type} (ops : DoubleOps F) (t : Token) (r : List Token)
    (h : t.type = TokenType.IDENTIFIER) (hr : (restCurrent r).type ≠ TokenType.ASSIGNMENT) :
    runPrimary ops (t :: r) = (.ok (.Variable t.text), r) := by
  rw [runPrimary_eq]
  simp [restCurrent_cons, h, hr]

theorem runPrimary_assignment {F : Type} (ops : DoubleOps F) (t a : Token) (r : List Token)
    (h : t.type = TokenType.IDENTIFIER) (ha : a.type = TokenType.ASSIGNMENT) :
    runPrimary ops (t :: a :: r) =
      match runExpression ops r with
      | (.error e, r3) => (.error e, r3)
      | (.ok expr, r3) => (.ok (.Assignment t.text expr), r3) := by
  rw [runPrimary_eq]
  simp only [restCurrent_cons, h, ha, List.tail_cons, if_true]
  simp only [reduceCtorEq, if_false]

theorem runPrimary_paren {F : Type} (ops : DoubleOps F) (t : Token) (r : List Token)
    (h : t.type = TokenType.LEFT_PAREN) :
    runPrimary ops (t :: r) =
      match runExpression ops r with
      | (.error e, r2) => (.error e, r2)
      | (.ok result, r2) =>
        if (restCurrent r2).type = TokenType.RIGHT_PAREN then (.ok result, r2.tail)
        else
          (.error (.UnexpectedToken (restCurrent r2).text (restCurrent r2).line
            (restCurrent r2).column), r2) := by
  rw [runPrimary_eq]
  simp only [restCurrent_cons, h, List.tail_cons, if_true]
  simp only [reduceCtorEq, if_false]

theorem runPrimary_unexpected {F : Type} (ops : DoubleOps F) (r : List Token)
    (h1 : (restCurrent r).type ≠ TokenType.NUMBER)
    (h2 : (restCurrent r).type ≠ TokenType.IDENTIFIER)
    (h3 : (restCurrent r).type ≠ TokenType.LEFT_PAREN) :
    runPrimary ops r =
      (.error (.UnexpectedToken (restCurrent r).text (restCurrent r).line
        (restCurrent r).column), r) := by
  rw [runPrimary_eq]
  simp [h1, h2, h3]

theorem runTermLoop_stop {F : Type} (ops : DoubleOps F) (left : ASTNode F) (r : List Token)
    (h : ¬ IsMulOp (restCurrent r)) : runTermLoop ops left r = (.ok left, r) := by
  rw [runTermLoop_eq]
  exact if_neg h

theorem runTermLoop_step {F : Type} (ops : DoubleOps F) (left : ASTNode F) (o : Token)
    (r : List Token) (h : IsMulOp o) :
    runTermLoop ops left (o :: r) =
      match runFactor ops r with
      | (.error e, r2) => (.error e, r2)
      | (.ok right, r2) =>
        runTermLoop ops (.BinaryOperation (o.text.get 0) left right) r2 := by
  rw [runTermLoop_eq, if_pos (by exact h)]
  simp only [restCurrent_cons, List.tail_cons]

theorem runExpressionLoop_stop {F : Type} (ops : DoubleOps F) (left : ASTNode F)
    (r : List Token) (h : ¬ IsAddOp (restCurrent r)) :
    runExpressionLoop ops left r = (.ok left, r) := by
  rw [runExpressionLoop_eq]
  exact if_neg h

theorem runExpressionLoop_step {F : Type} (ops : DoubleOps F) (left : ASTNode F) (o : Token)
    (r : List Token) (h : IsAddOp o) :
    runExpressionLoop ops left (o :: r) =
      match runTerm ops r with
      | (.error e, r2) => (.error e, r2)
      | (.ok right, r2) =>
        runExpressionLoop ops (.BinaryOperation (o.text.get 0) left right) r2 := by
  rw [runExpressionLoop_eq, if_pos (by exact h)]
  simp only [restCurrent_cons, List.tail_cons]

theorem not_isMulOp_of_isAddOp {t : Token} (h : IsAddOp t) : ¬ IsMulOp t := by
  rintro ⟨_, hm⟩
  rcases h.2 with h1 | h1 <;> rcases hm with h2 | h2 <;> rw [h1] at h2 <;> revert h2 <;> decide

theorem not_isAddOp_of_isMulOp {t : Token} (h : IsMulOp t) : ¬ IsAddOp t :=
  fun ha => not_isMulOp_of_isAddOp ha h

theorem not_isMulOp_END : ¬ IsMulOp END := by decide

theorem not_isAddOp_END : ¬ IsAddOp END := by decide

/-- A term that is a lone number: the loop of `infixparseTerm` finds no `*` or
`/` behind it. -/
theorem runTerm_number {F : Type} (ops : DoubleOps F) (t : Token) (r : List Token) (v : F)
    (h : t.type = TokenType.NUMBER) (hs : ops.stod t.text = .ok v)
    (hr : ¬ IsMulOp (restCurrent r)) :
    runTerm ops (t :: r) = (.ok (.Number v), r) := by
  rw [runTerm_eq, runFactor_eq, runPrimary_number ops t r v h hs]
  exact runTermLoop_stop ops _ r hr

theorem restCurrent_interleave_add {F : Type} {ops : DoubleOps F} {num : Token → F}
    {more : List (Token × Token)}
    (h : ∀ x ∈ more, IsAddOp x.1 ∧ Converts ops num x.2) :
    ¬ IsMulOp (restCurrent (interleave more)) := by
  cases more with
  | nil => exact not_isMulOp_END
  | cons x xs =>
    obtain ⟨o, n⟩ := x
    exact not_isMulOp_of_isAddOp (h (o, n) (List.mem_cons_self _ _)).1

theorem runExpressionLoop_chain {F : Type} (ops : DoubleOps F) (num : Token → F)
    (more : List (Token × Token))
    (h : ∀ x ∈ more, IsAddOp x.1 ∧ Converts ops num x.2) (left : ASTNode F) :
    runExpressionLoop ops left (interleave more) = (.ok (leftNested num left more), []) := by
  induction more generalizing left with
  | nil => exact runExpressionLoop_stop ops left [] not_isAddOp_END
  | cons x xs ih =>
    obtain ⟨o, n⟩ := x
    have hx := h (o, n) (List.mem_cons_self _ _)
    have hxs : ∀ y ∈ xs, IsAddOp y.1 ∧ Converts ops num y.2 :=
      fun y hy => h y (List.mem_cons_of_mem _ hy)
    simp only [interleave, leftNested]
    rw [runExpressionLoop_step ops left o _ hx.1,
      runTerm_number ops n _ _ hx.2.1 hx.2.2 (restCurrent_interleave_add hxs)]
    exact ih hxs _

theorem runTermLoop_chain {F : Type} (ops : DoubleOps F) (num : Token → F)
    (more : List (Token × Token))
    (h : ∀ x ∈ more, IsMulOp x.1 ∧ Converts ops num x.2) (left : ASTNode F) :
    runTermLoop ops left (interleave more) = (.ok (leftNested num left more), []) := by
  induction more generalizing left with
  | nil => exact runTermLoop_stop ops left [] not_isMulOp_END
  | cons x xs ih =>
    obtain ⟨o, n⟩ := x
    have hx := h (o, n) (List.mem_cons_self _ _)
    have hxs : ∀ y ∈ xs, IsMulOp y.1 ∧ Converts ops num y.2 :=
      fun y hy => h y (List.mem_cons_of_mem _ hy)
    simp only [interleave, leftNested]
    rw [runTermLoop_step ops left o _ hx.1, runFactor_eq,
      runPrimary_number ops n _ _ hx.2.1 hx.2.2]
    exact ih hxs _

/-- A chain of numbers joined by operators of one level parses to the
left-nested tree and leaves nothing unread. -/
theorem runExpression_chain {F : Type} (ops : DoubleOps F) (num : Token → F) (first : Token)
    (more : List (Token × Token)) (hfirst : Converts ops num first)
    (h : (∀ x ∈ more, IsAddOp x.1 ∧ Converts ops num x.2) ∨
      (∀ x ∈ more, IsMulOp x.1 ∧ Converts ops num x.2)) :
    runExpression ops (first :: interleave more) =
      (.ok (leftNested num (.Number (num first)) more), []) := by
  rcases h with h | h
  · rw [runExpression_eq, runTerm_number ops first _ _ hfirst.1 hfirst.2
      (restCurrent_interleave_add h)]
    exact runExpressionLoop_chain ops num more h _
  · rw [runExpression_eq, runTerm_eq, runFactor_eq,
      runPrimary_number ops first _ _ hfirst.1 hfirst.2]
    simp only [runTermLoop_chain ops num more h]
    exact runExpressionLoop_stop ops _ [] not_isAddOp_END

/-- What `infixparse` returns or throws is what `runExpression` gives on the
whole input. -/
theorem infixparse_fst {F : Type} (ops : DoubleOps F) (toks : List Token) (unset : Token)
    (h0 : toks ≠ []) (hsize : toks.length < 2 ^ 64) :
    (infixparse ops (infixParser.new toks unset)).1 = (runExpression ops toks).1 :=
  (infixparse_run ops toks unset h0 hsize).1

/-! ## Exceptions of the parser -/

theorem nextToken_error {p : infixParser} {e : ParseError} (h : nextToken p = .error e) :
    e = .outOfBounds := by
  unfold nextToken at h
  split at h
  · split at h
    · cases h
    · cases h; rfl
  · cases h

/-- Whatever a parsing method throws is the embedding's own "out of fuel" or
"out of bounds", or an `UnexpectedToken` for the current token raised at one of
the two throw sites of `infixparsePrimary`, or the exception of `std::stod` on
the lexeme of the current token. -/
theorem parse_error_form {F : Type} (ops : DoubleOps F) : ∀ n : Nat,
    (∀ p e q, infixparseExpression ops n p = (.error e, q) →
      e = .fuelExhausted ∨ e = .outOfBounds ∨ (UnexpectedAt e q ∧ FailurePoint ops q) ∨
        StodFailure ops e q) ∧
    (∀ left p e q, infixparseExpressionLoop ops n left p = (.error e, q) →
      e = .fuelExhausted ∨ e = .outOfBounds ∨ (UnexpectedAt e q ∧ FailurePoint ops q) ∨
        StodFailure ops e q) ∧
    (∀ p e q, infixparseTerm ops n p = (.error e, q) →
      e = .fuelExhausted ∨ e = .outOfBounds ∨ (UnexpectedAt e q ∧ FailurePoint ops q) ∨
        StodFailure ops e q) ∧
    (∀ left p e q, infixparseTermLoop ops n left p = (.error e, q) →
      e = .fuelExhausted ∨ e = .outOfBounds ∨ (UnexpectedAt e q ∧ FailurePoint ops q) ∨
        StodFailure ops e q) ∧
    (∀ p e q, infixparseFactor ops n p = (.error e, q) →
      e = .fuelExhausted ∨ e = .outOfBounds ∨ (UnexpectedAt e q ∧ FailurePoint ops q) ∨
        StodFailure ops e q) ∧
    (∀ p e q, infixparsePrimary ops n p = (.error e, q) →
      e = .fuelExhausted ∨ e = .outOfBounds ∨ (UnexpectedAt e q ∧ FailurePoint ops q) ∨
        StodFailure ops e q) := by
  intro n
  induction n with
  | zero =>
    refine ⟨?_, ?_, ?_, ?_, ?_, ?_⟩ <;> intros <;> rename_i h <;>
      simp only [infixparseExpression, infixparseExpressionLoop, infixparseTerm,
        infixparseTermLoop, infixparseFactor, infixparsePrimary] at h <;>
      cases h <;> exact Or.inl rfl
  | succ n ih =>
    obtain ⟨ihE, ihEL, ihT, ihTL, ihF, ihP⟩ := ih
    refine ⟨?_, ?_, ?_, ?_, ?_, ?_⟩
    · intro p e q h
      rw [infixparseExpression] at h
      rcases hT : infixparseTerm ops n p with ⟨e1 | t1, p1⟩
      · rw [hT] at h; cases h; exact ihT _ _ _ hT
      · rw [hT] at h; exact ihEL _ _ _ _ h
    · intro left p e q h
      rw [infixparseExpressionLoop] at h
      split at h
      · rcases hN : nextToken p with e0 | p0
        · simp only [hN] at h; cases h; exact Or.inr (Or.inl (nextToken_error hN))
        · simp only [hN] at h
          rcases hT : infixparseTerm ops n p0 with ⟨e1 | t1, p1⟩
          · rw [hT] at h; cases h; exact ihT _ _ _ hT
          · rw [hT] at h; exact ihEL _ _ _ _ h
      · cases h
    · intro p e q h
      rw [infixparseTerm] at h
      rcases hT : infixparseFactor ops n p with ⟨e1 | t1, p1⟩
      · rw [hT] at h; cases h; exact ihF _ _ _ hT
      · rw [hT] at h; exact ihTL _ _ _ _ h
    · intro left p e q h
      rw [infixparseTermLoop] at h
      split at h
      · rcases hN : nextToken p with e0 | p0
        · simp only [hN] at h; cases h; exact Or.inr (Or.inl (nextToken_error hN))
        · simp only [hN] at h
          rcases hT : infixparseFactor ops n p0 with ⟨e1 | t1, p1⟩
          · rw [hT] at h; cases h; exact ihF _ _ _ hT
          · rw [hT] at h; exact ihTL _ _ _ _ h
      · cases h
    · intro p e q h
      rw [infixparseFactor] at h
      exact ihP _ _ _ h
    · intro p e q h
      rw [infixparsePrimary] at h
      by_cases h1 : p.currentToken.type = TokenType.NUMBER
      · simp only [h1, if_true] at h
        rcases hs : ops.stod p.currentToken.text with se | v
        · simp only [hs] at h; cases h
          exact Or.inr (Or.inr (Or.inr ⟨h1, se, hs, rfl⟩))
        · simp only [hs] at h
          rcases hN : nextToken p with e0 | p0
          · simp only [hN] at h; cases h; exact Or.inr (Or.inl (nextToken_error hN))
          · simp only [hN] at h; cases h
      · simp only [h1, if_false] at h
        by_cases h2 : p.currentToken.type = TokenType.IDENTIFIER
        · simp only [h2, if_true] at h
          rcases hN : nextToken p with e0 | p0
          · simp only [hN] at h; cases h; exact Or.inr (Or.inl (nextToken_error hN))
          · simp only [hN] at h
            by_cases h3 : p0.currentToken.type = TokenType.ASSIGNMENT
            · simp only [h3, if_true] at h
              rcases hN2 : nextToken p0 with e2 | p2
              · simp only [hN2] at h; cases h; exact Or.inr (Or.inl (nextToken_error hN2))
              · simp only [hN2] at h
                rcases hT : infixparseExpression ops n p2 with ⟨e1 | t1, p1⟩
                · rw [hT] at h; cases h; exact ihE _ _ _ hT
                · rw [hT] at h; cases h
            · simp only [h3, if_false] at h
              cases h
        · simp only [h2, if_false] at h
          by_cases h3 : p.currentToken.type = TokenType.LEFT_PAREN
          · simp only [h3, if_true] at h
            rcases hN : nextToken p with e0 | p0
            · simp only [hN] at h; cases h; exact Or.inr (Or.inl (nextToken_error hN))
            · simp only [hN] at h
              rcases hT : infixparseExpression ops n p0 with ⟨e1 | t1, p1⟩
              · rw [hT] at h; cases h; exact ihE _ _ _ hT
              · rw [hT] at h
                by_cases h4 : p1.currentToken.type = TokenType.RIGHT_PAREN
                · simp only [h4, if_true] at h
                  rcases hN2 : nextToken p1 with e2 | p2
                  · simp only [hN2] at h; cases h; exact Or.inr (Or.inl (nextToken_error hN2))
                  · simp only [hN2] at h; cases h
                · simp only [h4, if_false] at h
                  cases h
                  exact Or.inr (Or.inr (Or.inl ⟨rfl, Or.inr ⟨h4, n, p, p0, t1, h3, hN, hT⟩⟩))
          · simp only [h3, if_false] at h
            have hq : e = .UnexpectedToken p.currentToken.text p.currentToken.line
                p.currentToken.column ∧ q = p := by
              split at h <;> cases h <;> exact ⟨rfl, rfl⟩
            obtain ⟨he, rfl⟩ := hq
            exact Or.inr (Or.inr (Or.inl ⟨he, Or.inl ⟨h1, h2, h3⟩⟩))

/-- On the tokens still to be read no method ever reports a read out of bounds. -/
theorem rest_in_bounds {F : Type} (ops : DoubleOps F) : ∀ n : Nat,
    (∀ r, (restExpression ops n r).1 ≠ .error .outOfBounds) ∧
    (∀ left r, (restExpressionLoop ops n left r).1 ≠ .error .outOfBounds) ∧
    (∀ r, (restTerm ops n r).1 ≠ .error .outOfBounds) ∧
    (∀ left r, (restTermLoop ops n left r).1 ≠ .error .outOfBounds) ∧
    (∀ r, (restFactor ops n r).1 ≠ .error .outOfBounds) ∧
    (∀ r, (restPrimary ops n r).1 ≠ .error .outOfBounds) := by
  intro n
  induction n with
  | zero =>
    refine ⟨?_, ?_, ?_, ?_, ?_, ?_⟩ <;> intros <;>
      simp [restExpression, restExpressionLoop, restTerm, restTermLoop, restFactor,
        restPrimary]
  | succ n ih =>
    obtain ⟨ihE, ihEL, ihT, ihTL, ihF, ihP⟩ := ih
    refine ⟨?_, ?_, ?_, ?_, ?_, ?_⟩
    · intro r
      rw [restExpression]
      have := ihT r
      rcases hT : restTerm ops n r with ⟨e1 | t1, r1⟩
      · rw [hT] at this; exact this
      · exact ihEL _ _
    · intro left r
      rw [restExpressionLoop]
      split
      · have := ihT r.tail
        rcases hT : restTerm ops n r.tail with ⟨e1 | t1, r1⟩
        · rw [hT] at this; exact this
        · exact ihEL _ _
      · simp
    · intro r
      rw [restTerm]
      have := ihF r
      rcases hT : restFactor ops n r with ⟨e1 | t1, r1⟩
      · rw [hT] at this; exact this
      · exact ihTL _ _
    · intro left r
      rw [restTermLoop]
      split
      · have := ihF r.tail
        rcases hT : restFactor ops n r.tail with ⟨e1 | t1, r1⟩
        · rw [hT] at this; exact this
        · exact ihTL _ _
      · simp
    · intro r
      rw [restFactor]
      exact ihP r
    · intro r
      rw [restPrimary]
      by_cases h1 : (restCurrent r).type = TokenType.NUMBER
      · simp only [h1, if_true]
        rcases hs : ops.stod (restCurrent r).text with se | v <;> simp
      · simp only [h1, if_false]
        by_cases h2 : (restCurrent r).type = TokenType.IDENTIFIER
        · simp only [h2, if_true]
          by_cases h3 : (restCurrent r.tail).type = TokenType.ASSIGNMENT
          · simp only [h3, if_true]
            have := ihE r.tail.tail
            rcases hT : restExpression ops n r.tail.tail with ⟨e1 | t1, r1⟩
            · rw [hT] at this; exact this
            · simp
          · simp [h3]
        · simp only [h2, if_false]
          by_cases h3 : (restCurrent r).type = TokenType.LEFT_PAREN
          · simp only [h3, if_true]
            have := ihE r.tail
            rcases hT : restExpression ops n r.tail with ⟨e1 | t1, r1⟩
            · rw [hT] at this; exact this
            · by_cases h4 : (restCurrent r1).type = TokenType.RIGHT_PAREN
              · simp [h4]
              · simp [h4]
          · simp [h3]

/-- A parser object that stands before `rest` is inside the vector, and its
current token is the token at the index or the `END` sentinel. -/
theorem view_cursor {toks : List Token} {p : infixParser} {rest : List Token}
    (hv : View toks p rest) :
    p.tokens = toks ∧ p.index < toks.length ∧
      (p.currentToken = END ∨ toks[p.index]? = some p.currentToken) := by
  obtain ⟨ht, _, hcur, hpos⟩ := hv
  rcases hpos with ⟨hlt, hr⟩ | ⟨hlt, hr⟩
  · refine ⟨ht, hlt, Or.inr ?_⟩
    rw [hcur, hr]
    simp [restCurrent, List.head?_drop, List.getElem?_eq_getElem hlt]
  · refine ⟨ht, by omega, Or.inl ?_⟩
    rw [hcur, hr]; rfl

/-- Every exception thrown by `infixparse` on a non-empty vector is an
`UnexpectedToken` for the current token, raised at one of the two throw sites
of `infixparsePrimary`, or the exception of `std::stod` on the lexeme of the
current token, with the cursor inside the vector. -/
theorem infixparse_error {F : Type} (ops : DoubleOps F) (toks : List Token) (unset : Token)
    (h0 : toks ≠ []) (hsize : toks.length < 2 ^ 64) (e : ParseError) (q : infixParser)
    (h : infixparse ops (infixParser.new toks unset) = (.error e, q)) :
    ((UnexpectedAt e q ∧ FailurePoint ops q) ∨ StodFailure ops e q) ∧ q.tokens = toks ∧
      q.index < toks.length ∧
      (q.currentToken = END ∨ toks[q.index]? = some q.currentToken) := by
  have hv := (view_parse ops toks (4 * toks.length + 4)).1 _ _ (view_new toks unset h0 hsize)
  have hfuel := (rest_fuel_enough ops (4 * toks.length + 4)).1 toks (Nat.le_refl _)
  have hbound := (rest_in_bounds ops (4 * toks.length + 4)).1 toks
  have hnew : (infixParser.new toks unset).tokens = toks := rfl
  unfold infixparse at h
  rw [hnew] at h
  rw [h] at hv
  obtain ⟨h1, h2⟩ := hv
  simp only at h1 h2
  rcases (parse_error_form ops _).1 _ _ _ h with he | he | he
  · exact absurd (by rw [← h1, he]) hfuel
  · exact absurd (by rw [← h1, he]) hbound
  · exact ⟨he, view_cursor h2⟩

/-- When `std::stod` converts the lexeme of every NUMBER token of the vector,
the only exception of `infixparse` is `UnexpectedToken`. -/
theorem infixparse_error_converts {F : Type} (ops : DoubleOps F) (toks : List Token)
    (unset : Token) (h0 : toks ≠ []) (hsize : toks.length < 2 ^ 64)
    (hconv : AllConvert ops toks) (e : ParseError) (q : infixParser)
    (h : infixparse ops (infixParser.new toks unset) = (.error e, q)) :
    UnexpectedAt e q ∧ FailurePoint ops q := by
  obtain ⟨hform, _, hlt, hcur⟩ := infixparse_error ops toks unset h0 hsize e q h
  rcases hform with hform | ⟨hnum, se, hse, _⟩
  · exact hform
  · exfalso
    rcases hcur with hcur | hcur
    · rw [hcur] at hnum; revert hnum; decide
    · have hmem : q.currentToken ∈ toks := by
        rw [List.getElem?_eq_getElem hlt] at hcur
        injection hcur with hcur
        rw [← hcur]
        exact List.getElem_mem _
      obtain ⟨v, hv⟩ := hconv _ hmem hnum
      rw [hv] at hse; cases hse

/-- On the empty vector `infixparse` returns no node: every path to a `return`
calls `nextToken`, which reads outside the vector. -/
theorem infixparse_nil {F : Type} (ops : DoubleOps F) (unset : Token) (t : ASTNode F)
    (q : infixParser) : infixparse ops (infixParser.new [] unset) ≠ (.ok t, q) := by
  have hn : ∀ p : infixParser, p.tokens = [] → p.index = 0 →
      nextToken p = .error .outOfBounds := by
    intro p hp hi
    simp [nextToken, sizeMinusOne, hp, hi]
  have hp : ∀ n, ∀ p : infixParser, p.tokens = [] → p.index = 0 →
      ∀ t q, infixparsePrimary (F := F) ops (n + 1) p ≠ (.ok t, q) := by
    intro n p hp hi t q
    rw [infixparsePrimary]
    simp only [hn p hp hi]
    split_ifs
    · rcases hs : ops.stod p.currentToken.text with se | v <;> simp
    all_goals simp
  intro h
  simp only [infixparse, infixParser.new, List.length_nil, infixparseExpression,
    infixparseTerm, infixparseFactor] at h
  rcases hP : infixparsePrimary ops 1 ({ tokens := [], index := 0, currentToken := unset })
    with ⟨e1 | t1, p1⟩
  · rw [hP] at h; cases h
  · exact hp 0 _ rfl rfl _ _ hP

/-! ## Operators of the trees returned -/

theorem get_zero_of_isAddOp {t : Token} (h : IsAddOp t) :
    t.text.get 0 = '+' ∨ t.text.get 0 = '-' := by
  rcases h.2 with h1 | h1 <;> rw [h1]
  · exact Or.inl rfl
  · exact Or.inr rfl

theorem get_zero_of_isMulOp {t : Token} (h : IsMulOp t) :
    t.text.get 0 = '*' ∨ t.text.get 0 = '/' := by
  rcases h.2 with h1 | h1 <;> rw [h1]
  · exact Or.inl rfl
  · exact Or.inr rfl

/-- Every node a parsing method returns carries supported operators only. -/
theorem parse_operators {F : Type} (ops : DoubleOps F) : ∀ n : Nat,
    (∀ p t q, infixparseExpression ops n p = (.ok t, q) → t.OperatorsSupported) ∧
    (∀ left p t q, left.OperatorsSupported →
      infixparseExpressionLoop ops n left p = (.ok t, q) → t.OperatorsSupported) ∧
    (∀ p t q, infixparseTerm ops n p = (.ok t, q) → t.OperatorsSupported) ∧
    (∀ left p t q, left.OperatorsSupported →
      infixparseTermLoop ops n left p = (.ok t, q) → t.OperatorsSupported) ∧
    (∀ p t q, infixparseFactor ops n p = (.ok t, q) → t.OperatorsSupported) ∧
    (∀ p t q, infixparsePrimary ops n p = (.ok t, q) → t.OperatorsSupported) := by
  intro n
  induction n with
  | zero =>
    refine ⟨?_, ?_, ?_, ?_, ?_, ?_⟩ <;> intros <;> rename_i h <;>
      simp only [infixparseExpression, infixparseExpressionLoop, infixparseTerm,
        infixparseTermLoop, infixparseFactor, infixparsePrimary] at h <;>
      cases h
  | succ n ih =>
    obtain ⟨ihE, ihEL, ihT, ihTL, ihF, ihP⟩ := ih
    refine ⟨?_, ?_, ?_, ?_, ?_, ?_⟩
    · intro p t q h
      rw [infixparseExpression] at h
      rcases hT : infixparseTerm ops n p with ⟨e1 | t1, p1⟩
      · rw [hT] at h; cases h
      · rw [hT] at h; exact ihEL _ _ _ _ (ihT _ _ _ hT) h
    · intro left p t q hleft h
      rw [infixparseExpressionLoop] at h
      split at h
      · rename_i hc
        rcases hN : nextToken p with e0 | p0
        · simp only [hN] at h; cases h
        · simp only [hN] at h
          rcases hT : infixparseTerm ops n p0 with ⟨e1 | t1, p1⟩
          · rw [hT] at h; cases h
          · rw [hT] at h
            have hop : (ASTNode.BinaryOperation (p.currentToken.text.get 0) left
                t1).OperatorsSupported := by
              refine ⟨?_, hleft, ihT _ _ _ hT⟩
              rcases get_zero_of_isAddOp (t := p.currentToken) hc with h1 | h1
              · exact Or.inl h1
              · exact Or.inr (Or.inl h1)
            exact ihEL _ _ _ _ hop h
      · cases h; exact hleft
    · intro p t q h
      rw [infixparseTerm] at h
      rcases hT : infixparseFactor ops n p with ⟨e1 | t1, p1⟩
      · rw [hT] at h; cases h
      · rw [hT] at h; exact ihTL _ _ _ _ (ihF _ _ _ hT) h
    · intro left p t q hleft h
      rw [infixparseTermLoop] at h
      split at h
      · rename_i hc
        rcases hN : nextToken p with e0 | p0
        · simp only [hN] at h; cases h
        · simp only [hN] at h
          rcases hT : infixparseFactor ops n p0 with ⟨e1 | t1, p1⟩
          · rw [hT] at h; cases h
          · rw [hT] at h
            have hop : (ASTNode.BinaryOperation (p.currentToken.text.get 0) left
                t1).OperatorsSupported := by
              refine ⟨?_, hleft, ihF _ _ _ hT⟩
              rcases get_zero_of_isMulOp (t := p.currentToken) hc with h1 | h1
              · exact Or.inr (Or.inr (Or.inl h1))
              · exact Or.inr (Or.inr (Or.inr h1))
            exact ihTL _ _ _ _ hop h
      · cases h; exact hleft
    · intro p t q h
      rw [infixparseFactor] at h
      exact ihP _ _ _ h
    · intro p t q h
      rw [infixparsePrimary] at h
      by_cases h1 : p.currentToken.type = TokenType.NUMBER
      · simp only [h1, if_true] at h
        rcases hs : ops.stod p.currentToken.text with se | v
        · simp only [hs] at h; cases h
        · simp only [hs] at h
          rcases hN : nextToken p with e0 | p0
          · simp only [hN] at h; cases h
          · simp only [hN] at h; cases h; trivial
      · simp only [h1, if_false] at h
        by_cases h2 : p.currentToken.type = TokenType.IDENTIFIER
        · simp only [h2, if_true] at h
          rcases hN : nextToken p with e0 | p0
          · simp only [hN] at h; cases h
          · simp only [hN] at h
            by_cases h3 : p0.currentToken.type = TokenType.ASSIGNMENT
            · simp only [h3, if_true] at h
              rcases hN2 : nextToken p0 with e2 | p2
              · simp only [hN2] at h; cases h
              · simp only [hN2] at h
                rcases hT : infixparseExpression ops n p2 with ⟨e1 | t1, p1⟩
                · rw [hT] at h; cases h
                · rw [hT] at h; cases h; exact ihE p2 t1 _ hT
            · simp only [h3, if_false] at h
              cases h; trivial
        · simp only [h2, if_false] at h
          by_cases h3 : p.currentToken.type = TokenType.LEFT_PAREN
          · simp only [h3, if_true] at h
            rcases hN : nextToken p with e0 | p0
            · simp only [hN] at h; cases h
            · simp only [hN] at h
              rcases hT : infixparseExpression ops n p0 with ⟨e1 | t1, p1⟩
              · rw [hT] at h; cases h
              · rw [hT] at h
                by_cases h4 : p1.currentToken.type = TokenType.RIGHT_PAREN
                · simp only [h4, if_true] at h
                  rcases hN2 : nextToken p1 with e2 | p2
                  · simp only [hN2] at h; cases h
                  · simp only [hN2] at h; cases h; exact ihE _ _ _ hT
                · simp only [h4, if_false] at h
                  cases h
          · simp only [h3, if_false] at h
            split at h <;> cases h

/-- Every tree `infixparse` returns carries supported operators only. -/
theorem infixparse_operators {F : Type} (ops : DoubleOps F) (p : infixParser) (t : ASTNode F)
    (q : infixParser) (h : infixparse ops p = (.ok t, q)) : t.OperatorsSupported :=
  (parse_operators ops _).1 p t q h

/-! ## Printing and parsing again -/

theorem printInfix_eq_toInfix {F : Type} (ops : DoubleOps F) (t : ASTNode F) :
    printInfix ops t = t.toInfix ops := by
  induction t with
  | Number value => rfl
  | Variable variableName => rfl
  | BinaryOperation op left right ihl ihr => simp only [printInfix, ASTNode.toInfix, ihl, ihr]
  | Assignment variableName expression ih => simp only [printInfix, ASTNode.toInfix, ih]

theorem not_isMulOp_of_type {t : Token} (h : t.type ≠ TokenType.OPERATOR) : ¬ IsMulOp t :=
  fun hm => h hm.1

theorem not_isAddOp_of_type {t : Token} (h : t.type ≠ TokenType.OPERATOR) : ¬ IsAddOp t :=
  fun hm => h hm.1

/-- A primary behind which neither loop finds an operator is the whole
expression. -/
theorem runExpression_of_primary {F : Type} (ops : DoubleOps F) (r r1 : List Token)
    (t : ASTNode F) (h : runPrimary ops r = (.ok t, r1)) (hm : ¬ IsMulOp (restCurrent r1))
    (ha : ¬ IsAddOp (restCurrent r1)) : runExpression ops r = (.ok t, r1) := by
  rw [runExpression_eq, runTerm_eq, runFactor_eq, h]
  simp only [runTermLoop_stop ops t r1 hm]
  exact runExpressionLoop_stop ops t r1 ha

/-- Two primaries joined by one operator and followed by a RIGHT_PAREN make one
expression. -/
theorem runExpression_binary {F : Type} (ops : DoubleOps F) (r rr : List Token)
    (o d : Token) (rest : List Token) (left right : ASTNode F)
    (hl : runPrimary ops r = (.ok left, o :: rr))
    (hr : runPrimary ops rr = (.ok right, d :: rest))
    (ho : IsAddOp o ∨ IsMulOp o) (hd : d.type = TokenType.RIGHT_PAREN) :
    runExpression ops r = (.ok (.BinaryOperation (o.text.get 0) left right), d :: rest) := by
  have hdm : ¬ IsMulOp (restCurrent (d :: rest)) :=
    not_isMulOp_of_type (by rw [restCurrent_cons, hd]; decide)
  have hda : ¬ IsAddOp (restCurrent (d :: rest)) :=
    not_isAddOp_of_type (by rw [restCurrent_cons, hd]; decide)
  rw [runExpression_eq, runTerm_eq, runFactor_eq, hl]
  rcases ho with ho | ho
  · have hom : ¬ IsMulOp (restCurrent (o :: rr)) := not_isMulOp_of_isAddOp ho
    simp only [runTermLoop_stop ops left (o :: rr) hom]
    rw [runExpressionLoop_step ops left o rr ho, runTerm_eq, runFactor_eq, hr]
    simp only [runTermLoop_stop ops right (d :: rest) hdm]
    exact runExpressionLoop_stop ops _ (d :: rest) hda
  · simp only [runTermLoop_step ops left o rr ho, runFactor_eq, hr]
    simp only [runTermLoop_stop ops _ (d :: rest) hdm]
    exact runExpressionLoop_stop ops _ (d :: rest) hda

theorem singleton_operator (op : Char) (o : Token)
    (hop : op = '+' ∨ op = '-' ∨ op = '*' ∨ op = '/') (ht : o.type = TokenType.OPERATOR)
    (hx : o.text = String.singleton op) :
    (IsAddOp o ∨ IsMulOp o) ∧ o.text.get 0 = op := by
  rcases hop with rfl | rfl | rfl | rfl
  · exact ⟨Or.inl ⟨ht, Or.inl hx⟩, by rw [hx]; rfl⟩
  · exact ⟨Or.inl ⟨ht, Or.inr hx⟩, by rw [hx]; rfl⟩
  · exact ⟨Or.inr ⟨ht, Or.inl hx⟩, by rw [hx]; rfl⟩
  · exact ⟨Or.inr ⟨ht, Or.inr hx⟩, by rw [hx]; rfl⟩

/-- Tokens with the kinds and lexemes of a printed tree are one primary, which
parses back to the tree. -/
theorem runPrimary_lexemes {F : Type} (ops : DoubleOps F) (t : ASTNode F) :
    t.OperatorsSupported → (∀ v ∈ t.numbers, ops.stod (ops.toStr v) = .ok v) →
    ∀ ts rest : List Token, ts.map Token.key = lexemes ops t →
      (restCurrent rest).type ≠ TokenType.ASSIGNMENT →
      runPrimary ops (ts ++ rest) = (.ok t, rest) := by
  induction t with
  | Number value =>
    intro _ hnum ts rest hts _
    simp only [lexemes] at hts
    obtain ⟨k, ks, rfl, hk, hks⟩ := List.map_eq_cons_iff.mp hts
    rw [List.map_eq_nil_iff] at hks
    subst hks
    simp only [Token.key, Prod.mk.injEq] at hk
    have hs : ops.stod k.text = .ok value := by
      rw [hk.2]; exact hnum value (by simp [ASTNode.numbers])
    rw [List.singleton_append, runPrimary_number ops k rest value hk.1 hs]
  | Variable variableName =>
    intro _ _ ts rest hts hrest
    simp only [lexemes] at hts
    obtain ⟨k, ks, rfl, hk, hks⟩ := List.map_eq_cons_iff.mp hts
    rw [List.map_eq_nil_iff] at hks
    subst hks
    simp only [Token.key, Prod.mk.injEq] at hk
    rw [List.singleton_append, runPrimary_variable ops k rest hk.1 hrest, hk.2]
  | BinaryOperation op left right ihl ihr =>
    intro hops hnum ts rest hts _
    simp only [lexemes] at hts
    obtain ⟨lp, ts1, rfl, hlp, hts1⟩ := List.map_eq_cons_iff.mp hts
    obtain ⟨tl, ts2, rfl, htl, hts2⟩ := List.map_eq_append_iff.mp hts1
    obtain ⟨o, ts3, rfl, ho, hts3⟩ := List.map_eq_cons_iff.mp hts2
    obtain ⟨tr, ts4, rfl, htr, hts4⟩ := List.map_eq_append_iff.mp hts3
    obtain ⟨d, ts5, rfl, hd, hts5⟩ := List.map_eq_cons_iff.mp hts4
    rw [List.map_eq_nil_iff] at hts5
    subst hts5
    simp only [Token.key, Prod.mk.injEq] at hlp ho hd
    obtain ⟨hop, hvl, hvr⟩ := hops
    have hnl : ∀ v ∈ left.numbers, ops.stod (ops.toStr v) = .ok v :=
      fun v hv => hnum v (by simp [ASTNode.numbers, hv])
    have hnr : ∀ v ∈ right.numbers, ops.stod (ops.toStr v) = .ok v :=
      fun v hv => hnum v (by simp [ASTNode.numbers, hv])
    obtain ⟨hoo, hget⟩ := singleton_operator op o hop ho.1 ho.2
    have h1 : runPrimary ops (tl ++ o :: (tr ++ d :: rest)) =
        (.ok left, o :: (tr ++ d :: rest)) :=
      ihl hvl hnl tl _ htl (by rw [restCurrent_cons, ho.1]; decide)
    have h2 : runPrimary ops (tr ++ d :: rest) = (.ok right, d :: rest) :=
      ihr hvr hnr tr _ htr (by rw [restCurrent_cons, hd.1]; decide)
    have h3 := runExpression_binary ops _ _ o d rest left right h1 h2 hoo hd.1
    have hshape : (lp :: (tl ++ o :: (tr ++ [d]))) ++ rest =
        lp :: (tl ++ o :: (tr ++ d :: rest)) := by simp
    rw [hshape, runPrimary_paren ops lp _ hlp.1, h3]
    simp only [restCurrent_cons, hd.1, if_true, List.tail_cons, hget]
  | Assignment variableName expression ih =>
    intro hops hnum ts rest hts _
    simp only [lexemes] at hts
    obtain ⟨lp, ts1, rfl, hlp, hts1⟩ := List.map_eq_cons_iff.mp hts
    obtain ⟨x, ts2, rfl, hx, hts2⟩ := List.map_eq_cons_iff.mp hts1
    obtain ⟨a, ts3, rfl, ha, hts3⟩ := List.map_eq_cons_iff.mp hts2
    obtain ⟨te, ts4, rfl, hte, hts4⟩ := List.map_eq_append_iff.mp hts3
    obtain ⟨d, ts5, rfl, hd, hts5⟩ := List.map_eq_cons_iff.mp hts4
    rw [List.map_eq_nil_iff] at hts5
    subst hts5
    simp only [Token.key, Prod.mk.injEq] at hlp hx ha hd
    have hdm : ¬ IsMulOp (restCurrent (d :: rest)) :=
      not_isMulOp_of_type (by rw [restCurrent_cons, hd.1]; decide)
    have hda : ¬ IsAddOp (restCurrent (d :: rest)) :=
      not_isAddOp_of_type (by rw [restCurrent_cons, hd.1]; decide)
    have h1 : runPrimary ops (te ++ d :: rest) = (.ok expression, d :: rest) :=
      ih hops hnum te _ hte (by rw [restCurrent_cons, hd.1]; decide)
    have h2 := runExpression_of_primary ops _ _ expression h1 hdm hda
    have h3 : runPrimary ops (x :: a :: (te ++ d :: rest)) =
        (.ok (.Assignment variableName expression), d :: rest) := by
      rw [runPrimary_assignment ops x a _ hx.1 ha.1, h2, hx.2]
    have h4 := runExpression_of_primary ops _ _ _ h3 hdm hda
    have hshape : (lp :: x :: a :: (te ++ [d])) ++ rest =
        lp :: x :: a :: (te ++ d :: rest) := by simp
    rw [hshape, runPrimary_paren ops lp _ hlp.1, h4]
    simp only [restCurrent_cons, hd.1, if_true, List.tail_cons]

/-- Tokens with the kinds and lexemes of a printed tree parse back to the
tree. -/
theorem infixparse_lexemes {F : Type} (ops : DoubleOps F) (t : ASTNode F) (ts : List Token)
    (unset : Token) (hops : t.OperatorsSupported)
    (hnum : ∀ v ∈ t.numbers, ops.stod (ops.toStr v) = .ok v)
    (hts : ts.map Token.key = lexemes ops t) (hsize : ts.length < 2 ^ 64) :
    (infixparse ops (infixParser.new ts unset)).1 = .ok t := by
  have hne : ts ≠ [] := by
    intro h
    rw [h] at hts
    cases t <;> simp [lexemes] at hts
  have h1 := runPrimary_lexemes ops t hops hnum ts [] hts (by decide)
  rw [List.append_nil] at h1
  rw [infixparse_fst ops ts unset hne hsize,
    runExpression_of_primary ops ts [] t h1 not_isMulOp_END not_isAddOp_END]

/-! ## The cursor in bounds -/

theorem inBounds_of_view {toks : List Token} {p : infixParser} {rest : List Token}
    (hv : View toks p rest) : InBounds toks p := by
  obtain ⟨ht, hlen, hcur, hpos⟩ := hv
  rcases hpos with ⟨hlt, hr⟩ | ⟨hlt, hr⟩
  · refine ⟨ht, hlen, hlt, Or.inl ?_⟩
    rw [hcur, hr]
    simp [restCurrent, List.head?_drop, List.getElem?_eq_getElem hlt]
  · refine ⟨ht, hlen, by omega, Or.inr ⟨?_, hlt⟩⟩
    rw [hcur, hr]; rfl

theorem view_of_inBounds {toks : List Token} {p : infixParser} (h : InBounds toks p) :
    ∃ rest, View toks p rest := by
  obtain ⟨ht, hlen, hlt, hcur⟩ := h
  rcases hcur with hc | ⟨hc, hi⟩
  · refine ⟨toks.drop p.index, ht, hlen, ?_, Or.inl ⟨hlt, rfl⟩⟩
    rw [List.getElem?_eq_getElem hlt] at hc
    injection hc with hc
    rw [← hc]
    simp [restCurrent, List.head?_drop, List.getElem?_eq_getElem hlt]
  · exact ⟨[], ht, hlen, by rw [hc]; rfl, Or.inr ⟨hi, rfl⟩⟩

/-- The tokens still to be read determine the parser object. -/
theorem view_unique {toks : List Token} {p q : infixParser} {rest : List Token}
    (hp : View toks p rest) (hq : View toks q rest) : p = q := by
  obtain ⟨hpt, _, hpc, hpp⟩ := hp
  obtain ⟨hqt, _, hqc, hqp⟩ := hq
  have hidx : p.index = q.index := by
    rcases hpp with ⟨h1, h2⟩ | ⟨h1, h2⟩ <;> rcases hqp with ⟨h3, h4⟩ | ⟨h3, h4⟩
    · have := congrArg List.length (h2.symm.trans h4)
      simp only [List.length_drop] at this
      omega
    · have := congrArg List.length (h2.symm.trans h4)
      simp only [List.length_drop, List.length_nil] at this
      omega
    · have := congrArg List.length (h2.symm.trans h4)
      simp only [List.length_drop, List.length_nil] at this
      omega
    · omega
  cases p
  cases q
  simp only at hpt hqt hpc hqc hidx
  subst hpt hqt hidx
  rw [hpc, hqc]

theorem view_nextTokens {toks : List Token} (k : Nat) :
    ∀ (p : infixParser) (rest : List Token), View toks p rest →
      ∃ q, nextTokens k p = .ok q ∧ View toks q (rest.drop k) := by
  induction k with
  | zero =>
    intro p rest hv
    exact ⟨p, rfl, by simpa using hv⟩
  | succ k ih =>
    intro p rest hv
    obtain ⟨p1, h1, hv1⟩ := view_nextToken hv
    obtain ⟨q, hq, hvq⟩ := ih p1 rest.tail hv1
    refine ⟨q, ?_, ?_⟩
    · simp only [nextTokens, h1]
      exact hq
    · have hd : List.drop k rest.tail = List.drop (k + 1) rest := by
        cases rest with
        | nil => simp
        | cons x xs => rfl
      rw [← hd]
      exact hvq

/-- The cursor after `k` calls of `nextToken` on a freshly constructed parser
over a non-empty vector: it stands on token `k` while there is one, and on the
last index with the `END` sentinel afterwards. -/
theorem nextTokens_new (toks : List Token) (unset : Token) (h0 : toks ≠ [])
    (hsize : toks.length < 2 ^ 64) (k : Nat) :
    ∃ q, nextTokens k (infixParser.new toks unset) = .ok q ∧ q.tokens = toks ∧
      q.index = min k (toks.length - 1) ∧ q.index < toks.length ∧
      (k < toks.length → toks[k]? = some q.currentToken) ∧
      (toks.length ≤ k → q.currentToken = END) := by
  obtain ⟨q, hq, hv⟩ := view_nextTokens k _ _ (view_new toks unset h0 hsize)
  have hpos : 0 < toks.length := List.length_pos.mpr h0
  obtain ⟨ht, _, hcur, hp⟩ := hv
  refine ⟨q, hq, ht, ?_, ?_, ?_, ?_⟩
  · rcases hp with ⟨h1, h2⟩ | ⟨h1, h2⟩
    · have := congrArg List.length h2
      simp only [List.length_drop] at this
      omega
    · have := congrArg List.length h2
      simp only [List.length_drop, List.length_nil] at this
      omega
  · rcases hp with ⟨h1, _⟩ | ⟨h1, _⟩ <;> omega
  · intro hk
    rw [hcur]
    simp [restCurrent, List.head?_drop, List.getElem?_eq_getElem hk]
  · intro hk
    rw [hcur, List.drop_eq_nil_of_le hk]
    rfl

/-! ## Methods called on a cursor in bounds -/

/-- Called on a parser object whose cursor is in bounds, every parsing method
leaves the cursor in bounds and reports no read outside the vector. -/
theorem parse_inBounds {F : Type} (ops : DoubleOps F) (toks : List Token) (n : Nat)
    (p : infixParser) (hp : InBounds toks p) :
    (InBounds toks (infixparseExpression ops n p).2 ∧
        (infixparseExpression ops n p).1 ≠ .error .outOfBounds) ∧
      (∀ left, InBounds toks (infixparseExpressionLoop ops n left p).2 ∧
        (infixparseExpressionLoop ops n left p).1 ≠ .error .outOfBounds) ∧
      (InBounds toks (infixparseTerm ops n p).2 ∧
        (infixparseTerm ops n p).1 ≠ .error .outOfBounds) ∧
      (∀ left, InBounds toks (infixparseTermLoop ops n left p).2 ∧
        (infixparseTermLoop ops n left p).1 ≠ .error .outOfBounds) ∧
      (InBounds toks (infixparseFactor ops n p).2 ∧
        (infixparseFactor ops n p).1 ≠ .error .outOfBounds) ∧
      (InBounds toks (infixparsePrimary ops n p).2 ∧
        (infixparsePrimary ops n p).1 ≠ .error .outOfBounds) := by
  obtain ⟨rest, hv⟩ := view_of_inBounds hp
  obtain ⟨hE, hEL, hT, hTL, hF, hP⟩ := view_parse ops toks n
  obtain ⟨bE, bEL, bT, bTL, bF, bP⟩ := rest_in_bounds ops n
  refine ⟨?_, ?_, ?_, ?_, ?_, ?_⟩
  · have h := hE p rest hv
    exact ⟨inBounds_of_view h.2, by rw [h.1]; exact bE rest⟩
  · intro left
    have h := hEL left p rest hv
    exact ⟨inBounds_of_view h.2, by rw [h.1]; exact bEL left rest⟩
  · have h := hT p rest hv
    exact ⟨inBounds_of_view h.2, by rw [h.1]; exact bT rest⟩
  · intro left
    have h := hTL left p rest hv
    exact ⟨inBounds_of_view h.2, by rw [h.1]; exact bTL left rest⟩
  · have h := hF p rest hv
    exact ⟨inBounds_of_view h.2, by rw [h.1]; exact bF rest⟩
  · have h := hP p rest hv
    exact ⟨inBounds_of_view h.2, by rw [h.1]; exact bP rest⟩

/-- With at least the fuel `infixparse` supplies, `infixparseExpression` has the
outcome of `infixparse`. -/
theorem infixparse_fuel {F : Type} (ops : DoubleOps F) (toks : List Token) (unset : Token)
    (h0 : toks ≠ []) (hsize : toks.length < 2 ^ 64) (n : Nat)
    (hn : 4 * toks.length + 4 ≤ n) :
    infixparseExpression ops n (infixParser.new toks unset) =
      infixparse ops (infixParser.new toks unset) := by
  have h1 := (view_parse ops toks n).1 _ _ (view_new toks unset h0 hsize)
  rw [restExpression_eq_run ops n toks hn] at h1
  have h2 := infixparse_run ops toks unset h0 hsize
  exact Prod.ext (h1.1.trans h2.1.symm) (view_unique h1.2 h2.2)

/-- What `infixparse` does on a non-empty vector: it returns a node, throws
`UnexpectedToken`, or throws the exception of `std::stod`. -/
theorem infixparse_total {F : Type} (ops : DoubleOps F) (toks : List Token) (unset : Token)
    (h0 : toks ≠ []) (hsize : toks.length < 2 ^ 64) :
    (∃ t, (infixparse ops (infixParser.new toks unset)).1 = .ok t) ∨
      (∃ text line column, (infixparse ops (infixParser.new toks unset)).1 =
        .error (.UnexpectedToken text line column)) ∨
      (∃ se, (infixparse ops (infixParser.new toks unset)).1 = .error (.stod se)) := by
  rcases h : infixparse ops (infixParser.new toks unset) with ⟨e | t, q⟩
  · rcases (infixparse_error ops toks unset h0 hsize e q h).1 with he | ⟨_, se, _, he⟩
    · exact Or.inr (Or.inl ⟨_, _, _, by rw [he.1.symm]⟩)
    · exact Or.inr (Or.inr ⟨se, by rw [he]⟩)
  · exact Or.inl ⟨t, rfl⟩

/-- What `infixparse` does on a non-empty vector whose NUMBER lexemes
`std::stod` converts: it returns a node or throws `UnexpectedToken`. -/
theorem infixparse_total_converts {F : Type} (ops : DoubleOps F) (toks : List Token)
    (unset : Token) (h0 : toks ≠ []) (hsize : toks.length < 2 ^ 64)
    (hconv : AllConvert ops toks) :
    (∃ t, (infixparse ops (infixParser.new toks unset)).1 = .ok t) ∨
      (∃ text line column, (infixparse ops (infixParser.new toks unset)).1 =
        .error (.UnexpectedToken text line column)) := by
  rcases h : infixparse ops (infixParser.new toks unset) with ⟨e | t, q⟩
  · have he := (infixparse_error_converts ops toks unset h0 hsize hconv e q h).1
    exact Or.inr ⟨_, _, _, by rw [he.symm]⟩
  · exact Or.inl ⟨t, rfl⟩

/-! ## Evaluation of trees of a given shape -/

/-- A tree without `Assignment` leaves the symbol table as it found it. -/
theorem evaluate_assignmentFree {F : Type} (ops : DoubleOps F) (t : ASTNode F) :
    t.AssignmentFree → ∀ symbolTable : SymbolTable F,
      (evaluate ops t symbolTable).2 = symbolTable := by
  induction t with
  | Number value => intro _ st; rfl
  | Variable variableName =>
    intro _ st
    simp only [evaluate]
    cases st variableName <;> rfl
  | BinaryOperation op left right ihl ihr =>
    intro h st
    have hl := ihl h.1 st
    rcases h1 : evaluate ops left st with ⟨e1 | v1, st1⟩
    · rw [h1] at hl
      simp only [evaluate, h1]
      exact hl
    · rw [h1] at hl
      simp only at hl
      have hr := ihr h.2 st1
      rcases h2 : evaluate ops right st1 with ⟨e2 | v2, st2⟩
      · rw [h2] at hr
        simp only [evaluate, h1, h2]
        exact hr.trans hl
      · rw [h2] at hr
        simp only at hr
        simp only [evaluate, h1, h2]
        split_ifs <;> exact hr.trans hl
  | Assignment variableName expression _ => intro h; exact absurd h id

/-- A tree whose operators are all supported throws `UnknownIdentifier` or
`DivisionByZero` when it throws. -/
theorem evaluate_supported {F : Type} (ops : DoubleOps F) (t : ASTNode F) :
    t.OperatorsSupported → ∀ (symbolTable : SymbolTable F) (e : EvalError),
      (evaluate ops t symbolTable).1 = .error e →
        (∃ name, e = .UnknownIdentifier name) ∨ e = .DivisionByZero := by
  induction t with
  | Number value => intro _ st e h; cases h
  | Variable variableName =>
    intro _ st e h
    simp only [evaluate] at h
    cases hs : st variableName
    · rw [hs] at h
      simp only at h
      injection h with h
      exact Or.inl ⟨variableName, h.symm⟩
    · rw [hs] at h; cases h
  | BinaryOperation op left right ihl ihr =>
    intro hsup st e h
    obtain ⟨hop, hl, hr⟩ := hsup
    simp only [evaluate] at h
    rcases h1 : evaluate ops left st with ⟨e1 | v1, st1⟩
    · rw [h1] at h
      simp only at h
      exact ihl hl st e (by rw [h1]; exact h)
    · rw [h1] at h
      simp only at h
      rcases h2 : evaluate ops right st1 with ⟨e2 | v2, st2⟩
      · rw [h2] at h
        simp only at h
        exact ihr hr st1 e (by rw [h2]; exact h)
      · rw [h2] at h
        simp only at h
        rcases hop with rfl | rfl | rfl | rfl
        · simp at h
        · simp at h
        · simp at h
        · by_cases hz : ops.eqZero v2 = true
          · simp [hz] at h
            exact Or.inr h.symm
          · simp [hz] at h
  | Assignment variableName expression ih =>
    intro hsup st e h
    simp only [evaluate] at h
    rcases h1 : evaluate ops expression st with ⟨e1 | v1, st1⟩
    · rw [h1] at h
      simp only at h
      exact ih hsup st e (by rw [h1]; exact h)
    · rw [h1] at h; cases h

/-! ## The claims -/

/-- C1, as stated, fails. In the chain `1 - 2 - 1000...0` every operand is a
NUMBER token and both operators are `-`, but the last lexeme has 310 digits:
`std::stod` throws `std::out_of_range` on it, nothing catches the exception,
and `infixparse` returns no tree. -/
theorem left_associative_folding_counterexample :
    (tokenAt 1 "1" .NUMBER).type = TokenType.NUMBER ∧
      (∀ x ∈ [(tokenAt 3 "-" .OPERATOR, tokenAt 5 "2" .NUMBER),
          (tokenAt 7 "-" .OPERATOR, tokenAt 9 lexemeTenPow309 .NUMBER)],
        IsAddOp x.1 ∧ x.2.type = TokenType.NUMBER) ∧
      lexemeTenPow309.length = 310 ∧
      exact.stod lexemeTenPow309 = .error .out_of_range ∧
      (infixparse exact (infixParser.new
        (tokenAt 1 "1" .NUMBER :: interleave
          [(tokenAt 3 "-" .OPERATOR, tokenAt 5 "2" .NUMBER),
            (tokenAt 7 "-" .OPERATOR, tokenAt 9 lexemeTenPow309 .NUMBER)]) END)).1 =
        .error (.stod .out_of_range) ∧
      ∀ t : ASTNode ℚ,
        (infixparse exact (infixParser.new
          (tokenAt 1 "1" .NUMBER :: interleave
            [(tokenAt 3 "-" .OPERATOR, tokenAt 5 "2" .NUMBER),
              (tokenAt 7 "-" .OPERATOR, tokenAt 9 lexemeTenPow309 .NUMBER)]) END)).1 ≠
          .ok t := by
  have h : (infixparse exact (infixParser.new
      (tokenAt 1 "1" .NUMBER :: interleave
        [(tokenAt 3 "-" .OPERATOR, tokenAt 5 "2" .NUMBER),
          (tokenAt 7 "-" .OPERATOR, tokenAt 9 lexemeTenPow309 .NUMBER)]) END)).1 =
      .error (.stod .out_of_range) := by decide!
  refine ⟨rfl, by decide, by decide!, by decide!, h, ?_⟩
  intro t ht
  rw [h] at ht
  cases ht

/-- C1, amended. Left-associative folding: a chain `n1 op1 n2 ... nk` of NUMBER
tokens whose lexemes `std::stod` converts, joined by OPERATOR tokens of one
precedence level (all `+`/`-`, or all `*`/`/`), parses to the left-nested
tree, in which each operator takes everything built before it as its left
operand; `1 - 2 - 3` parses as `((1 - 2) - 3)`, not as `(1 - (2 - 3))`, and
evaluates to `-4`. -/
theorem left_associative_folding {F : Type} (ops : DoubleOps F) (num : Token → F)
    (unset first : Token) (more : List (Token × Token)) (hfirst : Converts ops num first)
    (hlevel : (∀ x ∈ more, IsAddOp x.1 ∧ Converts ops num x.2) ∨
      (∀ x ∈ more, IsMulOp x.1 ∧ Converts ops num x.2))
    (hsize : (first :: interleave more).length < 2 ^ 64) :
    (infixparse ops (infixParser.new (first :: interleave more) unset)).1 =
        .ok (leftNested num (.Number (num first)) more) ∧
      (infixparse exact (infixParser.new tokensOneMinusTwoMinusThree unset)).1 =
        .ok (.BinaryOperation '-' (.BinaryOperation '-' (.Number 1) (.Number 2)) (.Number 3)) ∧
      (infixparse exact (infixParser.new tokensOneMinusTwoMinusThree unset)).1 ≠
        .ok (.BinaryOperation '-' (.Number 1) (.BinaryOperation '-' (.Number 2) (.Number 3))) ∧
      ∀ symbolTable : SymbolTable ℚ,
        evaluate exact
            (.BinaryOperation '-' (.BinaryOperation '-' (.Number 1) (.Number 2)) (.Number 3))
            symbolTable =
          (.ok (-4), symbolTable) := by
  have hparse : (infixparse exact (infixParser.new tokensOneMinusTwoMinusThree unset)).1 =
      .ok (.BinaryOperation '-' (.BinaryOperation '-' (.Number 1) (.Number 2)) (.Number 3)) := by
    rw [tokensOneMinusTwoMinusThree, new_cons]; decide!
  refine ⟨?_, hparse, ?_, ?_⟩
  · rw [infixparse_fst ops _ unset (List.cons_ne_nil _ _) hsize,
      runExpression_chain ops num first more hfirst hlevel]
  · rw [hparse]
    intro h
    injection h with h
    injection h with _ h _
    cases h
  · intro symbolTable
    simp [evaluate, exact]
    norm_num

/-- The chain `1 - 2 - 3` meets the hypotheses of `left_associative_folding`. -/
theorem left_associative_folding_witness :
    Converts exact digitsNum (tokenAt 1 "1" .NUMBER) ∧
      (∀ x ∈ [(tokenAt 3 "-" .OPERATOR, tokenAt 5 "2" .NUMBER),
          (tokenAt 7 "-" .OPERATOR, tokenAt 9 "3" .NUMBER)],
        IsAddOp x.1 ∧ Converts exact digitsNum x.2) ∧
      (infixparse exact (infixParser.new
        (tokenAt 1 "1" .NUMBER :: interleave
          [(tokenAt 3 "-" .OPERATOR, tokenAt 5 "2" .NUMBER),
            (tokenAt 7 "-" .OPERATOR, tokenAt 9 "3" .NUMBER)]) END)).1 =
        .ok (leftNested digitsNum (.Number (digitsNum (tokenAt 1 "1" .NUMBER)))
          [(tokenAt 3 "-" .OPERATOR, tokenAt 5 "2" .NUMBER),
            (tokenAt 7 "-" .OPERATOR, tokenAt 9 "3" .NUMBER)]) :=
  have h1 : Converts exact digitsNum (tokenAt 1 "1" .NUMBER) := ⟨rfl, by decide!⟩
  have h2 : ∀ x ∈ [(tokenAt 3 "-" .OPERATOR, tokenAt 5 "2" .NUMBER),
      (tokenAt 7 "-" .OPERATOR, tokenAt 9 "3" .NUMBER)],
      IsAddOp x.1 ∧ Converts exact digitsNum x.2 := by
    intro x hx
    simp only [List.mem_cons, List.mem_singleton, List.not_mem_nil, or_false] at hx
    rcases hx with rfl | rfl
    · exact ⟨by decide, rfl, by decide!⟩
    · exact ⟨by decide, rfl, by decide!⟩
  ⟨h1, h2, (left_associative_folding exact digitsNum END (tokenAt 1 "1" .NUMBER)
    [(tokenAt 3 "-" .OPERATOR, tokenAt 5 "2" .NUMBER),
      (tokenAt 7 "-" .OPERATOR, tokenAt 9 "3" .NUMBER)]
    h1 (Or.inl h2) (by decide)).1⟩

/-- C2, as stated, fails. In `2 + 3 * 1000...0` the three operands are NUMBER
tokens, but the last lexeme has 310 digits: `std::stod` throws
`std::out_of_range` on it and `infixparse` returns no tree; the same happens
in `( 2 + 3 ) * 1000...0`. -/
theorem precedence_counterexample :
    exact.stod lexemeTenPow309 = .error .out_of_range ∧
      (infixparse exact (infixParser.new
        [tokenAt 1 "2" .NUMBER, tokenAt 3 "+" .OPERATOR, tokenAt 5 "3" .NUMBER,
          tokenAt 7 "*" .OPERATOR, tokenAt 9 lexemeTenPow309 .NUMBER] END)).1 =
        .error (.stod .out_of_range) ∧
      (infixparse exact (infixParser.new
        [tokenAt 1 "(" .LEFT_PAREN, tokenAt 2 "2" .NUMBER, tokenAt 4 "+" .OPERATOR,
          tokenAt 6 "3" .NUMBER, tokenAt 7 ")" .RIGHT_PAREN, tokenAt 9 "*" .OPERATOR,
          tokenAt 11 lexemeTenPow309 .NUMBER] END)).1 =
        .error (.stod .out_of_range) ∧
      ∀ t : ASTNode ℚ,
        (infixparse exact (infixParser.new
          [tokenAt 1 "2" .NUMBER, tokenAt 3 "+" .OPERATOR, tokenAt 5 "3" .NUMBER,
            tokenAt 7 "*" .OPERATOR, tokenAt 9 lexemeTenPow309 .NUMBER] END)).1 ≠ .ok t := by
  have h : (infixparse exact (infixParser.new
      [tokenAt 1 "2" .NUMBER, tokenAt 3 "+" .OPERATOR, tokenAt 5 "3" .NUMBER,
        tokenAt 7 "*" .OPERATOR, tokenAt 9 lexemeTenPow309 .NUMBER] END)).1 =
      .error (.stod .out_of_range) := by decide!
  refine ⟨by decide!, h, by decide!, ?_⟩
  intro t ht
  rw [h] at ht
  cases ht

/-- C2, amended. Precedence: for NUMBER tokens `a b c` whose lexemes
`std::stod` converts to `va vb vc`, `p` one of `+ -` and `m` one of `* /`, the
tokens `a p b m c` parse to `p(a, m(b, c))` and the tokens `( a p b ) m c`
parse to `m(p(a, b), c)`; `2 + 3 * 4` evaluates to `14` and `(2 + 3) * 4` to
`20`. -/
theorem precedence {F : Type} (ops : DoubleOps F) (unset a b c p m lp rp : Token)
    (va vb vc : F)
    (ha : a.type = TokenType.NUMBER) (hb : b.type = TokenType.NUMBER)
    (hc : c.type = TokenType.NUMBER) (hva : ops.stod a.text = .ok va)
    (hvb : ops.stod b.text = .ok vb) (hvc : ops.stod c.text = .ok vc)
    (hp : IsAddOp p) (hm : IsMulOp m)
    (hlp : lp.type = TokenType.LEFT_PAREN) (hrp : rp.type = TokenType.RIGHT_PAREN) :
    (infixparse ops (infixParser.new [a, p, b, m, c] unset)).1 =
        .ok (.BinaryOperation (p.text.get 0) (.Number va)
          (.BinaryOperation (m.text.get 0) (.Number vb) (.Number vc))) ∧
      (infixparse ops (infixParser.new [lp, a, p, b, rp, m, c] unset)).1 =
        .ok (.BinaryOperation (m.text.get 0)
          (.BinaryOperation (p.text.get 0) (.Number va) (.Number vb))
          (.Number vc)) ∧
      (∃ t, (infixparse exact (infixParser.new tokensTwoPlusThreeTimesFour unset)).1 = .ok t ∧
        ∀ symbolTable : SymbolTable ℚ, evaluate exact t symbolTable = (.ok 14, symbolTable)) ∧
      (∃ t, (infixparse exact (infixParser.new tokensParenTwoPlusThreeTimesFour unset)).1 =
          .ok t ∧
        ∀ symbolTable : SymbolTable ℚ, evaluate exact t symbolTable = (.ok 20, symbolTable)) := by
  have hrpm : ¬ IsMulOp rp := fun h => by rw [h.1] at hrp; cases hrp
  have hrpa : ¬ IsAddOp rp := fun h => by rw [h.1] at hrp; cases hrp
  refine ⟨?_, ?_, ?_, ?_⟩
  · rw [infixparse_fst ops _ unset (List.cons_ne_nil _ _) (by simp),
      runExpression_eq,
      runTerm_number ops a (p :: [b, m, c]) va ha hva (not_isMulOp_of_isAddOp (t := p) hp)]
    simp only [runExpressionLoop_step ops _ p _ hp, runTerm_eq, runFactor_eq,
      runPrimary_number ops b _ vb hb hvb, runTermLoop_step ops _ m _ hm,
      runPrimary_number ops c _ vc hc hvc, runTermLoop_stop ops _ [] not_isMulOp_END,
      runExpressionLoop_stop ops _ [] not_isAddOp_END]
  · rw [infixparse_fst ops _ unset (List.cons_ne_nil _ _) (by simp),
      runExpression_eq, runTerm_eq, runFactor_eq, runPrimary_paren ops lp _ hlp,
      runExpression_eq,
      runTerm_number ops a (p :: [b, rp, m, c]) va ha hva
        (not_isMulOp_of_isAddOp (t := p) hp)]
    simp only [runExpressionLoop_step ops _ p _ hp,
      runTerm_number ops b (rp :: [m, c]) vb hb hvb hrpm,
      runExpressionLoop_stop ops _ (rp :: [m, c]) hrpa, restCurrent_cons, hrp, if_true,
      List.tail_cons, runTermLoop_step ops _ m _ hm, runFactor_eq,
      runPrimary_number ops c _ vc hc hvc, runTermLoop_stop ops _ [] not_isMulOp_END,
      runExpressionLoop_stop ops _ [] not_isAddOp_END]
  · refine ⟨.BinaryOperation '+' (.Number 2) (.BinaryOperation '*' (.Number 3) (.Number 4)),
      ?_, ?_⟩
    · rw [tokensTwoPlusThreeTimesFour, new_cons]; decide!
    · intro symbolTable
      simp [evaluate, exact]
      norm_num
  · refine ⟨.BinaryOperation '*' (.BinaryOperation '+' (.Number 2) (.Number 3)) (.Number 4),
      ?_, ?_⟩
    · rw [tokensParenTwoPlusThreeTimesFour, new_cons]; decide!
    · intro symbolTable
      simp [evaluate, exact]
      norm_num

/-- The tokens of `2 + 3 * 4` and `(2 + 3) * 4` meet the hypotheses of
`precedence`. -/
theorem precedence_witness :
    exact.stod "2" = .ok 2 ∧ exact.stod "3" = .ok 3 ∧ exact.stod "4" = .ok 4 ∧
      IsAddOp (tokenAt 3 "+" .OPERATOR) ∧ IsMulOp (tokenAt 7 "*" .OPERATOR) ∧
      (infixparse exact (infixParser.new
        [tokenAt 1 "2" .NUMBER, tokenAt 3 "+" .OPERATOR, tokenAt 5 "3" .NUMBER,
          tokenAt 7 "*" .OPERATOR, tokenAt 9 "4" .NUMBER] END)).1 =
        .ok (.BinaryOperation ((tokenAt 3 "+" .OPERATOR).text.get 0)
          (.Number 2)
          (.BinaryOperation ((tokenAt 7 "*" .OPERATOR).text.get 0)
            (.Number 3) (.Number 4))) :=
  ⟨by decide!, by decide!, by decide!, by decide, by decide,
    (precedence exact END (tokenAt 1 "2" .NUMBER) (tokenAt 5 "3" .NUMBER)
      (tokenAt 9 "4" .NUMBER) (tokenAt 3 "+" .OPERATOR) (tokenAt 7 "*" .OPERATOR)
      (tokenAt 1 "(" .LEFT_PAREN) (tokenAt 7 ")" .RIGHT_PAREN) 2 3 4
      rfl rfl rfl (by decide!) (by decide!) (by decide!) (by decide) (by decide) rfl rfl).1⟩

/-- C3, as stated, fails. The lexemes `1234567` and `1234570` are accepted and
give two different trees, which both print as `1.23457e+06`, since
`oss << value` keeps six significant digits; so whatever the tokenizer makes of
that text, parsing it again cannot give back both trees. -/
theorem round_trip_counterexample :
    (infixparse exact (infixParser.new [tokenAt 1 "1234567" .NUMBER] END)).1 =
        .ok (.Number 1234567) ∧
      (infixparse exact (infixParser.new [tokenAt 1 "1234570" .NUMBER] END)).1 =
        .ok (.Number 1234570) ∧
      printInfix exact (.Number 1234567) = "1.23457e+06" ∧
      printInfix exact (.Number 1234570) = "1.23457e+06" ∧
      (ASTNode.Number (1234567 : ℚ)).toInfix exact = "1.23457e+06" ∧
      (ASTNode.Number (1234570 : ℚ)).toInfix exact = "1.23457e+06" ∧
      ∀ tokenize : String → List Token,
        ¬ ((infixparse exact (infixParser.new
              (tokenize (printInfix exact (.Number 1234567))) END)).1 =
            .ok (.Number 1234567) ∧
          (infixparse exact (infixParser.new
              (tokenize (printInfix exact (.Number 1234570))) END)).1 =
            .ok (.Number 1234570)) := by
  have hp1 : printInfix exact (.Number 1234567) = "1.23457e+06" := by decide!
  have hp2 : printInfix exact (.Number 1234570) = "1.23457e+06" := by decide!
  refine ⟨by decide!, by decide!, hp1, hp2, by decide!, by decide!, ?_⟩
  intro tokenize h
  rw [hp1, hp2] at h
  have h3 := h.1.symm.trans h.2
  injection h3 with h3
  injection h3 with h3
  norm_num at h3

/-- C3, amended. Round trip: let `t` be a tree that `infixparse` returns. If
the tokenizer splits the text printed for `t` into the tokens the printer
wrote (a LEFT_PAREN or RIGHT_PAREN for each parenthesis, an IDENTIFIER for each
name, an ASSIGNMENT for `=`, an OPERATOR for each operator character, a NUMBER
for each printed value), and every printed value converts back under
`std::stod` to the value it was printed from, then parsing those tokens gives
`t` again. The text is the same for `toInfix` and `printInfix`, and it is fully
parenthesized: each `BinaryOperation` and each `Assignment` is wrapped in one
pair of parentheses. -/
theorem round_trip {F : Type} (ops : DoubleOps F) (toks : List Token) (unset : Token)
    (t : ASTNode F) (q : infixParser) (tokenize : String → List Token)
    (hparse : infixparse ops (infixParser.new toks unset) = (.ok t, q))
    (hlex : (tokenize (printInfix ops t)).map Token.key = lexemes ops t)
    (hnum : ∀ v ∈ t.numbers, ops.stod (ops.toStr v) = .ok v)
    (hsize : (tokenize (printInfix ops t)).length < 2 ^ 64) :
    (infixparse ops (infixParser.new (tokenize (printInfix ops t)) unset)).1 = .ok t ∧
      (infixparse ops (infixParser.new (tokenize (t.toInfix ops)) unset)).1 = .ok t ∧
      (∀ (op : Char) (left right : ASTNode F),
        printInfix ops (.BinaryOperation op left right) =
          "(" ++ printInfix ops left ++ " " ++ String.singleton op ++ " " ++
            printInfix ops right ++ ")") ∧
      (∀ (name : String) (expression : ASTNode F),
        printInfix ops (.Assignment name expression) =
          "(" ++ name ++ " = " ++ printInfix ops expression ++ ")") := by
  have h := infixparse_lexemes ops t _ unset (infixparse_operators ops _ t q hparse) hnum
    hlex hsize
  refine ⟨h, ?_, ?_, ?_⟩
  · rw [← printInfix_eq_toInfix]; exact h
  · intro op left right; rfl
  · intro name expression; rfl

/-- The tree of `1 - 2 - 3` prints as `((1 - 2) - 3)`, which the stand-in
tokenizer splits as `round_trip` asks, and parses back to itself. -/
theorem round_trip_witness :
    infixparse exact (infixParser.new tokensOneMinusTwoMinusThree END) =
        (.ok (.BinaryOperation '-' (.BinaryOperation '-' (.Number 1) (.Number 2)) (.Number 3)),
          ⟨tokensOneMinusTwoMinusThree, 4, END⟩) ∧
      printInfix exact
          (.BinaryOperation '-' (.BinaryOperation '-' (.Number 1) (.Number 2)) (.Number 3)) =
        "((1 - 2) - 3)" ∧
      (infixparse exact (infixParser.new (sampleTokenize "((1 - 2) - 3)") END)).1 =
        .ok (.BinaryOperation '-' (.BinaryOperation '-' (.Number 1) (.Number 2)) (.Number 3)) :=
  ⟨by decide!, by decide!,
    (round_trip exact tokensOneMinusTwoMinusThree END
      (.BinaryOperation '-' (.BinaryOperation '-' (.Number 1) (.Number 2)) (.Number 3))
      ⟨tokensOneMinusTwoMinusThree, 4, END⟩ sampleTokenize
      (by decide!) (by decide!) (by decide!) (by decide!)).1⟩

/-- C4, as stated, fails: not every failure of `infixparse` is an
`UnexpectedToken`. In `1 + 1000...0` a primary is expected behind `+` and the
current token is a NUMBER, so none of the conditions of the claim holds; its
lexeme has 310 digits, `std::stod` throws `std::out_of_range`, and that
exception, which no method catches, is what `infixparse` fails with. -/
theorem parse_failure_counterexample :
    exact.stod lexemeTenPow309 = .error .out_of_range ∧
      infixparse exact (infixParser.new
          [tokenAt 1 "1" .NUMBER, tokenAt 3 "+" .OPERATOR,
            tokenAt 5 lexemeTenPow309 .NUMBER] END) =
        (.error (.stod .out_of_range),
          ⟨[tokenAt 1 "1" .NUMBER, tokenAt 3 "+" .OPERATOR,
            tokenAt 5 lexemeTenPow309 .NUMBER], 2, tokenAt 5 lexemeTenPow309 .NUMBER⟩) ∧
      ∀ (text : String) (line column : Nat),
        (infixparse exact (infixParser.new
          [tokenAt 1 "1" .NUMBER, tokenAt 3 "+" .OPERATOR,
            tokenAt 5 lexemeTenPow309 .NUMBER] END)).1 ≠
          .error (.UnexpectedToken text line column) := by
  have h : infixparse exact (infixParser.new
      [tokenAt 1 "1" .NUMBER, tokenAt 3 "+" .OPERATOR,
        tokenAt 5 lexemeTenPow309 .NUMBER] END) =
      (.error (.stod .out_of_range),
        ⟨[tokenAt 1 "1" .NUMBER, tokenAt 3 "+" .OPERATOR,
          tokenAt 5 lexemeTenPow309 .NUMBER], 2, tokenAt 5 lexemeTenPow309 .NUMBER⟩) := by
    decide!
  refine ⟨by decide!, h, ?_⟩
  intro text line column ht
  rw [h] at ht
  cases ht

/-- C4, amended. Parse failure, on every non-empty token sequence.
(1) Whenever `infixparsePrimary` runs with a current token that is not a
NUMBER, an IDENTIFIER or a LEFT_PAREN (a RIGHT_PAREN, any OPERATOR or ASSIGNMENT
token, the `END` sentinel), it throws `UnexpectedToken` with the text, line and
column of that token. (2) Whenever it finds no RIGHT_PAREN behind a
parenthesized expression, it throws `UnexpectedToken` with the text, line and
column of the token then under the cursor. (3) No method catches: an exception
thrown by the primary, by an operand of either loop, by a later iteration of
either loop, by the right-hand side of an assignment or by the expression
behind a LEFT_PAREN leaves the calling method unchanged, up to `infixparse`.
(4) Every exception `infixparse` throws is one of (1) and (2), or is the
exception `std::stod` throws on the lexeme of the NUMBER token under the cursor;
the token under the cursor is the token of the input at the index or the `END`
sentinel. (5) When `std::stod` converts the lexeme of every NUMBER token of the
input, every exception of `infixparse` is one of (1) and (2). `1 + )` and
`2 * )` fail at the `)`, `1 +` and `2 *` fail at the sentinel. -/
theorem parse_failure {F : Type} (ops : DoubleOps F) (toks : List Token) (unset : Token)
    (h0 : toks ≠ []) (hsize : toks.length < 2 ^ 64) :
    (∀ (n : Nat) (p : infixParser), p.currentToken.type ≠ TokenType.NUMBER →
        p.currentToken.type ≠ TokenType.IDENTIFIER →
        p.currentToken.type ≠ TokenType.LEFT_PAREN →
        infixparsePrimary ops (n + 1) p =
          (.error (.UnexpectedToken p.currentToken.text p.currentToken.line
            p.currentToken.column), p)) ∧
      (∀ (n : Nat) (p p1 p2 : infixParser) (result : ASTNode F),
        p.currentToken.type = TokenType.LEFT_PAREN → nextToken p = .ok p1 →
        infixparseExpression ops n p1 = (.ok result, p2) →
        p2.currentToken.type ≠ TokenType.RIGHT_PAREN →
        infixparsePrimary ops (n + 1) p =
          (.error (.UnexpectedToken p2.currentToken.text p2.currentToken.line
            p2.currentToken.column), p2)) ∧
      ((∀ (n : Nat) (p q : infixParser) (e : ParseError),
          infixparsePrimary ops n p = (.error e, q) →
          infixparseExpression ops (n + 3) p = (.error e, q)) ∧
        (∀ (n : Nat) (p q : infixParser) (e : ParseError),
          infixparsePrimary ops n p = (.error e, q) →
          infixparseFactor ops (n + 1) p = (.error e, q)) ∧
        (∀ (n : Nat) (p q : infixParser) (e : ParseError),
          infixparseFactor ops n p = (.error e, q) →
          infixparseTerm ops (n + 1) p = (.error e, q)) ∧
        (∀ (n : Nat) (p p1 q : infixParser) (left : ASTNode F) (e : ParseError),
          infixparseFactor ops n p = (.ok left, p1) →
          infixparseTermLoop ops n left p1 = (.error e, q) →
          infixparseTerm ops (n + 1) p = (.error e, q)) ∧
        (∀ (n : Nat) (p p1 q : infixParser) (left : ASTNode F) (e : ParseError),
          IsMulOp p.currentToken → nextToken p = .ok p1 →
          infixparseFactor ops n p1 = (.error e, q) →
          infixparseTermLoop ops (n + 1) left p = (.error e, q)) ∧
        (∀ (n : Nat) (p p1 p2 q : infixParser) (left right : ASTNode F) (e : ParseError),
          IsMulOp p.currentToken → nextToken p = .ok p1 →
          infixparseFactor ops n p1 = (.ok right, p2) →
          infixparseTermLoop ops n
            (.BinaryOperation (p.currentToken.text.get 0) left right) p2 = (.error e, q) →
          infixparseTermLoop ops (n + 1) left p = (.error e, q)) ∧
        (∀ (n : Nat) (p q : infixParser) (e : ParseError),
          infixparseTerm ops n p = (.error e, q) →
          infixparseExpression ops (n + 1) p = (.error e, q)) ∧
        (∀ (n : Nat) (p p1 q : infixParser) (left : ASTNode F) (e : ParseError),
          infixparseTerm ops n p = (.ok left, p1) →
          infixparseExpressionLoop ops n left p1 = (.error e, q) →
          infixparseExpression ops (n + 1) p = (.error e, q)) ∧
        (∀ (n : Nat) (p p1 q : infixParser) (left : ASTNode F) (e : ParseError),
          IsAddOp p.currentToken → nextToken p = .ok p1 →
          infixparseTerm ops n p1 = (.error e, q) →
          infixparseExpressionLoop ops (n + 1) left p = (.error e, q)) ∧
        (∀ (n : Nat) (p p1 p2 q : infixParser) (left right : ASTNode F) (e : ParseError),
          IsAddOp p.currentToken → nextToken p = .ok p1 →
          infixparseTerm ops n p1 = (.ok right, p2) →
          infixparseExpressionLoop ops n
            (.BinaryOperation (p.currentToken.text.get 0) left right) p2 = (.error e, q) →
          infixparseExpressionLoop ops (n + 1) left p = (.error e, q)) ∧
        (∀ (n : Nat) (p p1 p2 q : infixParser) (e : ParseError),
          p.currentToken.type = TokenType.IDENTIFIER → nextToken p = .ok p1 →
          p1.currentToken.type = TokenType.ASSIGNMENT → nextToken p1 = .ok p2 →
          infixparseExpression ops n p2 = (.error e, q) →
          infixparsePrimary ops (n + 1) p = (.error e, q)) ∧
        (∀ (n : Nat) (p p1 q : infixParser) (e : ParseError),
          p.currentToken.type = TokenType.LEFT_PAREN → nextToken p = .ok p1 →
          infixparseExpression ops n p1 = (.error e, q) →
          infixparsePrimary ops (n + 1) p = (.error e, q)) ∧
        (∀ p : infixParser,
          infixparse ops p = infixparseExpression ops (4 * p.tokens.length + 4) p)) ∧
      (∀ (e : ParseError) (q : infixParser),
        infixparse ops (infixParser.new toks unset) = (.error e, q) →
        ((e = .UnexpectedToken q.currentToken.text q.currentToken.line
              q.currentToken.column ∧ FailurePoint ops q) ∨
            (q.currentToken.type = TokenType.NUMBER ∧
              ∃ se : StodError, ops.stod q.currentToken.text = .error se ∧ e = .stod se)) ∧
          q.tokens = toks ∧ q.index < toks.length ∧
          (q.currentToken = END ∨ toks[q.index]? = some q.currentToken)) ∧
      ((∀ t ∈ toks, t.type = TokenType.NUMBER → ∃ v : F, ops.stod t.text = .ok v) →
        ∀ (e : ParseError) (q : infixParser),
          infixparse ops (infixParser.new toks unset) = (.error e, q) →
          e = .UnexpectedToken q.currentToken.text q.currentToken.line
              q.currentToken.column ∧ FailurePoint ops q) ∧
      (∀ k : TokenType, k = .RIGHT_PAREN ∨ k = .OPERATOR ∨ k = .ASSIGNMENT →
        k ≠ .NUMBER ∧ k ≠ .IDENTIFIER ∧ k ≠ .LEFT_PAREN) ∧
      END.type = TokenType.OPERATOR ∧
      (infixparse exact (infixParser.new tokensOnePlusParen unset)).1 =
        .error (.UnexpectedToken ")" 1 5) ∧
      (infixparse exact (infixParser.new tokensOnePlus unset)).1 =
        .error (.UnexpectedToken "END" 0 0) ∧
      (infixparse exact (infixParser.new tokensTwoTimesParen unset)).1 =
        .error (.UnexpectedToken ")" 1 5) ∧
      (infixparse exact (infixParser.new tokensTwoTimes unset)).1 =
        .error (.UnexpectedToken "END" 0 0) := by
  refine ⟨?_, ?_, ⟨?_, ?_, ?_, ?_, ?_, ?_, ?_, ?_, ?_, ?_, ?_, ?_, ?_⟩, ?_, ?_, ?_, rfl,
    ?_, ?_, ?_, ?_⟩
  · intro n p h1 h2 h3
    rw [infixparsePrimary]
    simp only [h1, h2, h3, if_false]
    split_ifs <;> rfl
  · intro n p p1 p2 result h1 hN hE h2
    have hn : p.currentToken.type ≠ TokenType.NUMBER := by rw [h1]; decide
    have hi : p.currentToken.type ≠ TokenType.IDENTIFIER := by rw [h1]; decide
    rw [infixparsePrimary]
    simp only [hn, hi, if_false]
    simp only [h1, if_true, hN, hE, h2, if_false]
  · intro n p q e h
    simp only [infixparseExpression, infixparseTerm, infixparseFactor, h]
  · intro n p q e h
    simp only [infixparseFactor, h]
  · intro n p q e h
    simp only [infixparseTerm, h]
  · intro n p p1 q left e h1 h2
    simp only [infixparseTerm, h1, h2]
  · intro n p p1 q left e hc hN h
    have hc1 : p.currentToken.type = TokenType.OPERATOR ∧
        (p.currentToken.text = "*" ∨ p.currentToken.text = "/") := hc
    rw [infixparseTermLoop, if_pos hc1]
    simp only [hN, h]
  · intro n p p1 p2 q left right e hc hN h1 h2
    have hc1 : p.currentToken.type = TokenType.OPERATOR ∧
        (p.currentToken.text = "*" ∨ p.currentToken.text = "/") := hc
    rw [infixparseTermLoop, if_pos hc1]
    simp only [hN, h1, h2]
  · intro n p q e h
    simp only [infixparseExpression, h]
  · intro n p p1 q left e h1 h2
    simp only [infixparseExpression, h1, h2]
  · intro n p p1 q left e hc hN h
    have hc1 : p.currentToken.type = TokenType.OPERATOR ∧
        (p.currentToken.text = "+" ∨ p.currentToken.text = "-") := hc
    rw [infixparseExpressionLoop, if_pos hc1]
    simp only [hN, h]
  · intro n p p1 p2 q left right e hc hN h1 h2
    have hc1 : p.currentToken.type = TokenType.OPERATOR ∧
        (p.currentToken.text = "+" ∨ p.currentToken.text = "-") := hc
    rw [infixparseExpressionLoop, if_pos hc1]
    simp only [hN, h1, h2]
  · intro n p p1 p2 q e h1 hN h2 hN2 h
    have hn : p.currentToken.type ≠ TokenType.NUMBER := by rw [h1]; decide
    rw [infixparsePrimary]
    simp only [hn, if_false]
    simp only [h1, if_true, hN, h2, hN2, h]
  · intro n p p1 q e h1 hN h
    have hn : p.currentToken.type ≠ TokenType.NUMBER := by rw [h1]; decide
    have hi : p.currentToken.type ≠ TokenType.IDENTIFIER := by rw [h1]; decide
    rw [infixparsePrimary]
    simp only [hn, hi, if_false]
    simp only [h1, if_true, hN, h]
  · intro p; rfl
  · intro e q h
    exact infixparse_error ops toks unset h0 hsize e q h
  · intro hconv e q h
    exact infixparse_error_converts ops toks unset h0 hsize hconv e q h
  · intro k hk
    rcases hk with rfl | rfl | rfl <;> decide
  · rw [tokensOnePlusParen, new_cons]; decide!
  · rw [tokensOnePlus, new_cons]; decide!
  · rw [tokensTwoTimesParen, new_cons]; decide!
  · rw [tokensTwoTimes, new_cons]; decide!

/-- The tokens of `1 +` meet the hypotheses of `parse_failure`; the exception
is the sentinel's, thrown with the cursor on the last index. -/
theorem parse_failure_witness :
    tokensOnePlus ≠ [] ∧ tokensOnePlus.length < 2 ^ 64 ∧
      infixparse exact (infixParser.new tokensOnePlus END) =
        (.error (.UnexpectedToken "END" 0 0), ⟨tokensOnePlus, 1, END⟩) ∧
      (∀ t ∈ tokensOnePlus, t.type = TokenType.NUMBER → ∃ v : ℚ, exact.stod t.text = .ok v) ∧
      FailurePoint exact (⟨tokensOnePlus, 1, END⟩ : infixParser) :=
  have hconv : ∀ t ∈ tokensOnePlus, t.type = TokenType.NUMBER →
      ∃ v : ℚ, exact.stod t.text = .ok v := by
    intro t ht
    simp only [tokensOnePlus, List.mem_cons, List.mem_singleton, List.not_mem_nil,
      or_false] at ht
    rcases ht with rfl | rfl
    · intro _; exact ⟨1, by decide!⟩
    · intro h; exact absurd h (by decide)
  ⟨by decide, by decide, by decide!, hconv,
    ((parse_failure exact tokensOnePlus END (by decide) (by decide)).2.2.2.2.1 hconv
      (.UnexpectedToken "END" 0 0) ⟨tokensOnePlus, 1, END⟩ (by decide!)).2⟩

/-- C5. Unbalanced parenthesis: if `infixparse` accepts the tokens `e` and
returns with the `END` sentinel as current token, then on a LEFT_PAREN followed
by `e` it throws `UnexpectedToken("END", 0, 0)`, the text, line and column of
the sentinel that `nextToken` builds; `(1 + 2` is such an input. -/
theorem unbalanced_parenthesis {F : Type} (ops : DoubleOps F) (e : List Token)
    (unset lp : Token) (t : ASTNode F) (q : infixParser)
    (hlp : lp.type = TokenType.LEFT_PAREN)
    (he : infixparse ops (infixParser.new e unset) = (.ok t, q))
    (hend : q.currentToken = END) (hsize : (lp :: e).length < 2 ^ 64) :
    (infixparse ops (infixParser.new (lp :: e) unset)).1 =
        .error (.UnexpectedToken "END" 0 0) ∧
      (infixparse ops (infixParser.new (lp :: e) unset)).2.currentToken = END ∧
      END.text = "END" ∧ END.line = 0 ∧ END.column = 0 ∧
      (infixparse exact (infixParser.new tokensOnePlusTwo unset)).1 =
        .ok (.BinaryOperation '+' (.Number 1) (.Number 2)) ∧
      (infixparse exact (infixParser.new tokensUnbalanced unset)).1 =
        .error (.UnexpectedToken "END" 0 0) := by
  have hne : e ≠ [] := by
    intro h
    rw [h] at he
    exact infixparse_nil ops unset t q he
  have hlen : e.length < 2 ^ 64 := by
    simp only [List.length_cons] at hsize
    omega
  have hv := infixparse_run ops e unset hne hlen
  rw [he] at hv
  obtain ⟨h1, h2⟩ := hv
  simp only at h1 h2
  have hcur : restCurrent (runExpression ops e).2 = END := by
    rw [← h2.2.2.1, hend]
  have hrun : runExpression ops (lp :: e) =
      (.error (.UnexpectedToken "END" 0 0), (runExpression ops e).2) := by
    rw [runExpression_eq, runTerm_eq, runFactor_eq, runPrimary_paren ops lp e hlp]
    rcases hr : runExpression ops e with ⟨e1 | t1, r1⟩
    · rw [hr] at h1; cases h1
    · rw [hr] at hcur
      simp only at hcur
      simp only [hcur]
      rfl
  have hv2 := infixparse_run ops (lp :: e) unset (List.cons_ne_nil _ _) hsize
  rw [hrun] at hv2
  refine ⟨hv2.1, ?_, rfl, rfl, rfl, ?_, ?_⟩
  · rw [hv2.2.2.2.1]
    exact hcur
  · rw [tokensOnePlusTwo, new_cons]; decide!
  · rw [tokensUnbalanced, new_cons]; decide!

/-- The tokens of `1 + 2` behind a LEFT_PAREN meet the hypotheses of
`unbalanced_parenthesis`. -/
theorem unbalanced_parenthesis_witness :
    infixparse exact (infixParser.new tokensOnePlusTwo END) =
        (.ok (.BinaryOperation '+' (.Number 1) (.Number 2)), ⟨tokensOnePlusTwo, 2, END⟩) ∧
      (infixparse exact
        (infixParser.new (tokenAt 1 "(" .LEFT_PAREN :: tokensOnePlusTwo) END)).1 =
        .error (.UnexpectedToken "END" 0 0) :=
  ⟨by decide!,
    (unbalanced_parenthesis exact tokensOnePlusTwo END (tokenAt 1 "(" .LEFT_PAREN)
      (.BinaryOperation '+' (.Number 1) (.Number 2)) ⟨tokensOnePlusTwo, 2, END⟩
      rfl (by decide!) rfl (by decide)).1⟩

/-- C6. Variable lookup: evaluating `Variable(name)` returns the value stored
under `name` when the store has one and leaves the store as it is; it throws
`UnknownIdentifier(name)` exactly when the store has none, and throws nothing
else, so no default value is ever produced; `y + 1` against the empty store
fails with `UnknownIdentifier("y")`. -/
theorem variable_lookup {F : Type} (ops : DoubleOps F) (symbolTable : SymbolTable F)
    (name : String) (unset : Token) :
    (∀ v, symbolTable name = some v →
        evaluate ops (.Variable name) symbolTable = (.ok v, symbolTable)) ∧
      ((evaluate ops (.Variable name) symbolTable).1 = .error (.UnknownIdentifier name) ↔
        symbolTable name = none) ∧
      (∀ v, (evaluate ops (.Variable name) symbolTable).1 = .ok v → symbolTable name = some v) ∧
      (∀ e, (evaluate ops (.Variable name) symbolTable).1 = .error e →
        e = .UnknownIdentifier name) ∧
      (infixparse exact (infixParser.new tokensYPlusOne unset)).1 =
        .ok (.BinaryOperation '+' (.Variable "y") (.Number 1)) ∧
      evaluate exact (.BinaryOperation '+' (.Variable "y") (.Number 1)) SymbolTable.empty =
        (.error (.UnknownIdentifier "y"), SymbolTable.empty) := by
  refine ⟨?_, ?_, ?_, ?_, ?_, ?_⟩
  · intro v hv
    simp [evaluate, hv]
  · cases h : symbolTable name <;> simp [evaluate, h]
  · intro v
    cases h : symbolTable name <;> simp [evaluate, h]
  · intro e
    cases h : symbolTable name <;> simp [evaluate, h]
    intro h1; exact h1.symm
  · rw [tokensYPlusOne, new_cons]; decide!
  · simp [evaluate, SymbolTable.empty]

/-- C7. Division by zero: when both operands of `BinaryOperation('/', l, r)`
evaluate (the right one in the store the left one leaves), the node throws
`DivisionByZero` exactly when the right value compares equal to zero, returns
no value in that case whatever the left value is, and otherwise returns the
quotient of the two values; `4 / 0` fails with `DivisionByZero`. -/
theorem division_by_zero {F : Type} (ops : DoubleOps F) (symbolTable st1 st2 : SymbolTable F)
    (l r : ASTNode F) (leftValue rightValue : F) (unset : Token)
    (hl : evaluate ops l symbolTable = (.ok leftValue, st1))
    (hr : evaluate ops r st1 = (.ok rightValue, st2)) :
    ((evaluate ops (.BinaryOperation '/' l r) symbolTable).1 = .error .DivisionByZero ↔
        ops.eqZero rightValue = true) ∧
      (ops.eqZero rightValue = true →
        ∀ v, (evaluate ops (.BinaryOperation '/' l r) symbolTable).1 ≠ .ok v) ∧
      (ops.eqZero rightValue = false →
        evaluate ops (.BinaryOperation '/' l r) symbolTable =
          (.ok (ops.div leftValue rightValue), st2)) ∧
      (∀ v : ℚ, exact.eqZero v = true ↔ v = 0) ∧
      (infixparse exact (infixParser.new tokensFourOverZero unset)).1 =
        .ok (.BinaryOperation '/' (.Number 4) (.Number 0)) ∧
      ∀ st : SymbolTable ℚ,
        evaluate exact (.BinaryOperation '/' (.Number 4) (.Number 0)) st =
          (.error .DivisionByZero, st) := by
  refine ⟨?_, ?_, ?_, ?_, ?_, ?_⟩
  · cases h : ops.eqZero rightValue <;> simp [evaluate, hl, hr, h]
  · intro h v
    simp [evaluate, hl, hr, h]
  · intro h
    simp [evaluate, hl, hr, h]
  · intro v
    simp [exact]
  · rw [tokensFourOverZero, new_cons]; decide!
  · intro st
    simp [evaluate, exact]

/-- Dividing `4` by `2` meets the hypotheses of `division_by_zero`. -/
theorem division_by_zero_witness :
    evaluate exact (.Number 4) SymbolTable.empty = (.ok 4, SymbolTable.empty) ∧
      evaluate exact (.Number 2) SymbolTable.empty = (.ok 2, SymbolTable.empty) ∧
      (exact.eqZero 2 = false →
        evaluate exact (.BinaryOperation '/' (.Number 4) (.Number 2)) SymbolTable.empty =
          (.ok (exact.div 4 2), SymbolTable.empty)) :=
  ⟨rfl, rfl, (division_by_zero exact SymbolTable.empty SymbolTable.empty SymbolTable.empty
    (.Number 4) (.Number 2) 4 2 END rfl rfl).2.2.1⟩

/-- C8. Assignment value and persistence: if `e` evaluates in `s` to `v`
leaving `s'`, then `Assignment(x, e)` returns `v` and leaves `s'` with `x`
mapped to `v` (whatever `x` held before) and every other key as in `s'`;
after `x = 5`, which yields `5`, evaluating `x + 1` in the resulting store
yields `6`. -/
theorem assignment_value_and_persistence {F : Type} (ops : DoubleOps F)
    (s s' : SymbolTable F) (x : String) (e : ASTNode F) (v : F) (unset : Token)
    (he : evaluate ops e s = (.ok v, s')) :
    evaluate ops (.Assignment x e) s = (.ok v, s'.set x v) ∧
      (s'.set x v) x = some v ∧
      (∀ k, k ≠ x → (s'.set x v) k = s' k) ∧
      (infixparse exact (infixParser.new tokensXGetsFive unset)).1 =
        .ok (.Assignment "x" (.Number 5)) ∧
      (infixparse exact (infixParser.new tokensXPlusOne unset)).1 =
        .ok (.BinaryOperation '+' (.Variable "x") (.Number 1)) ∧
      ∀ st : SymbolTable ℚ,
        (evaluate exact (.Assignment "x" (.Number 5)) st).1 = .ok 5 ∧
          (evaluate exact (.BinaryOperation '+' (.Variable "x") (.Number 1))
            (evaluate exact (.Assignment "x" (.Number 5)) st).2).1 = .ok 6 := by
  refine ⟨?_, ?_, ?_, ?_, ?_, ?_⟩
  · simp [evaluate, he]
  · simp [SymbolTable.set]
  · intro k hk
    simp [SymbolTable.set, hk]
  · rw [tokensXGetsFive, new_cons]; decide!
  · rw [tokensXPlusOne, new_cons]; decide!
  · intro st
    simp [evaluate, exact, SymbolTable.set]
    norm_num

/-- Assigning the number `5` to `x` in the empty store meets the hypothesis of
`assignment_value_and_persistence`. -/
theorem assignment_value_and_persistence_witness :
    evaluate exact (.Number 5) SymbolTable.empty = (.ok 5, SymbolTable.empty) ∧
      evaluate exact (.Assignment "x" (.Number 5)) SymbolTable.empty =
        (.ok 5, SymbolTable.empty.set "x" 5) :=
  ⟨rfl, (assignment_value_and_persistence exact SymbolTable.empty SymbolTable.empty "x"
    (.Number 5) 5 END rfl).1⟩

/-- C9. Fixed evaluation order: a `BinaryOperation` evaluates its left operand
first; if that throws, the exception leaves with the store the left operand
left; otherwise the right operand is evaluated in the store the left operand
left, whatever the operator is, and the store it leaves is the store of the
whole node; for `+` the two values are then added. The tree of
`(a = 1) + (a = 2)` evaluates in any store to `3` and leaves `a` mapped to
`2`. -/
theorem fixed_evaluation_order {F : Type} (ops : DoubleOps F) (op : Char) (l r : ASTNode F)
    (symbolTable : SymbolTable F) (unset : Token) :
    (∀ e st1, evaluate ops l symbolTable = (.error e, st1) →
        evaluate ops (.BinaryOperation op l r) symbolTable = (.error e, st1)) ∧
      (∀ leftValue st1, evaluate ops l symbolTable = (.ok leftValue, st1) →
        (evaluate ops (.BinaryOperation op l r) symbolTable).2 = (evaluate ops r st1).2 ∧
          (∀ e, (evaluate ops r st1).1 = .error e →
            (evaluate ops (.BinaryOperation op l r) symbolTable).1 = .error e) ∧
          (∀ rightValue, (evaluate ops r st1).1 = .ok rightValue →
            (evaluate ops (.BinaryOperation '+' l r) symbolTable).1 =
              .ok (ops.add leftValue rightValue))) ∧
      (infixparse exact (infixParser.new tokensTwoAssignments unset)).1 =
        .ok (.BinaryOperation '+' (.Assignment "a" (.Number 1))
          (.Assignment "a" (.Number 2))) ∧
      ∀ st : SymbolTable ℚ,
        (evaluate exact (.BinaryOperation '+' (.Assignment "a" (.Number 1))
            (.Assignment "a" (.Number 2))) st).1 = .ok 3 ∧
          (evaluate exact (.BinaryOperation '+' (.Assignment "a" (.Number 1))
            (.Assignment "a" (.Number 2))) st).2 "a" = some 2 := by
  refine ⟨?_, ?_, ?_, ?_⟩
  · intro e st1 h
    simp [evaluate, h]
  · intro leftValue st1 h
    rcases hr : evaluate ops r st1 with ⟨e | rightValue, st2⟩
    · simp [evaluate, h, hr]
    · refine ⟨?_, ?_, ?_⟩
      · simp only [evaluate, h, hr]
        split_ifs <;> rfl
      · intro e he
        cases he
      · intro rv hrv
        simp only at hrv
        cases hrv
        simp [evaluate, h, hr]
  · rw [tokensTwoAssignments, new_cons]; decide!
  · intro st
    simp [evaluate, exact, SymbolTable.set]
    norm_num

/-- C10, as stated, fails. In `a = b = 1000...0` the last token is a NUMBER
whose lexeme has 310 digits: `std::stod` throws `std::out_of_range` on it and
`infixparse` returns no tree, so there is no `Assignment` to evaluate. -/
theorem chained_assignment_counterexample :
    (tokenAt 9 lexemeTenPow309 .NUMBER).type = TokenType.NUMBER ∧
      exact.stod lexemeTenPow309 = .error .out_of_range ∧
      (infixparse exact (infixParser.new
        [tokenAt 1 "a" .IDENTIFIER, tokenAt 3 "=" .ASSIGNMENT, tokenAt 5 "b" .IDENTIFIER,
          tokenAt 7 "=" .ASSIGNMENT, tokenAt 9 lexemeTenPow309 .NUMBER] END)).1 =
        .error (.stod .out_of_range) ∧
      ∀ t : ASTNode ℚ,
        (infixparse exact (infixParser.new
          [tokenAt 1 "a" .IDENTIFIER, tokenAt 3 "=" .ASSIGNMENT, tokenAt 5 "b" .IDENTIFIER,
            tokenAt 7 "=" .ASSIGNMENT, tokenAt 9 lexemeTenPow309 .NUMBER] END)).1 ≠ .ok t := by
  have h : (infixparse exact (infixParser.new
      [tokenAt 1 "a" .IDENTIFIER, tokenAt 3 "=" .ASSIGNMENT, tokenAt 5 "b" .IDENTIFIER,
        tokenAt 7 "=" .ASSIGNMENT, tokenAt 9 lexemeTenPow309 .NUMBER] END)).1 =
      .error (.stod .out_of_range) := by decide!
  refine ⟨rfl, by decide!, h, ?_⟩
  intro t ht
  rw [h] at ht
  cases ht

/-- C10, amended. Chained assignment: for IDENTIFIER tokens `a`, `b`,
ASSIGNMENT tokens and a NUMBER token `n` whose lexeme `std::stod` converts to
`v`, the tokens `a = b = n` parse as `Assignment(a, Assignment(b, Number(v)))`;
evaluating that tree in any store returns `v` and leaves both names mapped to
it; `a = b = 3` yields `3` with `a = 3` and `b = 3`. -/
theorem chained_assignment {F : Type} (ops : DoubleOps F) (unset a eq1 b eq2 n : Token)
    (v : F)
    (ha : a.type = TokenType.IDENTIFIER) (h1 : eq1.type = TokenType.ASSIGNMENT)
    (hb : b.type = TokenType.IDENTIFIER) (h2 : eq2.type = TokenType.ASSIGNMENT)
    (hn : n.type = TokenType.NUMBER) (hv : ops.stod n.text = .ok v) :
    (infixparse ops (infixParser.new [a, eq1, b, eq2, n] unset)).1 =
        .ok (.Assignment a.text (.Assignment b.text (.Number v))) ∧
      (∀ st : SymbolTable F,
        (evaluate ops (.Assignment a.text (.Assignment b.text (.Number v))) st).1 = .ok v ∧
          (evaluate ops (.Assignment a.text (.Assignment b.text (.Number v))) st).2 a.text =
            some v ∧
          (evaluate ops (.Assignment a.text (.Assignment b.text (.Number v))) st).2 b.text =
            some v) ∧
      (infixparse exact (infixParser.new tokensChainedAssignment unset)).1 =
        .ok (.Assignment "a" (.Assignment "b" (.Number 3))) ∧
      ∀ st : SymbolTable ℚ,
        (evaluate exact (.Assignment "a" (.Assignment "b" (.Number 3))) st).1 = .ok 3 ∧
          (evaluate exact (.Assignment "a" (.Assignment "b" (.Number 3))) st).2 "a" = some 3 ∧
          (evaluate exact (.Assignment "a" (.Assignment "b" (.Number 3))) st).2 "b" = some 3 := by
  refine ⟨?_, ?_, ?_, ?_⟩
  · rw [infixparse_fst ops _ unset (List.cons_ne_nil _ _) (by simp),
      runExpression_eq, runTerm_eq, runFactor_eq, runPrimary_assignment ops a eq1 _ ha h1,
      runExpression_eq, runTerm_eq, runFactor_eq, runPrimary_assignment ops b eq2 _ hb h2,
      runExpression_eq, runTerm_number ops n [] v hn hv not_isMulOp_END]
    simp only [runExpressionLoop_stop ops _ [] not_isAddOp_END,
      runTermLoop_stop ops _ [] not_isMulOp_END]
  · intro st
    refine ⟨?_, ?_, ?_⟩
    · simp [evaluate]
    · simp [evaluate, SymbolTable.set]
    · by_cases h : b.text = a.text <;> simp [evaluate, SymbolTable.set, h]
  · rw [tokensChainedAssignment, new_cons]; decide!
  · intro st
    simp [evaluate, SymbolTable.set]

/-- The tokens of `a = b = 3` meet the hypotheses of `chained_assignment`. -/
theorem chained_assignment_witness :
    (tokenAt 1 "a" .IDENTIFIER).type = TokenType.IDENTIFIER ∧
      (tokenAt 3 "=" .ASSIGNMENT).type = TokenType.ASSIGNMENT ∧
      exact.stod (tokenAt 9 "3" .NUMBER).text = .ok 3 ∧
      (infixparse exact (infixParser.new
        [tokenAt 1 "a" .IDENTIFIER, tokenAt 3 "=" .ASSIGNMENT, tokenAt 5 "b" .IDENTIFIER,
          tokenAt 7 "=" .ASSIGNMENT, tokenAt 9 "3" .NUMBER] END)).1 =
        .ok (.Assignment "a" (.Assignment "b" (.Number 3))) :=
  ⟨rfl, rfl, by decide!, (chained_assignment exact END (tokenAt 1 "a" .IDENTIFIER)
    (tokenAt 3 "=" .ASSIGNMENT) (tokenAt 5 "b" .IDENTIFIER) (tokenAt 7 "=" .ASSIGNMENT)
    (tokenAt 9 "3" .NUMBER) 3 rfl rfl rfl rfl rfl (by decide!)).1⟩

/-- C11. Cursor safety: on a non-empty vector the freshly constructed parser
has its cursor in bounds (index below `tokens.size()`, current token the token
at the index or the sentinel); from a cursor in bounds `nextToken` reads inside
the vector and leaves the cursor in bounds, and so does every parsing method,
none of which reports a read out of bounds; hence so does `infixparse`. After
`k` calls of `nextToken` the index is still below `tokens.size()`, the current
token is token `k` while there is one, and once no token remains it is the
sentinel `END`, of type OPERATOR and text `"END"`. -/
theorem cursor_safety {F : Type} (ops : DoubleOps F) (toks : List Token) (unset : Token)
    (h0 : toks ≠ []) (hsize : toks.length < 2 ^ 64) :
    InBounds toks (infixParser.new toks unset) ∧
      (∀ p, InBounds toks p → ∃ q, nextToken p = .ok q ∧ InBounds toks q) ∧
      (∀ (n : Nat) (p : infixParser), InBounds toks p →
        (InBounds toks (infixparseExpression ops n p).2 ∧
            (infixparseExpression ops n p).1 ≠ .error .outOfBounds) ∧
          (∀ left, InBounds toks (infixparseExpressionLoop ops n left p).2 ∧
            (infixparseExpressionLoop ops n left p).1 ≠ .error .outOfBounds) ∧
          (InBounds toks (infixparseTerm ops n p).2 ∧
            (infixparseTerm ops n p).1 ≠ .error .outOfBounds) ∧
          (∀ left, InBounds toks (infixparseTermLoop ops n left p).2 ∧
            (infixparseTermLoop ops n left p).1 ≠ .error .outOfBounds) ∧
          (InBounds toks (infixparseFactor ops n p).2 ∧
            (infixparseFactor ops n p).1 ≠ .error .outOfBounds) ∧
          (InBounds toks (infixparsePrimary ops n p).2 ∧
            (infixparsePrimary ops n p).1 ≠ .error .outOfBounds)) ∧
      (InBounds toks (infixparse ops (infixParser.new toks unset)).2 ∧
        (infixparse ops (infixParser.new toks unset)).1 ≠ .error .outOfBounds) ∧
      (∀ k : Nat, ∃ q, nextTokens k (infixParser.new toks unset) = .ok q ∧
        q.index < toks.length ∧ (k < toks.length → toks[k]? = some q.currentToken) ∧
        (toks.length ≤ k → q.currentToken = END)) ∧
      (∀ p, InBounds toks p → p.index < p.tokens.length) ∧
      END.type = TokenType.OPERATOR ∧ END.text = "END" := by
  have hnew := inBounds_of_view (view_new toks unset h0 hsize)
  refine ⟨hnew, ?_, ?_, ?_, ?_, ?_, rfl, rfl⟩
  · intro p hp
    obtain ⟨rest, hv⟩ := view_of_inBounds hp
    obtain ⟨q, hq, hvq⟩ := view_nextToken hv
    exact ⟨q, hq, inBounds_of_view hvq⟩
  · intro n p hp
    exact parse_inBounds ops toks n p hp
  · exact (parse_inBounds ops toks _ _ hnew).1
  · intro k
    obtain ⟨q, hq, _, _, hlt, h1, h2⟩ := nextTokens_new toks unset h0 hsize k
    exact ⟨q, hq, hlt, h1, h2⟩
  · intro p hp
    rw [hp.1]
    exact hp.2.2.1

/-- The tokens of `1 +` meet the hypotheses of `cursor_safety`: two calls of
`nextToken` leave the cursor on the last index with the sentinel. -/
theorem cursor_safety_witness :
    tokensOnePlus ≠ [] ∧ tokensOnePlus.length < 2 ^ 64 ∧
      nextTokens 2 (infixParser.new tokensOnePlus END) = .ok ⟨tokensOnePlus, 1, END⟩ ∧
      InBounds tokensOnePlus (infixParser.new tokensOnePlus END) :=
  ⟨by decide, by decide, by decide!,
    (cursor_safety exact tokensOnePlus END (by decide) (by decide)).1⟩

/-- C12. Store frame: evaluating a tree that has no `Assignment` node (only
`Number`, `Variable` and `BinaryOperation`) leaves the symbol table exactly as
it was, whether a value is returned or an exception thrown. -/
theorem store_frame {F : Type} (ops : DoubleOps F) (t : ASTNode F)
    (symbolTable : SymbolTable F) (h : t.AssignmentFree) :
    (evaluate ops t symbolTable).2 = symbolTable ∧
      (∀ v, (evaluate ops t symbolTable).1 = .ok v →
        evaluate ops t symbolTable = (.ok v, symbolTable)) ∧
      (∀ e, (evaluate ops t symbolTable).1 = .error e →
        evaluate ops t symbolTable = (.error e, symbolTable)) ∧
      (∀ value : F, (ASTNode.Number value).AssignmentFree) ∧
      (∀ name : String, (ASTNode.Variable name : ASTNode F).AssignmentFree) ∧
      (∀ (op : Char) (left right : ASTNode F),
        (ASTNode.BinaryOperation op left right).AssignmentFree ↔
          left.AssignmentFree ∧ right.AssignmentFree) ∧
      (∀ (name : String) (expression : ASTNode F),
        ¬ (ASTNode.Assignment name expression).AssignmentFree) := by
  have h2 := evaluate_assignmentFree ops t h symbolTable
  refine ⟨h2, ?_, ?_, fun _ => trivial, fun _ => trivial, fun _ _ _ => Iff.rfl,
    fun _ _ hf => hf⟩
  · intro v hv
    exact Prod.ext hv h2
  · intro e he
    exact Prod.ext he h2

/-- The trees of `y + 1` and `4 / 0` have no `Assignment`; the one throws
`UnknownIdentifier`, the other `DivisionByZero`, and both leave the table. -/
theorem store_frame_witness :
    (ASTNode.BinaryOperation '+' (.Variable "y") (.Number (1 : ℚ))).AssignmentFree ∧
      (evaluate exact (.BinaryOperation '+' (.Variable "y") (.Number 1))
        (SymbolTable.empty.set "x" 5)).2 = SymbolTable.empty.set "x" 5 :=
  ⟨⟨trivial, trivial⟩,
    (store_frame exact (.BinaryOperation '+' (.Variable "y") (.Number 1))
      (SymbolTable.empty.set "x" 5) ⟨trivial, trivial⟩).1⟩

/-- C13. Operator invariant: in every tree `infixparse` returns, each
`BinaryOperation` carries one of `+ - * /`; so evaluating such a tree never
throws `InvalidOperator`, and what it throws is `UnknownIdentifier` or
`DivisionByZero`. -/
theorem operator_invariant {F : Type} (ops : DoubleOps F) (p q : infixParser)
    (t : ASTNode F) (h : infixparse ops p = (.ok t, q)) :
    t.OperatorsSupported ∧
      (∀ symbolTable : SymbolTable F,
        (evaluate ops t symbolTable).1 ≠ .error .InvalidOperator) ∧
      (∀ (symbolTable : SymbolTable F) (e : EvalError),
        (evaluate ops t symbolTable).1 = .error e →
          (∃ name, e = .UnknownIdentifier name) ∨ e = .DivisionByZero) ∧
      (∀ (op : Char) (left right : ASTNode F),
        (ASTNode.BinaryOperation op left right).OperatorsSupported ↔
          (op = '+' ∨ op = '-' ∨ op = '*' ∨ op = '/') ∧ left.OperatorsSupported ∧
            right.OperatorsSupported) ∧
      (∀ (name : String) (expression : ASTNode F),
        (ASTNode.Assignment name expression).OperatorsSupported ↔
          expression.OperatorsSupported) := by
  have hs := infixparse_operators ops p t q h
  refine ⟨hs, ?_, ?_, fun _ _ _ => Iff.rfl, fun _ _ => Iff.rfl⟩
  · intro st he
    rcases evaluate_supported ops t hs st _ he with ⟨name, hn⟩ | hn <;> cases hn
  · intro st e he
    exact evaluate_supported ops t hs st e he

/-- The tree `infixparse` returns for `(a = 1) / 0` meets the hypothesis of
`operator_invariant`; evaluating it throws `DivisionByZero`. -/
theorem operator_invariant_witness :
    infixparse exact (infixParser.new tokensAssignmentOverZero END) =
        (.ok (.BinaryOperation '/' (.Assignment "a" (.Number 1)) (.Number 0)),
          ⟨tokensAssignmentOverZero, 6, END⟩) ∧
      (ASTNode.BinaryOperation '/' (.Assignment "a" (.Number (1 : ℚ)))
        (.Number 0)).OperatorsSupported :=
  ⟨by decide!,
    (operator_invariant exact (infixParser.new tokensAssignmentOverZero END)
      ⟨tokensAssignmentOverZero, 6, END⟩
      (.BinaryOperation '/' (.Assignment "a" (.Number 1)) (.Number 0)) (by decide!)).1⟩

/-- C14. Assignment placement: `infixparsePrimary` on an IDENTIFIER followed
by ASSIGNMENT parses a full expression behind the `=` and returns the
`Assignment` of the name to it (or throws what that expression throws); on an
IDENTIFIER followed by anything else it returns the bare `Variable`. This
holds wherever the primary stands: as right operand of `*` or `/` and as right
operand of `+` or `-`, the assignment takes everything behind the `=`. So, for
NUMBER tokens whose lexemes `std::stod` converts to `v2`, `v1`, `v3`,
`n2 * a = n1 + n3` parses as `*(v2, Assignment(a, +(v1, v3)))`, and
`2 * a = 1 + 3` evaluates to `8` and stores `a = 4`. -/
theorem assignment_placement {F : Type} (ops : DoubleOps F)
    (unset n2 m a eq n1 pl n3 : Token) (v2 v1 v3 : F)
    (h2 : n2.type = TokenType.NUMBER) (hm : IsMulOp m) (ha : a.type = TokenType.IDENTIFIER)
    (heq : eq.type = TokenType.ASSIGNMENT) (h1 : n1.type = TokenType.NUMBER)
    (hpl : IsAddOp pl) (h3 : n3.type = TokenType.NUMBER)
    (hv2 : ops.stod n2.text = .ok v2) (hv1 : ops.stod n1.text = .ok v1)
    (hv3 : ops.stod n3.text = .ok v3) :
    (∀ (n : Nat) (p p1 : infixParser), p.currentToken.type = TokenType.IDENTIFIER →
        nextToken p = .ok p1 → p1.currentToken.type ≠ TokenType.ASSIGNMENT →
        infixparsePrimary ops (n + 1) p = (.ok (.Variable p.currentToken.text), p1)) ∧
      (∀ (n : Nat) (p p1 p2 p3 : infixParser) (expr : ASTNode F),
        p.currentToken.type = TokenType.IDENTIFIER → nextToken p = .ok p1 →
        p1.currentToken.type = TokenType.ASSIGNMENT → nextToken p1 = .ok p2 →
        infixparseExpression ops n p2 = (.ok expr, p3) →
        infixparsePrimary ops (n + 1) p =
          (.ok (.Assignment p.currentToken.text expr), p3)) ∧
      (∀ (n : Nat) (p p1 p2 p3 : infixParser) (e : ParseError),
        p.currentToken.type = TokenType.IDENTIFIER → nextToken p = .ok p1 →
        p1.currentToken.type = TokenType.ASSIGNMENT → nextToken p1 = .ok p2 →
        infixparseExpression ops n p2 = (.error e, p3) →
        infixparsePrimary ops (n + 1) p = (.error e, p3)) ∧
      (infixparse ops (infixParser.new [n2, m, a, eq, n1, pl, n3] unset)).1 =
        .ok (.BinaryOperation (m.text.get 0) (.Number v2)
          (.Assignment a.text
            (.BinaryOperation (pl.text.get 0) (.Number v1) (.Number v3)))) ∧
      (infixparse ops (infixParser.new [n2, pl, a, eq, n1, pl, n3] unset)).1 =
        .ok (.BinaryOperation (pl.text.get 0) (.Number v2)
          (.Assignment a.text
            (.BinaryOperation (pl.text.get 0) (.Number v1) (.Number v3)))) ∧
      (infixparse exact (infixParser.new tokensTwoTimesAssignment unset)).1 =
        .ok (.BinaryOperation '*' (.Number 2)
          (.Assignment "a" (.BinaryOperation '+' (.Number 1) (.Number 3)))) ∧
      ∀ st : SymbolTable ℚ,
        (evaluate exact (.BinaryOperation '*' (.Number 2)
            (.Assignment "a" (.BinaryOperation '+' (.Number 1) (.Number 3)))) st).1 =
            .ok 8 ∧
          (evaluate exact (.BinaryOperation '*' (.Number 2)
            (.Assignment "a" (.BinaryOperation '+' (.Number 1) (.Number 3)))) st).2 "a" =
            some 4 := by
  have hn : ∀ p : infixParser, p.currentToken.type = TokenType.IDENTIFIER →
      p.currentToken.type ≠ TokenType.NUMBER := by
    intro p hp; rw [hp]; decide
  have hrhs : runExpression ops [n1, pl, n3] =
      (.ok (.BinaryOperation (pl.text.get 0) (.Number v1) (.Number v3)), []) := by
    rw [runExpression_eq,
      runTerm_number ops n1 (pl :: [n3]) v1 h1 hv1 (not_isMulOp_of_isAddOp (t := pl) hpl)]
    simp only [runExpressionLoop_step ops _ pl _ hpl,
      runTerm_number ops n3 [] v3 h3 hv3 not_isMulOp_END,
      runExpressionLoop_stop ops _ [] not_isAddOp_END]
  have hassign : runPrimary ops [a, eq, n1, pl, n3] =
      (.ok (.Assignment a.text (.BinaryOperation (pl.text.get 0)
        (.Number v1) (.Number v3))), []) := by
    rw [runPrimary_assignment ops a eq _ ha heq, hrhs]
  refine ⟨?_, ?_, ?_, ?_, ?_, ?_, ?_⟩
  · intro n p p1 hp hN hna
    rw [infixparsePrimary]
    simp only [hn p hp, if_false]
    simp only [hp, if_true, hN, hna, if_false]
  · intro n p p1 p2 p3 expr hp hN hasg hN2 hE
    rw [infixparsePrimary]
    simp only [hn p hp, if_false]
    simp only [hp, if_true, hN, hasg, hN2, hE]
  · intro n p p1 p2 p3 e hp hN hasg hN2 hE
    rw [infixparsePrimary]
    simp only [hn p hp, if_false]
    simp only [hp, if_true, hN, hasg, hN2, hE]
  · rw [infixparse_fst ops _ unset (List.cons_ne_nil _ _) (by simp),
      runExpression_eq, runTerm_eq, runFactor_eq, runPrimary_number ops n2 _ v2 h2 hv2]
    simp only [runTermLoop_step ops _ m _ hm, runFactor_eq, hassign,
      runTermLoop_stop ops _ [] not_isMulOp_END,
      runExpressionLoop_stop ops _ [] not_isAddOp_END]
  · rw [infixparse_fst ops _ unset (List.cons_ne_nil _ _) (by simp),
      runExpression_eq,
      runTerm_number ops n2 (pl :: [a, eq, n1, pl, n3]) v2 h2 hv2
        (not_isMulOp_of_isAddOp (t := pl) hpl)]
    simp only [runExpressionLoop_step ops _ pl _ hpl, runTerm_eq, runFactor_eq, hassign,
      runTermLoop_stop ops _ [] not_isMulOp_END,
      runExpressionLoop_stop ops _ [] not_isAddOp_END]
  · rw [tokensTwoTimesAssignment, new_cons]; decide!
  · intro st
    simp [evaluate, exact, SymbolTable.set]
    norm_num

/-- The tokens of `2 * a = 1 + 3` meet the hypotheses of
`assignment_placement`. -/
theorem assignment_placement_witness :
    IsMulOp (tokenAt 3 "*" .OPERATOR) ∧ IsAddOp (tokenAt 11 "+" .OPERATOR) ∧
      exact.stod "2" = .ok 2 ∧ exact.stod "1" = .ok 1 ∧ exact.stod "3" = .ok 3 ∧
      (infixparse exact (infixParser.new
        [tokenAt 1 "2" .NUMBER, tokenAt 3 "*" .OPERATOR, tokenAt 5 "a" .IDENTIFIER,
          tokenAt 7 "=" .ASSIGNMENT, tokenAt 9 "1" .NUMBER, tokenAt 11 "+" .OPERATOR,
          tokenAt 13 "3" .NUMBER] END)).1 =
        .ok (.BinaryOperation ((tokenAt 3 "*" .OPERATOR).text.get 0)
          (.Number 2)
          (.Assignment "a"
            (.BinaryOperation ((tokenAt 11 "+" .OPERATOR).text.get 0)
              (.Number 1) (.Number 3)))) :=
  ⟨by decide, by decide, by decide!, by decide!, by decide!,
    (assignment_placement exact END (tokenAt 1 "2" .NUMBER) (tokenAt 3 "*" .OPERATOR)
      (tokenAt 5 "a" .IDENTIFIER) (tokenAt 7 "=" .ASSIGNMENT) (tokenAt 9 "1" .NUMBER)
      (tokenAt 11 "+" .OPERATOR) (tokenAt 13 "3" .NUMBER) 2 1 3
      rfl (by decide) rfl rfl rfl (by decide) rfl (by decide!) (by decide!)
      (by decide!)).2.2.2.1⟩

/-- C15. Cursor state machine: `nextToken` never decreases the index, neither
in one call nor along any run of calls from the constructed parser; and `END`
is absorbing: once a call has installed the sentinel (the index not being below
`tokens.size() - 1`), every later call installs it again and leaves the index
where it is, so from `tokens.size()` calls on the cursor stays on the last
index with the sentinel. When no token of the input is itself equal to the
sentinel, the current token being `END` after some call already means that
every later call leaves the parser as it is. -/
theorem cursor_state_machine (toks : List Token) (unset : Token) (h0 : toks ≠ [])
    (hsize : toks.length < 2 ^ 64) :
    (∀ p q, nextToken p = .ok q →
        q.tokens = p.tokens ∧ (q.index = p.index + 1 ∨
          (q.index = p.index ∧ q.currentToken = END))) ∧
      (∀ p q, nextToken p = .ok q → p.index ≤ q.index) ∧
      (∀ (j k : Nat) (p q : infixParser), j ≤ k →
        nextTokens j (infixParser.new toks unset) = .ok p →
        nextTokens k (infixParser.new toks unset) = .ok q → p.index ≤ q.index) ∧
      (∀ p : infixParser, ¬ p.index < sizeMinusOne p.tokens →
        ∀ k : Nat, nextTokens (k + 1) p = .ok { p with currentToken := END }) ∧
      (∀ k : Nat, toks.length ≤ k →
        nextTokens k (infixParser.new toks unset) = .ok ⟨toks, toks.length - 1, END⟩) ∧
      ((∀ t ∈ toks, t ≠ END) → ∀ (k : Nat) (q : infixParser),
        nextTokens k (infixParser.new toks unset) = .ok q → q.currentToken = END →
        ∀ j : Nat, k ≤ j → nextTokens j (infixParser.new toks unset) = .ok q) := by
  have hstep : ∀ p q, nextToken p = .ok q →
      q.tokens = p.tokens ∧ (q.index = p.index + 1 ∨
        (q.index = p.index ∧ q.currentToken = END)) := by
    intro p q h
    unfold nextToken at h
    split at h
    · split at h
      · cases h; exact ⟨rfl, Or.inl rfl⟩
      · cases h
    · cases h; exact ⟨rfl, Or.inr ⟨rfl, rfl⟩⟩
  have hend : ∀ p : infixParser, ¬ p.index < sizeMinusOne p.tokens →
      nextToken p = .ok { p with currentToken := END } := by
    intro p hp
    unfold nextToken
    rw [if_neg hp]
  have hlast : ∀ k : Nat, toks.length ≤ k →
      nextTokens k (infixParser.new toks unset) = .ok ⟨toks, toks.length - 1, END⟩ := by
    intro k hk
    obtain ⟨q, hq, ht, hi, _, _, hc⟩ := nextTokens_new toks unset h0 hsize k
    rw [hq]
    cases q
    simp only at ht hi hc
    rw [ht, hi, hc hk, Nat.min_eq_right (by omega)]
  refine ⟨hstep, ?_, ?_, ?_, hlast, ?_⟩
  · intro p q h
    rcases (hstep p q h).2 with h1 | h1 <;> omega
  · intro j k p q hjk hp hq
    obtain ⟨p', hp', _, hpi, _⟩ := nextTokens_new toks unset h0 hsize j
    obtain ⟨q', hq', _, hqi, _⟩ := nextTokens_new toks unset h0 hsize k
    rw [hp] at hp'
    rw [hq] at hq'
    injection hp' with hp'
    injection hq' with hq'
    subst hp' hq'
    rw [hpi, hqi]
    omega
  · intro p hp k
    induction k with
    | zero => simp only [nextTokens, hend p hp]
    | succ k ih =>
      rw [nextTokens, hend p hp]
      simp only
      have h2 := hend { p with currentToken := END } hp
      rw [nextTokens, h2]
      simp only
      cases k with
      | zero => rfl
      | succ k =>
        rw [nextTokens, hend p hp] at ih
        exact ih
  · intro hno k q hq hcur j hkj
    obtain ⟨q1, hq1, _, _, _, hin, _⟩ := nextTokens_new toks unset h0 hsize k
    rw [hq] at hq1
    injection hq1 with hq1
    subst hq1
    have hk : toks.length ≤ k := by
      by_contra hlt
      have hlt2 : k < toks.length := by omega
      have hm := hin hlt2
      rw [hcur, List.getElem?_eq_getElem hlt2] at hm
      injection hm with hm
      exact hno _ (List.getElem_mem _) hm
    rw [hlast j (by omega), ← hq, hlast k hk]

/-- The tokens of `1 +` meet the hypotheses of `cursor_state_machine`: from
two calls on, the cursor stays on index 1 with the sentinel. -/
theorem cursor_state_machine_witness :
    tokensOnePlus ≠ [] ∧ tokensOnePlus.length < 2 ^ 64 ∧
      nextTokens 5 (infixParser.new tokensOnePlus END) = .ok ⟨tokensOnePlus, 1, END⟩ :=
  ⟨by decide, by decide,
    (cursor_state_machine tokensOnePlus END (by decide) (by decide)).2.2.2.2.1 5
      (by decide)⟩

/-- C16, as stated, fails: `infixparse` ends, but not always with a tree or
with `UnexpectedToken`. On `( 1000...0 )`, whose NUMBER lexeme has 310 digits,
it ends with the `std::out_of_range` that `std::stod` throws. -/
theorem parser_termination_counterexample :
    exact.stod lexemeTenPow309 = .error .out_of_range ∧
      (infixparse exact (infixParser.new
        [tokenAt 1 "(" .LEFT_PAREN, tokenAt 2 lexemeTenPow309 .NUMBER,
          tokenAt 312 ")" .RIGHT_PAREN] END)).1 = .error (.stod .out_of_range) ∧
      ¬ ((∃ t : ASTNode ℚ, (infixparse exact (infixParser.new
            [tokenAt 1 "(" .LEFT_PAREN, tokenAt 2 lexemeTenPow309 .NUMBER,
              tokenAt 312 ")" .RIGHT_PAREN] END)).1 = .ok t) ∨
          (∃ text line column, (infixparse exact (infixParser.new
            [tokenAt 1 "(" .LEFT_PAREN, tokenAt 2 lexemeTenPow309 .NUMBER,
              tokenAt 312 ")" .RIGHT_PAREN] END)).1 =
            .error (.UnexpectedToken text line column))) := by
  have h : (infixparse exact (infixParser.new
      [tokenAt 1 "(" .LEFT_PAREN, tokenAt 2 lexemeTenPow309 .NUMBER,
        tokenAt 312 ")" .RIGHT_PAREN] END)).1 = .error (.stod .out_of_range) := by decide!
  refine ⟨by decide!, h, ?_⟩
  rintro (⟨t, ht⟩ | ⟨text, line, column, ht⟩) <;> rw [h] at ht <;> cases ht

/-- C16, amended. Parser termination: on a non-empty vector `infixparse` ends,
with a tree, with `UnexpectedToken`, or with the exception `std::stod` throws
on a NUMBER lexeme; when `std::stod` converts the lexeme of every NUMBER token
of the input, it ends with a tree or with `UnexpectedToken`. The fuel it is run
on is not exhausted, and any larger amount gives the same outcome. The
recursion is well-founded: from a cursor in bounds `nextToken` advances the
index or installs the `END` sentinel, on the sentinel neither loop goes on and
`infixparsePrimary` throws, and an expression that is returned has consumed at
least one of the tokens that were still to be read. -/
theorem parser_termination {F : Type} (ops : DoubleOps F) (toks : List Token)
    (unset : Token) (h0 : toks ≠ []) (hsize : toks.length < 2 ^ 64) :
    ((∃ t, (infixparse ops (infixParser.new toks unset)).1 = .ok t) ∨
        (∃ text line column, (infixparse ops (infixParser.new toks unset)).1 =
          .error (.UnexpectedToken text line column)) ∨
        (∃ se, (infixparse ops (infixParser.new toks unset)).1 = .error (.stod se))) ∧
      ((∀ t ∈ toks, t.type = TokenType.NUMBER → ∃ v : F, ops.stod t.text = .ok v) →
        ((∃ t, (infixparse ops (infixParser.new toks unset)).1 = .ok t) ∨
          (∃ text line column, (infixparse ops (infixParser.new toks unset)).1 =
            .error (.UnexpectedToken text line column)))) ∧
      (infixparse ops (infixParser.new toks unset)).1 ≠ .error .fuelExhausted ∧
      (∀ n : Nat, 4 * toks.length + 4 ≤ n →
        infixparseExpression ops n (infixParser.new toks unset) =
          infixparse ops (infixParser.new toks unset)) ∧
      (∀ p, InBounds toks p → ∃ q, nextToken p = .ok q ∧
        (q.index = p.index + 1 ∨ (q.index = p.index ∧ q.currentToken = END))) ∧
      (∀ (n : Nat) (left : ASTNode F) (p : infixParser), p.currentToken = END →
        infixparseExpressionLoop ops (n + 1) left p = (.ok left, p) ∧
          infixparseTermLoop ops (n + 1) left p = (.ok left, p) ∧
          infixparsePrimary ops (n + 1) p = (.error (.UnexpectedToken "END" 0 0), p)) ∧
      (∀ (n : Nat) (p q : infixParser) (rest : List Token) (t : ASTNode F),
        View toks p rest → infixparseExpression ops n p = (.ok t, q) →
        ∃ rest1, View toks q rest1 ∧ rest1.length < rest.length) := by
  have htotal := infixparse_total ops toks unset h0 hsize
  refine ⟨htotal, ?_, ?_, ?_, ?_, ?_, ?_⟩
  · intro hconv
    exact infixparse_total_converts ops toks unset h0 hsize hconv
  · intro h
    rcases htotal with ⟨t, ht⟩ | ⟨a, b, c, ht⟩ | ⟨se, ht⟩ <;> rw [ht] at h <;> cases h
  · intro n hn
    exact infixparse_fuel ops toks unset h0 hsize n hn
  · intro p hp
    obtain ⟨rest, hv⟩ := view_of_inBounds hp
    obtain ⟨q, hq, _⟩ := view_nextToken hv
    refine ⟨q, hq, ?_⟩
    unfold nextToken at hq
    split at hq
    · split at hq
      · cases hq; exact Or.inl rfl
      · cases hq
    · cases hq; exact Or.inr ⟨rfl, rfl⟩
  · intro n left p hp
    refine ⟨?_, ?_, ?_⟩
    · rw [infixparseExpressionLoop, hp]
      exact if_neg not_isAddOp_END
    · rw [infixparseTermLoop, hp]
      exact if_neg not_isMulOp_END
    · rw [infixparsePrimary, hp]
      rfl
  · intro n p q rest t hv h
    have hvr := (view_parse ops toks n).1 p rest hv
    rw [h] at hvr
    refine ⟨_, hvr.2, ?_⟩
    have hc := (rest_consumes ops n).1 rest t (restExpression ops n rest).2
      (Prod.ext hvr.1.symm rfl)
    omega

/-- The tokens of `1 +` meet the hypotheses of `parser_termination`: the run
ends with `UnexpectedToken` for the sentinel. -/
theorem parser_termination_witness :
    tokensOnePlus ≠ [] ∧ tokensOnePlus.length < 2 ^ 64 ∧
      (infixparse exact (infixParser.new tokensOnePlus END)).1 =
        .error (.UnexpectedToken "END" 0 0) ∧
      (infixparse exact (infixParser.new tokensOnePlus END)).1 ≠ .error .fuelExhausted :=
  ⟨by decide, by decide, by decide!,
    (parser_termination exact tokensOnePlus END (by decide) (by decide)).2.2.1⟩

/-- C17. Trailing tokens are not rejected: `infixparse` returns once the
leading expression is complete and does not look at what follows. On `1 2` it
returns `Number 1` with the cursor on the `2`; on `1 + 2 )` it returns
`1 + 2` with the cursor on the `)`; neither call throws. -/
theorem trailing_tokens_not_rejected (unset : Token) :
    infixparse exact (infixParser.new tokensOneTwo unset) =
        (.ok (.Number 1), ⟨tokensOneTwo, 1, tokenAt 3 "2" .NUMBER⟩) ∧
      infixparse exact (infixParser.new tokensOnePlusTwoParen unset) =
        (.ok (.BinaryOperation '+' (.Number 1) (.Number 2)),
          ⟨tokensOnePlusTwoParen, 3, tokenAt 7 ")" .RIGHT_PAREN⟩) ∧
      (infixparse exact (infixParser.new tokensOneTwo unset)).2.currentToken ≠ END ∧
      (infixparse exact (infixParser.new tokensOnePlusTwoParen unset)).2.currentToken ≠
        END ∧
      (infixparse exact (infixParser.new [tokenAt 1 "1" .NUMBER] unset)).1 =
        .ok (.Number 1) ∧
      (infixparse exact (infixParser.new tokensOnePlusTwo unset)).1 =
        .ok (.BinaryOperation '+' (.Number 1) (.Number 2)) ∧
      ∀ {F : Type} (ops : DoubleOps F) (p : infixParser),
        infixparse ops p = infixparseExpression ops (4 * p.tokens.length + 4) p := by
  have h1 : infixparse exact (infixParser.new tokensOneTwo unset) =
      (.ok (.Number 1), ⟨tokensOneTwo, 1, tokenAt 3 "2" .NUMBER⟩) := by
    rw [tokensOneTwo, new_cons]; decide!
  have h2 : infixparse exact (infixParser.new tokensOnePlusTwoParen unset) =
      (.ok (.BinaryOperation '+' (.Number 1) (.Number 2)),
        ⟨tokensOnePlusTwoParen, 3, tokenAt 7 ")" .RIGHT_PAREN⟩) := by
    rw [tokensOnePlusTwoParen, new_cons]; decide!
  refine ⟨h1, h2, ?_, ?_, ?_, ?_, ?_⟩
  · rw [h1]; decide
  · rw [h2]; decide
  · rw [new_cons]; decide!
  · rw [tokensOnePlusTwo, new_cons]; decide!
  · intro F ops p; rfl

/-- C18. Failed evaluation is not atomic: the tree of `(a = 1) / 0` throws
`DivisionByZero`, and the table the failed call leaves maps `a` to `1`, though
the empty table it started from had no `a`. -/
theorem failed_evaluation_not_atomic (unset : Token) :
    (infixparse exact (infixParser.new tokensAssignmentOverZero unset)).1 =
        .ok (.BinaryOperation '/' (.Assignment "a" (.Number 1)) (.Number 0)) ∧
      (evaluate exact (.BinaryOperation '/' (.Assignment "a" (.Number 1)) (.Number 0))
        SymbolTable.empty).1 = .error .DivisionByZero ∧
      (evaluate exact (.BinaryOperation '/' (.Assignment "a" (.Number 1)) (.Number 0))
        SymbolTable.empty).2 "a" = some 1 ∧
      (SymbolTable.empty : SymbolTable ℚ) "a" = none ∧
      (evaluate exact (.BinaryOperation '/' (.Assignment "a" (.Number 1)) (.Number 0))
        SymbolTable.empty).2 ≠ SymbolTable.empty ∧
      ∀ st : SymbolTable ℚ,
        evaluate exact (.BinaryOperation '/' (.Assignment "a" (.Number 1)) (.Number 0)) st =
          (.error .DivisionByZero, st.set "a" 1) := by
  have hall : ∀ st : SymbolTable ℚ,
      evaluate exact (.BinaryOperation '/' (.Assignment "a" (.Number 1)) (.Number 0)) st =
        (.error .DivisionByZero, st.set "a" 1) := by
    intro st
    simp [evaluate, exact]
  refine ⟨?_, ?_, ?_, rfl, ?_, hall⟩
  · rw [tokensAssignmentOverZero, new_cons]; decide!
  · rw [hall]
  · rw [hall]; simp [SymbolTable.set]
  · rw [hall]
    intro h
    have := congrFun h "a"
    simp [SymbolTable.set, SymbolTable.empty] at this

/-- C19. The two printers agree: on every tree `printInfix` returns the string
of `toInfix`, which is `"(" + left + " " + op + " " + right + ")"` for a
`BinaryOperation`, `"(" + name + " = " + expression + ")"` for an `Assignment`,
the name for a `Variable` and the stream form of the value for a `Number`. -/
theorem printers_agree {F : Type} (ops : DoubleOps F) (t : ASTNode F) :
    printInfix ops t = t.toInfix ops ∧
      (∀ (op : Char) (left right : ASTNode F),
        printInfix ops (.BinaryOperation op left right) =
          "(" ++ printInfix ops left ++ " " ++ String.singleton op ++ " " ++
            printInfix ops right ++ ")" ∧
        (ASTNode.BinaryOperation op left right).toInfix ops =
          "(" ++ left.toInfix ops ++ " " ++ String.singleton op ++ " " ++
            right.toInfix ops ++ ")") ∧
      (∀ (name : String) (expression : ASTNode F),
        printInfix ops (.Assignment name expression) =
          "(" ++ name ++ " = " ++ printInfix ops expression ++ ")" ∧
        (ASTNode.Assignment name expression).toInfix ops =
          "(" ++ name ++ " = " ++ expression.toInfix ops ++ ")") ∧
      (∀ name : String, printInfix ops (.Variable name) = name ∧
        (ASTNode.Variable name : ASTNode F).toInfix ops = name) ∧
      (∀ value : F, printInfix ops (.Number value) = ops.toStr value ∧
        (ASTNode.Number value).toInfix ops = ops.toStr value) ∧
      printInfix exact
          (.BinaryOperation '*' (.Number 2)
            (.Assignment "a" (.BinaryOperation '+' (.Number 1) (.Number 3)))) =
        "(2 * (a = (1 + 3)))" := by
  refine ⟨printInfix_eq_toInfix ops t, fun _ _ _ => ⟨rfl, rfl⟩, fun _ _ => ⟨rfl, rfl⟩,
    fun _ => ⟨rfl, rfl⟩, fun _ => ⟨rfl, rfl⟩, by decide!⟩

/-- C20. Empty input defeats the `END` sentinel: for the empty vector
`tokens.size() - 1` is `2 ^ 64 - 1` in `size_t` arithmetic, so at index `0` the
bound check of `nextToken` holds and the method reads `tokens[1]`, which the
empty vector does not have, instead of installing the sentinel; `infixparse`
then returns no tree. On every non-empty vector the same call stays inside. -/
theorem empty_input_defeats_sentinel (unset : Token) :
    sizeMinusOne [] = 2 ^ 64 - 1 ∧
      (infixParser.new [] unset).index = 0 ∧
      (infixParser.new [] unset).index < sizeMinusOne (infixParser.new [] unset).tokens ∧
      (infixParser.new [] unset).tokens[(infixParser.new [] unset).index + 1]? = none ∧
      ¬ (infixParser.new [] unset).index + 1 < (infixParser.new [] unset).tokens.length ∧
      nextToken (infixParser.new [] unset) = .error .outOfBounds ∧
      nextToken (infixParser.new [] unset) ≠
        .ok { infixParser.new [] unset with currentToken := END } ∧
      (∀ {F : Type} (ops : DoubleOps F) (t : ASTNode F) (q : infixParser),
        infixparse ops (infixParser.new [] unset) ≠ (.ok t, q)) ∧
      (∀ toks : List Token, toks ≠ [] → toks.length < 2 ^ 64 →
        sizeMinusOne toks = toks.length - 1 ∧
          ∃ q, nextToken (infixParser.new toks unset) = .ok q ∧ q.index < toks.length) := by
  have hs : sizeMinusOne [] = 2 ^ 64 - 1 := by decide
  have hn : nextToken (infixParser.new [] unset) = .error .outOfBounds := by
    simp [nextToken, sizeMinusOne, infixParser.new]
  refine ⟨hs, rfl, ?_, rfl, ?_, hn, ?_, ?_, ?_⟩
  · show 0 < sizeMinusOne []
    rw [hs]; decide
  · simp [infixParser.new]
  · rw [hn]; intro h; cases h
  · intro F ops t q
    exact infixparse_nil ops unset t q
  · intro toks h0 hsize
    refine ⟨sizeMinusOne_eq toks (List.length_pos.mpr h0) hsize, ?_⟩
    obtain ⟨q, hq, hv⟩ := view_nextToken (view_new toks unset h0 hsize)
    exact ⟨q, hq, (inBounds_of_view hv).2.2.1⟩

end ScriptLang
